import Mathlib

/-!
# The PSI cluster reaction network

A shallow embedding of `PSIClusterReactionNetwork` (sectional branch), of
`HeCluster::createReactionConnectivity` and
`HeCluster::createDissociationConnectivity` (dissociation branch) and of
`BubbleBurstingHandler::computeBursting` and
`BubbleBurstingHandler::computePartialsForBursting` (tutorial branch),
followed by the theorems that settle the claims of the specification.

Conventions of the embedding

* C++ `int` is `Int`.  Counts, ids and the sizes of the connectivity pass stay
  far inside the range of a 32-bit `int` and no wrap-around is applied to them.
  The sum `numHe + numV + numI` of `add` can leave this range for one cluster;
  signed overflow is undefined behaviour in C++, and the sum is given the
  two's-complement value the compiled code computes (`wrapInt`).
* `std::map<K, V>` is a key-sorted association list (`StdMap`).
* A `std::shared_ptr<IReactant>` / `IReactant *` is a `Handle`: the position of
  the reactant object in `Network.objects`, the objects the network points to.
  A null pointer is `none`.
* A member function that mutates the network and may throw returns a `Result`:
  the network as it is when the function returns or throws, and what was
  thrown, if anything.
* C++ `double` is `Rat`.  The arithmetic of the rate laws is a parameter; the
  sums and products of the fluxes and of the bursting terms are exact.
* A `double *` or `int *` array is a list; an access outside it, which C++
  leaves undefined, is reported as `std::out_of_range`.
-/

namespace Xolotl

/-- What a member function throws: the `std::string` thrown by the network,
the two standard exceptions of `std::map::at` and `std::stoi`, and the
dereference of a null pointer. -/
inductive Thrown where
  | message (text : String)
  | out_of_range
  | invalid_argument
  | nullDereference
  deriving DecidableEq, Repr

/-! ## `std::map` -/

/-- A `std::map`: an association list kept sorted by key. -/
abbrev StdMap (K V : Type) := List (K × V)

namespace StdMap

variable {K V : Type} [DecidableEq K]

/-- The value stored under `k`, if any (`std::map::find`). -/
def find : StdMap K V → K → Option V
  | [], _ => none
  | (k', v) :: t, k => if k' = k then some v else find t k

/-- The number of entries with key `k`, 0 or 1 (`std::map::count`). -/
def count (m : StdMap K V) (k : K) : Nat :=
  match find m k with
  | some _ => 1
  | none => 0

/-- The access `m.at(k)`, which throws `std::out_of_range` for a missing key. -/
def atKey (m : StdMap K V) (k : K) : Except Thrown V :=
  match find m k with
  | some v => .ok v
  | none => .error .out_of_range

/-- The assignment `m[k] = v` (`std::map::operator[]` followed by assignment);
`lt` is the strict order of the keys. -/
def set (lt : K → K → Bool) : StdMap K V → K → V → StdMap K V
  | [], k, v => [(k, v)]
  | (k', v') :: t, k, v =>
    if k' = k then (k, v) :: t
    else if lt k k' then (k, v) :: (k', v') :: t
    else (k', v') :: set lt t k v

/-- Removal of the entry with key `k` (`std::map::erase(key)`). -/
def erase : StdMap K V → K → StdMap K V
  | [], _ => []
  | (k', v') :: t, k => if k' = k then t else (k', v') :: erase t k

end StdMap

/-- Lexicographic comparison of two character sequences. -/
def charsLt : List Char → List Char → Bool
  | [], [] => false
  | [], _ :: _ => true
  | _ :: _, [] => false
  | a :: as, b :: bs =>
    if a.toNat < b.toNat then true
    else if a = b then charsLt as bs
    else false

/-- The order of `std::string` keys (`std::string::compare`). -/
def strLt (a b : String) : Bool := charsLt a.data b.data

/-! ## `std::to_string` and `std::stoi` -/

/-- Decimal rendering of an integer (`std::to_string((long long) n)`). -/
def to_string : Int → String
  | Int.ofNat m => String.mk (Nat.toDigits 10 m)
  | Int.negSucc m => String.mk ('-' :: Nat.toDigits 10 (m + 1))

/-- The characters `std::isspace` accepts in the C locale. -/
def isSpace (c : Char) : Bool :=
  c = ' ' || c = '\t' || c = '\n' || c = '\x0b' || c = '\x0c' || c = '\r'

/-- Value of a run of decimal digits read left to right, from `acc`. -/
def digitsValue (acc : Nat) : List Char → Nat
  | [] => acc
  | c :: cs => digitsValue (10 * acc + (c.toNat - 48)) cs

/-- The unsigned part of `std::stoi`: the longest prefix of decimal digits,
which must not be empty. -/
def stoiDigits (cs : List Char) : Option Nat :=
  match cs.takeWhile Char.isDigit with
  | [] => none
  | ds => some (digitsValue 0 ds)

/-- The function `std::stoi` in base 10: leading white space is skipped, an
optional sign is read, then the longest run of digits; `none` stands for the
exception `std::invalid_argument` thrown when there is no digit.  Characters
after the digits are ignored. -/
def stoi (s : String) : Option Int :=
  match s.data.dropWhile isSpace with
  | '-' :: cs => (stoiDigits cs).map (fun n => - (n : Int))
  | '+' :: cs => (stoiDigits cs).map (fun n => (n : Int))
  | cs => (stoiDigits cs).map (fun n => (n : Int))

/-! ## Clusters -/

/-- The species-type tag of a cluster. -/
inductive ClusterType where
  | He | V | I | HeV | HeI | Super
  deriving DecidableEq, Repr

/-- Modelled from the spec: the constant `heType` of `Constants.h`, which is
not among the sources; the name is the one the tests and `HeCluster` use. -/
def heType : String := "He"

/-- Modelled from the spec: the constant `vType` of `Constants.h`. -/
def vType : String := "V"

/-- Modelled from the spec: the constant `iType` of `Constants.h`. -/
def iType : String := "I"

/-- Modelled from the spec: the constant `heVType` of `Constants.h`. -/
def heVType : String := "HeV"

/-- Modelled from the spec: the constant `heIType` of `Constants.h`. -/
def heIType : String := "HeI"

/-- Modelled from the spec: the constant `superType` of `Constants.h`; the
test `checkNames` expects the name `PSISuper`. -/
def superType : String := "PSISuper"

/-- The string returned by `getType()`. -/
def ClusterType.name : ClusterType → String
  | .He => heType
  | .V => vType
  | .I => iType
  | .HeV => heVType
  | .HeI => heIType
  | .Super => superType

/-- A composition: the `std::map<std::string, int>` with the three keys
`He`, `V` and `I`. -/
structure Composition where
  he : Int
  v : Int
  i : Int
  deriving DecidableEq, Repr

/-- The order `std::map` puts on compositions: `std::map<std::string, int>`
compares lexicographically along its sorted keys `He < I < V`. -/
def Composition.lt (a b : Composition) : Bool :=
  decide (a.he < b.he) ||
    (decide (a.he = b.he) &&
      (decide (a.i < b.i) || (decide (a.i = b.i) && decide (a.v < b.v))))

/-- The assignment `composition[type] = size` for `type` one of the three
single-species names. -/
def Composition.setKey (c : Composition) (type : String) (size : Int) : Composition :=
  if type = heType then { c with he := size }
  else if type = vType then { c with v := size }
  else if type = iType then { c with i := size }
  else c

/-- A pointer to a reactant: its position among the objects of the network. -/
abbrev Handle := Nat

/-- A `ClusterPair`: the two clusters of a reaction or dissociation and the
rate constant of it.  A `double` is a rational number here: the functions that
are embedded store and copy these values and leave the arithmetic to the rate
laws, which are parameters. -/
structure ClusterPair where
  first : Handle
  second : Handle
  kConstant : Rat := 0
  deriving DecidableEq, Repr

/-- A `CombiningCluster`: the partner of a combination reaction and the rate
constant of it. -/
structure CombiningCluster where
  combining : Handle
  kConstant : Rat := 0
  deriving DecidableEq, Repr

/-- Modelled from the spec: the class `Reactant` / `PSICluster`, whose
definition is not among the sources: the data members the network and the
clusters read and write.  An effective list (`effReactingPairs`, ...) is a
vector of pointers into the list of the same name; a pointer is the position
of the entry it points to. -/
structure Reactant where
  typeName : ClusterType
  size : Int
  composition : Composition
  id : Int := 0
  heMomentumId : Int := 0
  vMomentumId : Int := 0
  reactionConnectivitySet : List Int := []
  reactingPairs : List ClusterPair := []
  combiningReactants : List CombiningCluster := []
  dissociatingPairs : List ClusterPair := []
  emissionPairs : List ClusterPair := []
  effReactingPairs : List Nat := []
  effCombiningReactants : List Nat := []
  effDissociatingPairs : List Nat := []
  effEmissionPairs : List Nat := []
  concentration : Rat := 0
  temperature : Rat := 0
  diffusionCoefficient : Rat := 0
  deriving DecidableEq, Repr

/-- The call `setId(id)`. -/
def Reactant.setId (r : Reactant) (id : Int) : Reactant := { r with id := id }

/-! ## The network -/

/-- The data members of `PSIClusterReactionNetwork`. -/
structure Network where
  objects : List Reactant
  singleSpeciesMap : StdMap Composition Handle
  mixedSpeciesMap : StdMap Composition Handle
  superSpeciesMap : StdMap Composition Handle
  clusterTypeMap : StdMap String (List Handle)
  allReactants : List Handle
  properties : StdMap String String
  networkSize : Int
  names : List String
  compoundNames : List String
  temperature : Rat
  deriving DecidableEq, Repr

/-- The network after a call, and what the call threw. -/
structure Result where
  thrown : Option Thrown
  net : Network
  deriving DecidableEq, Repr

/-- Modelled from the spec: the base-class constructor `ReactionNetwork()`,
not among the sources: a network "created empty". -/
def ReactionNetwork.init : Network :=
  { objects := [], singleSpeciesMap := [], mixedSpeciesMap := [], superSpeciesMap := [],
    clusterTypeMap := [], allReactants := [], properties := [], networkSize := 0,
    names := [], compoundNames := [], temperature := 0 }

/-- The assignment `(*properties)[key] = value`. -/
def Network.setProp (net : Network) (key value : String) : Network :=
  { net with properties := StdMap.set strLt net.properties key value }

/-- The assignment `clusterTypeMap[key] = vec`. -/
def Network.setTypeVector (net : Network) (key : String) (vec : List Handle) : Network :=
  { net with clusterTypeMap := StdMap.set strLt net.clusterTypeMap key vec }

/-- The function `PSIClusterReactionNetwork::setDefaultPropsAndNames`. -/
def setDefaultPropsAndNames (net : Network) : Network :=
  let net := net.setProp "reactionsEnabled" "true"
  let net := net.setProp "dissociationsEnabled" "true"
  let net := net.setProp "numHeClusters" "0"
  let net := net.setProp "numVClusters" "0"
  let net := net.setProp "numIClusters" "0"
  let net := net.setProp "numHeVClusters" "0"
  let net := net.setProp "numHeIClusters" "0"
  let net := net.setProp "numSuperClusters" "0"
  let net := net.setProp "maxHeClusterSize" "0"
  let net := net.setProp "maxVClusterSize" "0"
  let net := net.setProp "maxIClusterSize" "0"
  let net := net.setProp "maxHeVClusterSize" "0"
  let net := net.setProp "maxHeIClusterSize" "0"
  let net := { net with networkSize := 0 }
  let net := { net with names := net.names ++ [heType, vType, iType] }
  let net := { net with compoundNames := net.compoundNames ++ [heVType, heIType, superType] }
  let net := net.setTypeVector heType []
  let net := net.setTypeVector vType []
  let net := net.setTypeVector iType []
  let net := net.setTypeVector heVType []
  let net := net.setTypeVector heIType []
  let net := net.setTypeVector superType []
  net

/-- The constructor `PSIClusterReactionNetwork()`. -/
def Network.new : Network := setDefaultPropsAndNames ReactionNetwork.init

/-- The function `PSIClusterReactionNetwork::get`; the result is the pointer
returned, `none` for the null pointer. -/
def get (net : Network) (type : String) (size : Int) : Except Thrown (Option Handle) :=
  let composition : Composition := { he := 0, v := 0, i := 0 }
  if (type = heType ∨ type = vType ∨ type = iType) ∧ size ≥ 1 then
    let composition := composition.setKey type size
    if StdMap.count net.singleSpeciesMap composition ≠ 0 then
      (StdMap.atKey net.singleSpeciesMap composition).map some
    else .ok none
  else .ok none

/-- The composition `getCompound` and `getSuper` build from `sizes`. -/
def compositionOfSizes (sizes : List Int) : Composition :=
  { he := sizes.getD 0 0, v := sizes.getD 1 0, i := sizes.getD 2 0 }

/-- The function `PSIClusterReactionNetwork::getCompound`. -/
def getCompound (net : Network) (type : String) (sizes : List Int) :
    Except Thrown (Option Handle) :=
  if (type = heVType ∨ type = heIType) ∧ sizes.length = 3 then
    let composition := compositionOfSizes sizes
    if StdMap.count net.mixedSpeciesMap composition ≠ 0 then
      (StdMap.atKey net.mixedSpeciesMap composition).map some
    else .ok none
  else .ok none

/-- The function `PSIClusterReactionNetwork::getSuper`. -/
def getSuper (net : Network) (type : String) (sizes : List Int) :
    Except Thrown (Option Handle) :=
  if type = superType ∧ sizes.length = 3 then
    let composition := compositionOfSizes sizes
    if StdMap.count net.superSpeciesMap composition ≠ 0 then
      (StdMap.atKey net.superSpeciesMap composition).map some
    else .ok none
  else .ok none

/-- The function `PSIClusterReactionNetwork::getAll()`. -/
def getAll (net : Network) : List Handle := net.allReactants

/-- The function `PSIClusterReactionNetwork::getAll(name)`. -/
def getAllOfType (net : Network) (name : String) : Except Thrown (List Handle) :=
  if name = heType ∨ name = vType ∨ name = iType ∨ name = heVType
      ∨ name = heIType ∨ name = superType then
    StdMap.atKey net.clusterTypeMap name
  else .ok []

/-- Modelled from the spec: the getter `size()`, declared in a header that is
not among the sources; it returns `networkSize`, the data member the source
calls the size of the network. -/
def Network.size (net : Network) : Int := net.networkSize

/-- The object a handle points to. -/
def Network.deref (net : Network) (h : Handle) : Option Reactant := net.objects[h]?

/-- The value `(x > 0)` converted to `int`. -/
def positive (x : Int) : Int := if x > 0 then 1 else 0

/-- The text thrown by `add` for a duplicate. -/
def duplicateMessage (numHe numV numI : Int) : String :=
  "PSIClusterReactionNetwork Message: " ++ "Duplicate Reactant (He=" ++ to_string numHe
    ++ ",V=" ++ to_string numV ++ ",I=" ++ to_string numI ++ ") not added!" ++ "\n"

/-- The text thrown by `addSuper` for a duplicate. -/
def duplicateSuperMessage (numHe numV numI : Int) : String :=
  "PSIClusterReactionNetwork Message: " ++ "Duplicate Super Reactant (He=" ++ to_string numHe
    ++ ",V=" ++ to_string numV ++ ",I=" ++ to_string numI ++ ") not added!" ++ "\n"

/-- Sequencing of two statements: the second runs if the first did not throw. -/
def Result.andThen (r : Result) (f : Network → Result) : Result :=
  match r.thrown with
  | some _ => r
  | none => f r.net

/-- A write through the pointer `h`. -/
def Network.modifyObject (net : Network) (h : Handle) (f : Reactant → Reactant) : Network :=
  { net with objects := net.objects.modify f h }

/-- The statements of `add` and `addSuper` from "Update the size" on:
`++networkSize`, `setId`, the push onto the vector of the type and onto
`allReactants`.  The vector of a type that has no entry is a null pointer. -/
def registerReactant (net : Network) (h : Handle) : Result :=
  let net := { net with networkSize := net.networkSize + 1 }
  let net := net.modifyObject h (fun r => r.setId net.networkSize)
  match net.objects[h]? with
  | none => ⟨some .nullDereference, net⟩
  | some reactant =>
    match StdMap.find net.clusterTypeMap reactant.typeName.name with
    | none => ⟨some .nullDereference, net⟩
    | some clusters =>
      let net := net.setTypeVector reactant.typeName.name (clusters ++ [h])
      let net := { net with allReactants := net.allReactants ++ [h] }
      ⟨none, net⟩

/-- The integer `std::stoi(properties->at(key))`. -/
def readIntProperty (net : Network) (key : String) : Except Thrown Int :=
  match StdMap.atKey net.properties key with
  | .error e => .error e
  | .ok text =>
    match stoi text with
    | none => .error .invalid_argument
    | some n => .ok n

/-- The statements of `add` that increment the count property `numClusterKey`. -/
def incrementCount (net : Network) (numClusterKey : String) : Result :=
  match readIntProperty net numClusterKey with
  | .error e => ⟨some e, net⟩
  | .ok numClusters => ⟨none, net.setProp numClusterKey (to_string (numClusters + 1))⟩

/-- The value of an arithmetic expression of type `int` whose mathematical
value is `n`: the representative of `n` modulo 2^32 between -2^31 and
2^31 - 1.  C++ leaves signed overflow undefined; this is the two's-complement
result of a 32-bit addition. -/
def wrapInt (n : Int) : Int := (n + 2147483648) % 4294967296 - 2147483648

/-- The statements of `add` that raise the max-size property `clusterSizeKey`;
`clusterSize` is the `int` that holds `numHe + numV + numI`. -/
def raiseMaxSize (net : Network) (clusterSizeKey : String) (clusterSize : Int) : Result :=
  match readIntProperty net clusterSizeKey with
  | .error e => ⟨some e, net⟩
  | .ok maxSize => ⟨none, net.setProp clusterSizeKey (to_string (max clusterSize maxSize))⟩

/-- The statements of `add` after the composition map was chosen. -/
def addBookkeeping (net : Network) (h : Handle) (numClusterKey clusterSizeKey : String)
    (clusterSize : Int) : Result :=
  (incrementCount net numClusterKey).andThen fun net =>
    (raiseMaxSize net clusterSizeKey clusterSize).andThen fun net =>
      registerReactant net h

/-- The test `((numHe > 0) + (numV > 0) + (numI > 0)) > 1` of `add`. -/
def Composition.isMixed (c : Composition) : Bool :=
  decide (positive c.he + positive c.v + positive c.i > 1)

/-- The function `PSIClusterReactionNetwork::add`.  The reactant handed over
becomes an object of the network, at the next free handle. -/
def add (net : Network) (reactant : Option Reactant) : Result :=
  match reactant with
  | none => ⟨none, net⟩
  | some r =>
    let composition := r.composition
    let numHe := composition.he
    let numV := composition.v
    let numI := composition.i
    let isMixed : Bool := composition.isMixed
    let h : Handle := net.objects.length
    if isMixed ∧ StdMap.count net.mixedSpeciesMap composition = 0 then
      let net := { net with objects := net.objects ++ [r] }
      let net := { net with
        mixedSpeciesMap := StdMap.set Composition.lt net.mixedSpeciesMap composition h }
      if numV > 0 then
        addBookkeeping net h "numHeVClusters" "maxHeVClusterSize" (wrapInt (numHe + numV + numI))
      else
        addBookkeeping net h "numHeIClusters" "maxHeIClusterSize" (wrapInt (numHe + numV + numI))
    else if ¬ isMixed ∧ StdMap.count net.singleSpeciesMap composition = 0 then
      let net := { net with objects := net.objects ++ [r] }
      let net := { net with
        singleSpeciesMap := StdMap.set Composition.lt net.singleSpeciesMap composition h }
      if numHe > 0 then
        addBookkeeping net h "numHeClusters" "maxHeClusterSize" (wrapInt (numHe + numV + numI))
      else if numV > 0 then
        addBookkeeping net h "numVClusters" "maxVClusterSize" (wrapInt (numHe + numV + numI))
      else
        addBookkeeping net h "numIClusters" "maxIClusterSize" (wrapInt (numHe + numV + numI))
    else
      ⟨some (.message (duplicateMessage numHe numV numI)), net⟩

/-- The function `PSIClusterReactionNetwork::addSuper`. -/
def addSuper (net : Network) (reactant : Option Reactant) : Result :=
  match reactant with
  | none => ⟨none, net⟩
  | some r =>
    let composition := r.composition
    let numHe := composition.he
    let numV := composition.v
    let numI := composition.i
    let isMixed : Bool := composition.isMixed
    let h : Handle := net.objects.length
    if isMixed ∧ StdMap.count net.superSpeciesMap composition = 0 then
      let net := { net with objects := net.objects ++ [r] }
      let net := { net with
        superSpeciesMap := StdMap.set Composition.lt net.superSpeciesMap composition h }
      (incrementCount net "numSuperClusters").andThen fun net => registerReactant net h
    else
      ⟨some (.message (duplicateSuperMessage numHe numV numI)), net⟩

/-! ## Cluster constructors -/

/-- Modelled from the spec: the constructor `PSICluster(size)`, not among the
sources; the comment of `PSICluster.h` says "if the constructor is passed a
size of zero or less, the actual size will be set to 1". -/
def PSICluster.initialSize (n : Int) : Int := if n ≤ 0 then 1 else n

/-- The constructor `HeCluster(nHe)`. -/
def HeCluster.mk (nHe : Int) : Reactant :=
  let size := PSICluster.initialSize nHe
  { typeName := .He, size := size, composition := { he := size, v := 0, i := 0 } }

/-- Modelled from the spec: the constructor `VCluster(nV)`, not among the
sources: a single-species cluster of vacancies. -/
def VCluster.mk (nV : Int) : Reactant :=
  let size := PSICluster.initialSize nV
  { typeName := .V, size := size, composition := { he := 0, v := size, i := 0 } }

/-- Modelled from the spec: the constructor `InterstitialCluster(nI)`, not
among the sources: a single-species cluster of interstitials. -/
def InterstitialCluster.mk (nI : Int) : Reactant :=
  let size := PSICluster.initialSize nI
  { typeName := .I, size := size, composition := { he := 0, v := 0, i := size } }

/-- Modelled from the spec: the constructor `HeVCluster(numHe, numV)`, whose
body is not among the sources: a cluster of `numHe` helium atoms and `numV`
vacancies. -/
def HeVCluster.mk (numHe numV : Int) : Reactant :=
  { typeName := .HeV, size := numHe + numV, composition := { he := numHe, v := numV, i := 0 } }

/-- Modelled from the spec: the constructor `HeInterstitialCluster(numHe, numI)`,
whose body is not among the sources: a cluster of `numHe` helium atoms and
`numI` interstitials. -/
def HeInterstitialCluster.mk (numHe numI : Int) : Reactant :=
  { typeName := .HeI, size := numHe + numI, composition := { he := numHe, v := 0, i := numI } }

/-! ## Reaction connectivity of a helium cluster -/

/-- A `for` loop over the values `values` whose body may throw. -/
def forLoop (body : Network → Int → Result) : Network → List Int → Result
  | net, [] => ⟨none, net⟩
  | net, i :: rest => (body net i).andThen fun net => forLoop body net rest

/-- The values `1, 2, ..., last` of a loop counter. -/
def countedFrom1 (last : Int) : List Int :=
  (List.range last.toNat).map (fun k : Nat => (k : Int) + 1)

/-- The body of the loop of `HeCluster::createReactionConnectivity` that fills
`reactingPairs`, for the cluster at `self` of size `size`. -/
def HeCluster.reactingPairStep (self : Handle) (size : Int) (net : Network)
    (firstSize : Int) : Result :=
  let secondSize := size - firstSize
  match get net "He" firstSize with
  | .error e => ⟨some e, net⟩
  | .ok firstReactant =>
    match get net "He" secondSize with
    | .error e => ⟨some e, net⟩
    | .ok secondReactant =>
      match firstReactant, secondReactant with
      | some first, some second =>
        ⟨none, net.modifyObject self fun r =>
          { r with reactingPairs := r.reactingPairs ++ [{ first := first, second := second }] }⟩
      | _, _ => ⟨none, net⟩

/-- The loop `for (firstSize = 1; firstSize <= (int) size / 2; firstSize++)`. -/
def HeCluster.reactingPairLoop (self : Handle) (size : Int) (net : Network) : Result :=
  forLoop (HeCluster.reactingPairStep self size) net (countedFrom1 (Int.tdiv size 2))

/-- Modelled from the spec: the body of `PSICluster::combineClusters(clusters,
maxSize, productName)`, which is not among the sources, for one cluster of
`clusters`: "this cluster combines with every same-species cluster ...
provided the resulting size does not exceed that maximum (silently skipped
otherwise, not an error)".  Only the list of combining partners is written. -/
def PSICluster.combineStep (self : Handle) (maxSize : Int) (net : Network)
    (other : Handle) : Result :=
  match net.objects[self]?, net.objects[other]? with
  | some this, some second =>
    if this.size + second.size ≤ maxSize then
      ⟨none, net.modifyObject self fun r =>
        { r with combiningReactants := r.combiningReactants ++ [{ combining := other }] }⟩
    else ⟨none, net⟩
  | _, _ => ⟨some .nullDereference, net⟩

/-- Modelled from the spec: the function `PSICluster::combineClusters(clusters,
maxSize, productName)`, which is not among the sources: a loop over
`clusters`. -/
def PSICluster.combineClusters (self : Handle) (net : Network) (clusters : List Handle)
    (maxSize : Int) (_productName : String) : Result :=
  clusters.foldl (fun res other => res.andThen fun net =>
    PSICluster.combineStep self maxSize net other) ⟨none, net⟩

/-- The statements `reactants = psiNetwork->getAll(name);
combineClusters(reactants, maxSize, productName);`. -/
def HeCluster.combineWithAll (self : Handle) (net : Network) (name : String) (maxSize : Int)
    (productName : String) : Result :=
  match getAllOfType net name with
  | .error e => ⟨some e, net⟩
  | .ok reactants => PSICluster.combineClusters self net reactants maxSize productName

/-- The integer `std::stoi(props[key])` read from the copy `props` of the
properties; `props[key]` is the empty string for a missing key. -/
def stoiOfCopy (props : StdMap String String) (key : String) : Option Int :=
  stoi ((StdMap.find props key).getD "")

/-- Modelled from the spec: the call `setReactionConnectivity(id)` of
`Reactant`, not among the sources: the id joins the connectivity set. -/
def Reactant.setReactionConnectivity (r : Reactant) (id : Int) : Reactant :=
  if id ∈ r.reactionConnectivitySet then r
  else { r with reactionConnectivitySet := r.reactionConnectivitySet ++ [id] }

/-- The function `HeCluster::createReactionConnectivity` for the cluster at
`self`. -/
def HeCluster.createReactionConnectivity (net : Network) (self : Handle) : Result :=
  match net.objects[self]? with
  | none => ⟨some .nullDereference, net⟩
  | some this =>
    let props := net.properties
    match stoiOfCopy props "maxHeClusterSize", stoiOfCopy props "maxHeVClusterSize",
        stoiOfCopy props "maxHeIClusterSize", stoiOfCopy props "numHeVClusters",
        stoiOfCopy props "numHeIClusters" with
    | some maxHeClusterSize, some maxHeVClusterSize, some maxHeIClusterSize,
        some numHeVClusters, some numHeIClusters =>
      let net := net.modifyObject self fun r => r.setReactionConnectivity r.id
      (HeCluster.reactingPairLoop self this.size net).andThen fun net =>
      (HeCluster.combineWithAll self net "He" maxHeClusterSize "He").andThen fun net =>
      (HeCluster.combineWithAll self net "V" maxHeVClusterSize "HeV").andThen fun net =>
      (HeCluster.combineWithAll self net "I" maxHeIClusterSize "HeI").andThen fun net =>
      (if numHeVClusters > 0 then
        HeCluster.combineWithAll self net "HeV" maxHeVClusterSize "HeV"
       else ⟨none, net⟩).andThen fun net =>
      if numHeIClusters > 0 then
        HeCluster.combineWithAll self net "HeI" maxHeIClusterSize "HeI"
      else ⟨none, net⟩
    | _, _, _, _, _ => ⟨some .invalid_argument, net⟩

/-! ## Sequences of calls -/

/-- A call that populates the network, with a non-null cluster. -/
inductive Call where
  | add (r : Reactant)
  | addSuper (r : Reactant)
  deriving DecidableEq, Repr

/-- The cluster handed to the call. -/
def Call.reactant : Call → Reactant
  | .add r => r
  | .addSuper r => r

/-- The effect of a call. -/
def Call.apply (net : Network) : Call → Result
  | .add r => Xolotl.add net (some r)
  | .addSuper r => Xolotl.addSuper net (some r)

/-- The network after a sequence of calls, the caller catching what is thrown. -/
def run (net : Network) : List Call → Network
  | [] => net
  | c :: rest => run (c.apply net).net rest

/-- The calls of a sequence that return without throwing, in order. -/
def succeeded (net : Network) : List Call → List Call
  | [] => []
  | c :: rest =>
    if (c.apply net).thrown = none then c :: succeeded (c.apply net).net rest
    else succeeded (c.apply net).net rest

/-! ## Bookkeeping keys and representation invariants -/

/-- The sum `nHe + nV + nI` of a composition, over the integers; `add` holds it
in an `int` as the cluster size. -/
def Composition.total (c : Composition) : Int := c.he + c.v + c.i

/-- The count property `add` increments for a composition (`numClusterKey`). -/
def Composition.countKey (c : Composition) : String :=
  if c.isMixed then
    if c.v > 0 then "numHeVClusters" else "numHeIClusters"
  else if c.he > 0 then "numHeClusters"
  else if c.v > 0 then "numVClusters"
  else "numIClusters"

/-- The max-size property `add` raises for a composition (`clusterSizeKey`). -/
def Composition.sizeKey (c : Composition) : String :=
  if c.isMixed then
    if c.v > 0 then "maxHeVClusterSize" else "maxHeIClusterSize"
  else if c.he > 0 then "maxHeClusterSize"
  else if c.v > 0 then "maxVClusterSize"
  else "maxIClusterSize"

/-- The composition map `add` stores a composition in. -/
def Network.speciesMap (net : Network) (c : Composition) : StdMap Composition Handle :=
  if c.isMixed then net.mixedSpeciesMap else net.singleSpeciesMap

/-- The network a call of `add` that returns leaves, in closed form: `count` and
`maxSize` are the integers read from the two properties, `clusters` the vector
of the type tag before the call. -/
def Network.inserted (net : Network) (r : Reactant) (count maxSize : Int)
    (clusters : List Handle) : Network :=
  { objects := net.objects ++ [r.setId (net.networkSize + 1)]
    singleSpeciesMap :=
      if r.composition.isMixed then net.singleSpeciesMap
      else StdMap.set Composition.lt net.singleSpeciesMap r.composition net.objects.length
    mixedSpeciesMap :=
      if r.composition.isMixed then
        StdMap.set Composition.lt net.mixedSpeciesMap r.composition net.objects.length
      else net.mixedSpeciesMap
    superSpeciesMap := net.superSpeciesMap
    clusterTypeMap :=
      StdMap.set strLt net.clusterTypeMap r.typeName.name (clusters ++ [net.objects.length])
    allReactants := net.allReactants ++ [net.objects.length]
    properties :=
      StdMap.set strLt
        (StdMap.set strLt net.properties r.composition.countKey (to_string (count + 1)))
        r.composition.sizeKey (to_string (max (wrapInt r.composition.total) maxSize))
    networkSize := net.networkSize + 1
    names := net.names
    compoundNames := net.compoundNames
    temperature := net.temperature }

/-- The network a call of `addSuper` that returns leaves, in closed form. -/
def Network.insertedSuper (net : Network) (r : Reactant) (count : Int)
    (clusters : List Handle) : Network :=
  { objects := net.objects ++ [r.setId (net.networkSize + 1)]
    singleSpeciesMap := net.singleSpeciesMap
    mixedSpeciesMap := net.mixedSpeciesMap
    superSpeciesMap :=
      StdMap.set Composition.lt net.superSpeciesMap r.composition net.objects.length
    clusterTypeMap :=
      StdMap.set strLt net.clusterTypeMap r.typeName.name (clusters ++ [net.objects.length])
    allReactants := net.allReactants ++ [net.objects.length]
    properties := StdMap.set strLt net.properties "numSuperClusters" (to_string (count + 1))
    networkSize := net.networkSize + 1
    names := net.names
    compoundNames := net.compoundNames
    temperature := net.temperature }

/-- Two networks hold the same three composition maps. -/
def SameMaps (a b : Network) : Prop :=
  a.singleSpeciesMap = b.singleSpeciesMap ∧ a.mixedSpeciesMap = b.mixedSpeciesMap ∧
    a.superSpeciesMap = b.superSpeciesMap

/-- The keys of the properties that hold an integer. -/
def integerKeys : List String :=
  ["numHeClusters", "numVClusters", "numIClusters", "numHeVClusters", "numHeIClusters",
    "numSuperClusters", "maxHeClusterSize", "maxVClusterSize", "maxIClusterSize",
    "maxHeVClusterSize", "maxHeIClusterSize"]

/-- The six type tags. -/
def ClusterType.all : List ClusterType := [.He, .V, .I, .HeV, .HeI, .Super]

/-- Every integer property is present and parses. -/
def Network.PropsOK (net : Network) : Prop :=
  ∀ key ∈ integerKeys, ((StdMap.find net.properties key).bind stoi).isSome = true

/-- The vector of every type tag is present, and holds pointers to objects of
the network that carry this tag. -/
def Network.TypesOK (net : Network) : Prop :=
  ∀ t ∈ ClusterType.all, ∃ v, StdMap.find net.clusterTypeMap t.name = some v ∧
    ∀ h ∈ v, ∃ r, net.objects[h]? = some r ∧ r.typeName = t

/-- Every entry of the single-species map points to an object of the network
that has the composition of the key. -/
def Network.SingleIndexOK (net : Network) : Prop :=
  ∀ p ∈ net.singleSpeciesMap, ∃ r, net.objects[p.2]? = some r ∧ r.composition = p.1

/-- Every entry of the mixed-species map points to an object of the network
that has the composition of the key. -/
def Network.MixedIndexOK (net : Network) : Prop :=
  ∀ p ∈ net.mixedSpeciesMap, ∃ r, net.objects[p.2]? = some r ∧ r.composition = p.1

/-- Every entry of the super-species map points to an object of the network
that has the composition of the key. -/
def Network.SuperIndexOK (net : Network) : Prop :=
  ∀ p ∈ net.superSpeciesMap, ∃ r, net.objects[p.2]? = some r ∧ r.composition = p.1

/-- The representation invariant of the network. -/
structure Network.WF (net : Network) : Prop where
  props : net.PropsOK
  types : net.TypesOK
  single : net.SingleIndexOK
  mixed : net.MixedIndexOK
  super : net.SuperIndexOK

/-- The integer a property holds, read as `add` reads it. -/
def Network.intProperty (net : Network) (key : String) : Option Int :=
  (StdMap.find net.properties key).bind stoi

/-- The clusters `rs` with the ids `base + 1`, `base + 2`, ... set in order. -/
def withIdsFrom (base : Int) : List Reactant → List Reactant
  | [] => []
  | r :: rs => r.setId (base + 1) :: withIdsFrom (base + 1) rs

/-- The test "the object at `h` carries the type tag `t`". -/
def Network.hasType (net : Network) (t : ClusterType) (h : Handle) : Bool :=
  decide (net.objects[h]?.map (fun r => r.typeName) = some t)

/-- The lists of the network are dense: `allReactants` holds the handles of
all objects in order, `networkSize` is their number and the vector of a type
tag holds the handles of the objects with this tag, in order. -/
structure Network.Dense (net : Network) : Prop where
  all : net.allReactants = List.range net.objects.length
  size : net.networkSize = net.objects.length
  lists : ∀ t : ClusterType, StdMap.find net.clusterTypeMap t.name
    = some ((List.range net.objects.length).filter (net.hasType t))

/-- The clusters for which a call of a sequence returned, in order. -/
def added (net : Network) (calls : List Call) : List Reactant :=
  (succeeded net calls).map Call.reactant

/-- A cluster as `add` expects it: not a super-cluster, and with a type tag
that agrees with its composition, as it does for the clusters the constructors
of the five cluster classes build from positive sizes. -/
def Reactant.Regular (r : Reactant) : Prop :=
  match r.typeName with
  | .He => 0 < r.composition.he ∧ r.composition.v = 0 ∧ r.composition.i = 0
  | .V => r.composition.he = 0 ∧ 0 < r.composition.v ∧ r.composition.i = 0
  | .I => r.composition.he = 0 ∧ r.composition.v = 0 ∧ 0 < r.composition.i
  | .HeV => 0 < r.composition.he ∧ 0 < r.composition.v ∧ r.composition.i = 0
  | .HeI => 0 < r.composition.he ∧ r.composition.v = 0 ∧ 0 < r.composition.i
  | .Super => False

instance Reactant.decidableRegular (r : Reactant) : Decidable r.Regular := by
  unfold Reactant.Regular
  split <;> infer_instance

/-- The count properties `add` maintains. -/
def countKeys : List String :=
  ["numHeClusters", "numVClusters", "numIClusters", "numHeVClusters", "numHeIClusters"]

/-- The max-size properties `add` maintains. -/
def sizeKeys : List String :=
  ["maxHeClusterSize", "maxVClusterSize", "maxIClusterSize", "maxHeVClusterSize",
    "maxHeIClusterSize"]

/-- The families of clusters that `add` keeps a count and a max size for. -/
inductive Family where
  | He | V | I | HeV | HeI
  deriving DecidableEq, Repr

/-- The type tag of the clusters of a family. -/
def Family.tag : Family → ClusterType
  | .He => .He
  | .V => .V
  | .I => .I
  | .HeV => .HeV
  | .HeI => .HeI

/-- The count property of a family. -/
def Family.countKey : Family → String
  | .He => "numHeClusters"
  | .V => "numVClusters"
  | .I => "numIClusters"
  | .HeV => "numHeVClusters"
  | .HeI => "numHeIClusters"

/-- The max-size property of a family. -/
def Family.sizeKey : Family → String
  | .He => "maxHeClusterSize"
  | .V => "maxVClusterSize"
  | .I => "maxIClusterSize"
  | .HeV => "maxHeVClusterSize"
  | .HeI => "maxHeIClusterSize"

/-- The number of clusters of `rs` with the type tag `t`. -/
def countOfType (rs : List Reactant) (t : ClusterType) : Nat :=
  (rs.filter fun r => decide (r.typeName = t)).length

/-- The integer `m` is the maximum of `nHe + nV + nI` over the clusters of `rs`
with the type tag `t`, and 0 when there is none. -/
def IsMaxTotal (rs : List Reactant) (t : ClusterType) (m : Int) : Prop :=
  (∀ r ∈ rs, r.typeName = t → r.composition.total ≤ m) ∧
    ((∃ r ∈ rs, r.typeName = t ∧ r.composition.total = m) ∨
      ((∀ r ∈ rs, r.typeName ≠ t) ∧ m = 0))

/-- The value of the max-size property `key` after the clusters `rs` were
added, from the value `start`. -/
def raisedBy (key : String) (start : Int) : List Reactant → Int
  | [] => start
  | r :: rs =>
    raisedBy key
      (if r.composition.sizeKey = key then max (wrapInt r.composition.total) start else start) rs

/-! ## Closed forms of the connectivity pass -/

/-- The pointer `get("He", n)` returns, read from the single-species map. -/
def getHe (m : StdMap Composition Handle) (n : Int) : Option Handle :=
  if n ≥ 1 then StdMap.find m { he := n, v := 0, i := 0 } else none

/-- The pair one turn of the loop over `firstSize` records, if any. -/
def pairFor (m : StdMap Composition Handle) (size firstSize : Int) : Option ClusterPair :=
  match getHe m firstSize, getHe m (size - firstSize) with
  | some first, some second => some { first := first, second := second }
  | _, _ => none

/-- The pairs the loop over `firstSize` records for a cluster of size `size`. -/
def pairsOf (m : StdMap Composition Handle) (size : Int) : List ClusterPair :=
  (countedFrom1 (Int.tdiv size 2)).filterMap (pairFor m size)

/-- The partners `combineClusters` records among `clusters` for a cluster of
size `size` and the maximum `maxSize`. -/
def partnersOf (objects : List Reactant) (size maxSize : Int) (clusters : List Handle) :
    List CombiningCluster :=
  clusters.filterMap fun other =>
    match objects[other]? with
    | some second => if size + second.size ≤ maxSize then some { combining := other } else none
    | none => none

/-- The push of `pairs` onto `reactingPairs`. -/
def Reactant.appendPairs (pairs : List ClusterPair) (r : Reactant) : Reactant :=
  { r with reactingPairs := r.reactingPairs ++ pairs }

/-- The push of `partners` onto `combiningReactants`. -/
def Reactant.appendPartners (partners : List CombiningCluster) (r : Reactant) : Reactant :=
  { r with combiningReactants := r.combiningReactants ++ partners }

/-- The vector of a type name, empty when there is none. -/
def Network.typeVector (net : Network) (name : String) : List Handle :=
  (StdMap.find net.clusterTypeMap name).getD []

/-- The integer of a property, 0 when it cannot be read. -/
def Network.intOr0 (net : Network) (key : String) : Int :=
  (net.intProperty key).getD 0

/-- The partners one run of `HeCluster::createReactionConnectivity` records for
a cluster of size `size`: those among the He, V and I clusters, then those
among the HeV and the HeI clusters if the network counts any. -/
def HeCluster.partners (net : Network) (size : Int) : List CombiningCluster :=
  partnersOf net.objects size (net.intOr0 "maxHeClusterSize") (net.typeVector "He") ++
    partnersOf net.objects size (net.intOr0 "maxHeVClusterSize") (net.typeVector "V") ++
    partnersOf net.objects size (net.intOr0 "maxHeIClusterSize") (net.typeVector "I") ++
    (if net.intOr0 "numHeVClusters" > 0 then
      partnersOf net.objects size (net.intOr0 "maxHeVClusterSize") (net.typeVector "HeV")
     else []) ++
    (if net.intOr0 "numHeIClusters" > 0 then
      partnersOf net.objects size (net.intOr0 "maxHeIClusterSize") (net.typeVector "HeI")
     else [])

/-- What one run of `HeCluster::createReactionConnectivity` writes to the
cluster `this` it runs on. -/
def HeCluster.connected (net : Network) (this : Reactant) (r : Reactant) : Reactant :=
  ((r.setReactionConnectivity r.id).appendPairs
    (pairsOf net.singleSpeciesMap this.size)).appendPartners (HeCluster.partners net this.size)

/-- The pair `p` joins the clusters at `x` and `y`, in either order. -/
def ClusterPair.joins (p : ClusterPair) (x y : Handle) : Bool :=
  (p.first == x && p.second == y) || (p.first == y && p.second == x)

/-! ## The networks of the unit tests -/

/-- The calls of `checkReactants` up to the duplicate: `He_10`, `V_4`, `I_48`,
the 45 HeV clusters and the 36 HeI clusters. -/
def checkReactantsCalls : List Call :=
  [.add (HeCluster.mk 10), .add (VCluster.mk 4), .add (InterstitialCluster.mk 48)] ++
  ((List.range 10).flatMap fun v : Nat =>
    (List.range (10 - (v + 1))).map fun he : Nat =>
      Call.add (HeVCluster.mk ((he : Int) + 1) ((v : Int) + 1))) ++
  ((List.range 9).flatMap fun i : Nat =>
    (List.range (9 - (i + 1))).map fun he : Nat =>
      Call.add (HeInterstitialCluster.mk ((he : Int) + 1) ((i : Int) + 1)))

/-- The network of `checkReactants` before the duplicate is added. -/
def checkReactantsNetwork : Network := run Network.new checkReactantsCalls

/-- The network of `checkProperties`: `He_5` and `HeV(5,3)`. -/
def checkPropertiesNetwork : Network :=
  run Network.new [.add (HeCluster.mk 5), .add (HeVCluster.mk 5 3)]

/-- The network that holds `He_1`, `He_2` and `He_3` only. -/
def heliumNetwork : Network :=
  run Network.new [.add (HeCluster.mk 1), .add (HeCluster.mk 2), .add (HeCluster.mk 3)]

/-! ## Properties set by the caller -/

/-- The keys `setProperty` compares `key` with: the thirteen properties that
`setDefaultPropsAndNames` creates. -/
def protectedKeys : List String :=
  ["reactionsEnabled", "dissociationsEnabled", "numHeClusters", "numVClusters",
    "numIClusters", "numHeVClusters", "numHeIClusters", "numSuperClusters",
    "maxHeClusterSize", "maxVClusterSize", "maxIClusterSize", "maxHeVClusterSize",
    "maxHeIClusterSize"]

/-- The function `PSIClusterReactionNetwork::setProperty`. -/
def setProperty (net : Network) (key value : String) : Network :=
  if key ≠ "" ∧ value ≠ "" ∧ key ≠ "reactionsEnabled"
      ∧ key ≠ "dissociationsEnabled" ∧ key ≠ "numHeClusters"
      ∧ key ≠ "numVClusters" ∧ key ≠ "numIClusters"
      ∧ key ≠ "numHeVClusters" ∧ key ≠ "numHeIClusters"
      ∧ key ≠ "numSuperClusters" ∧ key ≠ "maxHeClusterSize"
      ∧ key ≠ "maxVClusterSize" ∧ key ≠ "maxIClusterSize"
      ∧ key ≠ "maxHeVClusterSize" ∧ key ≠ "maxHeIClusterSize" then
    net.setProp key value
  else net

/-! ## Super-clusters -/

/-- Modelled from the spec: a super-cluster, "a grouped approximation
representing a size range of clusters", whose class is not among the sources:
a cluster with the type tag of the super-clusters and a composition of helium
and vacancies.  The size range and the distances of the group are not read by
the network and are left out. -/
def SuperCluster.mk (numHe numV : Int) : Reactant :=
  { typeName := .Super, size := numHe + numV,
    composition := { he := numHe, v := numV, i := 0 } }

/-- Every cluster of the full list is the entry of its composition in the
super-species map or in the map `add` stores this composition in. -/
def Network.Indexed (net : Network) : Prop :=
  ∀ h ∈ net.allReactants, ∃ r, net.objects[h]? = some r ∧
    (StdMap.find net.superSpeciesMap r.composition = some h ∨
      StdMap.find (net.speciesMap r.composition) r.composition = some h)

/-! ## Removal and renumbering -/

/-- One loop of `removeReactant` over a vector of pointers: the first cluster
with the type name `type` and the composition `comp` is erased from the
vector. -/
def eraseFirstMatch (objects : List Reactant) (type : String) (comp : Composition) :
    List Handle → Except Thrown (List Handle)
  | [] => .ok []
  | it :: rest =>
    match objects[it]? with
    | none => .error .nullDereference
    | some temp =>
      if temp.typeName.name ≠ type then
        (eraseFirstMatch objects type comp rest).map fun l => it :: l
      else if temp.composition.he ≠ comp.he ∨ temp.composition.v ≠ comp.v
          ∨ temp.composition.i ≠ comp.i then
        (eraseFirstMatch objects type comp rest).map fun l => it :: l
      else .ok rest

/-- The function `PSIClusterReactionNetwork::removeReactant`.  The vector
`clusterTypeMap[type]` of a type that has no entry is a null pointer. -/
def removeReactant (net : Network) (reactant : Handle) : Result :=
  match net.objects[reactant]? with
  | none => ⟨some .nullDereference, net⟩
  | some r =>
    let comp := r.composition
    let type := r.typeName.name
    match eraseFirstMatch net.objects type comp net.allReactants with
    | .error e => ⟨some e, net⟩
    | .ok all =>
      let net := { net with allReactants := all }
      match StdMap.find net.clusterTypeMap type with
      | none => ⟨some .nullDereference, net⟩
      | some clusters =>
        match eraseFirstMatch net.objects type comp clusters with
        | .error e => ⟨some e, net⟩
        | .ok clusters =>
          let net := net.setTypeVector type clusters
          ⟨none, { net with mixedSpeciesMap := StdMap.erase net.mixedSpeciesMap comp }⟩

/-- The call `setHeMomentumId(id)`. -/
def Reactant.setHeMomentumId (r : Reactant) (id : Int) : Reactant :=
  { r with heMomentumId := id }

/-- The call `setVMomentumId(id)`. -/
def Reactant.setVMomentumId (r : Reactant) (id : Int) : Reactant :=
  { r with vMomentumId := id }

/-- The first loop of `reinitializeNetwork`, over `allReactants`, from the
counter `id`: the network and the counter when the loop ends. -/
def resetIdsLoop : Network → Int → List Handle → Result × Int
  | net, id, [] => (⟨none, net⟩, id)
  | net, id, it :: rest =>
    match net.objects[it]? with
    | none => (⟨some .nullDereference, net⟩, id + 1)
    | some _ =>
      let id := id + 1
      let net := net.modifyObject it fun r => r.setId id
      let net := net.modifyObject it fun r => r.setHeMomentumId id
      let net := net.modifyObject it fun r => r.setVMomentumId id
      resetIdsLoop net id rest

/-- The second loop of `reinitializeNetwork`, over the vector of the
super-clusters, from the counter `id`. -/
def superMomentumLoop : Network → Int → List Handle → Result × Int
  | net, id, [] => (⟨none, net⟩, id)
  | net, id, it :: rest =>
    match net.objects[it]? with
    | none => (⟨some .nullDereference, net⟩, id + 1)
    | some _ =>
      let id := id + 1
      let net := net.modifyObject it fun r => r.setHeMomentumId id
      let id := id + 1
      let net := net.modifyObject it fun r => r.setVMomentumId id
      superMomentumLoop net id rest

/-- The function `PSIClusterReactionNetwork::reinitializeNetwork`. -/
def reinitializeNetwork (net : Network) : Result :=
  match resetIdsLoop net 0 net.allReactants with
  | (⟨some e, net⟩, _) => ⟨some e, net⟩
  | (⟨none, net⟩, id) =>
    let net := { net with networkSize := id }
    match StdMap.find net.clusterTypeMap superType with
    | none => ⟨some .nullDereference, net⟩
    | some supers => (superMomentumLoop net id supers).1

/-- What one turn of the first loop of `reinitializeNetwork` writes to a
cluster. -/
def Reactant.renumbered (id : Int) (r : Reactant) : Reactant :=
  ((r.setId id).setHeMomentumId id).setVMomentumId id

/-- What one turn of the second loop of `reinitializeNetwork` writes to a
super-cluster. -/
def Reactant.withMomentumIds (heId vId : Int) (r : Reactant) : Reactant :=
  (r.setHeMomentumId heId).setVMomentumId vId

/-- The ids `reinitializeNetwork` hands out, read back from the network: the
ids of the clusters of the full list, then the He- and V-momentum ids of the
super-clusters. -/
def Network.idSlots (net : Network) (supers : List Handle) : List (Option Int) :=
  (getAll net).map (fun h => (net.deref h).map fun r => r.id) ++
    supers.flatMap fun h =>
      [(net.deref h).map (fun r => r.heMomentumId), (net.deref h).map (fun r => r.vMomentumId)]

/-! ## The copy constructor -/

/-- Modelled from the spec: the base-class copy constructor
`ReactionNetwork(other)`, not among the sources: the copy starts without
clusters, with the properties and the temperature of `other`. -/
def ReactionNetwork.copy (other : Network) : Network :=
  { ReactionNetwork.init with properties := other.properties, temperature := other.temperature }

/-- The call `clone()`: a new object that is a copy of the cluster
(`new HeCluster(*this)`). -/
def Reactant.clone (r : Reactant) : Reactant := r

/-- The pointers the copy constructor collects from the three composition
maps of `other`, in the order of the three loops. -/
def Network.storedReactants (other : Network) : List Handle :=
  other.singleSpeciesMap.map Prod.snd ++ other.mixedSpeciesMap.map Prod.snd ++
    other.superSpeciesMap.map Prod.snd

/-- The loop `add(reactants[i]->clone())` of the copy constructor. -/
def addClones (other : Network) : Network → List Handle → Result
  | net, [] => ⟨none, net⟩
  | net, h :: rest =>
    match other.objects[h]? with
    | none => ⟨some .nullDereference, net⟩
    | some r => (add net (some r.clone)).andThen fun net => addClones other net rest

/-- The copy constructor `PSIClusterReactionNetwork(other)`: the network that
is built, and what the constructor threw. -/
def Network.copy (other : Network) : Result :=
  let net := setDefaultPropsAndNames (ReactionNetwork.copy other)
  addClones other net other.storedReactants

/-- The call `setConcentration(c)`. -/
def Reactant.setConcentration (r : Reactant) (c : Rat) : Reactant :=
  { r with concentration := c }

/-! ## Concentration arrays -/

/-- The read `concentrations[k]` of an array of doubles.  A read outside the
array, which C++ leaves undefined, is `none`. -/
def readSlot (concentrations : List Rat) (k : Int) : Option Rat :=
  if 0 ≤ k then concentrations[k.toNat]? else none

/-- The write `concentrations[k] = x`; `none` outside the array. -/
def writeSlot (concentrations : List Rat) (k : Int) (x : Rat) : Option (List Rat) :=
  if 0 ≤ k ∧ k.toNat < concentrations.length then some (concentrations.set k.toNat x)
  else none

/-- Modelled from the spec: the loop of `updateConcentrationsFromArray`, a
function of the base class that is not among the sources: "each cluster's
concentration being read from ... the slot id - 1". -/
def updateConcentrationsLoop (concentrations : List Rat) : Network → List Handle → Result
  | net, [] => ⟨none, net⟩
  | net, h :: rest =>
    match net.objects[h]? with
    | none => ⟨some .nullDereference, net⟩
    | some r =>
      match readSlot concentrations (r.id - 1) with
      | none => ⟨some .out_of_range, net⟩
      | some c =>
        updateConcentrationsLoop concentrations
          (net.modifyObject h fun r => r.setConcentration c) rest

/-- Modelled from the spec: the function `updateConcentrationsFromArray`
("buffer → clusters"), not among the sources: every cluster of the full list
takes the concentration in the slot `id - 1` of the array. -/
def updateConcentrationsFromArray (net : Network) (concentrations : List Rat) : Result :=
  updateConcentrationsLoop concentrations net net.allReactants

/-- Modelled from the spec: the loop of `fillConcentrationsArray`, not among
the sources: "each cluster's concentration being ... written to the slot
id - 1". -/
def fillConcentrationsLoop (net : Network) : List Rat → List Handle → Except Thrown (List Rat)
  | concentrations, [] => .ok concentrations
  | concentrations, h :: rest =>
    match net.objects[h]? with
    | none => .error .nullDereference
    | some r =>
      match writeSlot concentrations (r.id - 1) r.concentration with
      | none => .error .out_of_range
      | some concentrations => fillConcentrationsLoop net concentrations rest

/-- Modelled from the spec: the function `fillConcentrationsArray`
("clusters → buffer"), not among the sources: the array the caller hands
over, with the concentration of every cluster of the full list written to the
slot `id - 1`. -/
def fillConcentrationsArray (net : Network) (concentrations : List Rat) :
    Except Thrown (List Rat) :=
  fillConcentrationsLoop net concentrations net.allReactants

/-- The cluster `r` with the concentration of the slot `id - 1` of the array
`concentrations`. -/
def Reactant.takeConcentration (concentrations : List Rat) (r : Reactant) : Reactant :=
  r.setConcentration (concentrations.getD (r.id - 1).toNat 0)

/-- The ids are dense: the cluster at position `i` of the full list has the id
`i + 1`, and the size of the network is the length of the list. -/
def Network.IdsDense (net : Network) : Prop :=
  net.networkSize = net.allReactants.length ∧
    ∀ (i : Nat) (h : Handle), net.allReactants[i]? = some h →
      ∃ r, net.objects[h]? = some r ∧ r.id = (i : Int) + 1

/-! ## Temperature -/

/-- The laws that give the diffusion coefficient of a cluster and the rate
constants of its reactions, whose bodies (`PSICluster.cpp`) are not among the
sources: parameters of the embedding.  A rate may depend on every cluster of
the network, on the cluster that holds the entry and on the entry. -/
structure RateLaws where
  diffusionCoefficient : Reactant → Rat → Rat
  reactionRate : List Reactant → Reactant → ClusterPair → Rat
  combinationRate : List Reactant → Reactant → CombiningCluster → Rat
  dissociationRate : List Reactant → Reactant → ClusterPair → Rat
  emissionRate : List Reactant → Reactant → ClusterPair → Rat

/-- Modelled from the spec: the call `setTemperature(temp)` of a cluster, not
among the sources: "recompute diffusion coefficient from (diffusionFactor,
migrationEnergy, T)". -/
def Reactant.setTemperature (laws : RateLaws) (temp : Rat) (r : Reactant) : Reactant :=
  { r with temperature := temp, diffusionCoefficient := laws.diffusionCoefficient r temp }

/-- The positions of the entries of `l` whose rate constant `k` is not 0.0. -/
def effective {α : Type} (k : α → Rat) (l : List α) : List Nat :=
  (List.range l.length).filter fun i => decide ((l[i]?).map k ≠ some 0)

/-- Modelled from the spec: the function `PSICluster::updateRateConstants`,
whose body is not among the sources: "recompute every reaction/dissociation
rate constant ..., then refresh the effective subset"; `PSICluster.h` says the
values are stored "in the kConstant field of ClusterPair or CombiningCluster"
and an effective list holds "those for which the reaction rate is not 0.0". -/
def PSICluster.updateRateConstants (laws : RateLaws) (objects : List Reactant)
    (r : Reactant) : Reactant :=
  let reacting := r.reactingPairs.map fun p =>
    { p with kConstant := laws.reactionRate objects r p }
  let combining := r.combiningReactants.map fun c =>
    { c with kConstant := laws.combinationRate objects r c }
  let dissociating := r.dissociatingPairs.map fun p =>
    { p with kConstant := laws.dissociationRate objects r p }
  let emission := r.emissionPairs.map fun p =>
    { p with kConstant := laws.emissionRate objects r p }
  { r with
    reactingPairs := reacting
    combiningReactants := combining
    dissociatingPairs := dissociating
    emissionPairs := emission
    effReactingPairs := effective (fun p => p.kConstant) reacting
    effCombiningReactants := effective (fun c => c.kConstant) combining
    effDissociatingPairs := effective (fun p => p.kConstant) dissociating
    effEmissionPairs := effective (fun p => p.kConstant) emission }

/-- A loop `for (int i = 0; i < n; i++)` whose body may throw, over the
values `indices` of `i`. -/
def forIndices (body : Network → Nat → Result) : Network → List Nat → Result
  | net, [] => ⟨none, net⟩
  | net, i :: rest => (body net i).andThen fun net => forIndices body net rest

/-- A call through the pointer `allReactants->at(i)` that writes `f` of the
cluster to the cluster. -/
def Network.updateAt (net : Network) (i : Nat) (f : Reactant → Reactant) : Result :=
  match net.allReactants[i]? with
  | none => ⟨some .out_of_range, net⟩
  | some cluster =>
    match net.objects[cluster]? with
    | none => ⟨some .nullDereference, net⟩
    | some _ => ⟨none, net.modifyObject cluster f⟩

/-- Modelled from the spec: the function `ReactionNetwork::setTemperature` of
the base class, not among the sources: "stores T, then for every cluster:
recompute diffusion coefficient". -/
def ReactionNetwork.setTemperature (laws : RateLaws) (net : Network) (temp : Rat) : Result :=
  let net := { net with temperature := temp }
  forIndices (fun net i => net.updateAt i (Reactant.setTemperature laws temp)) net
    (List.range net.networkSize.toNat)

/-- The function `PSIClusterReactionNetwork::setTemperature`. -/
def setTemperature (laws : RateLaws) (net : Network) (temp : Rat) : Result :=
  (ReactionNetwork.setTemperature laws net temp).andThen fun net =>
    forIndices (fun net i => net.updateAt i (PSICluster.updateRateConstants laws net.objects))
      net (List.range net.networkSize.toNat)

/-- The function `PSIClusterReactionNetwork::getTemperature`. -/
def getTemperature (net : Network) : Rat := net.temperature

/-- The two clusters of a pair. -/
def ClusterPair.clusters (p : ClusterPair) : Handle × Handle := (p.first, p.second)

/-- What a cluster is apart from its connectivity: the type tag, the size, the
composition, the id, the two momentum ids, the concentration and the
connectivity set. -/
def Reactant.identity (r : Reactant) :
    ClusterType × Int × Composition × Int × Int × Int × Rat × List Int :=
  (r.typeName, r.size, r.composition, r.id, r.heMomentumId, r.vMomentumId, r.concentration,
    r.reactionConnectivitySet)

/-- The partners a cluster lists: the two clusters of every reacting pair, the
combining clusters, the two clusters of every dissociating pair and the two
clusters of every emission pair, in the order of the four lists. -/
def Reactant.partners (r : Reactant) :
    List (Handle × Handle) × List Handle × List (Handle × Handle) × List (Handle × Handle) :=
  (r.reactingPairs.map ClusterPair.clusters, r.combiningReactants.map (fun c => c.combining),
    r.dissociatingPairs.map ClusterPair.clusters, r.emissionPairs.map ClusterPair.clusters)

/-- A cluster without what a change of temperature recomputes: the rate
constants, the effective lists, the temperature and the diffusion
coefficient. -/
def Reactant.skeleton (r : Reactant) : Reactant :=
  { r with
    reactingPairs := r.reactingPairs.map fun p => { p with kConstant := 0 }
    combiningReactants := r.combiningReactants.map fun c => { c with kConstant := 0 }
    dissociatingPairs := r.dissociatingPairs.map fun p => { p with kConstant := 0 }
    emissionPairs := r.emissionPairs.map fun p => { p with kConstant := 0 }
    effReactingPairs := []
    effCombiningReactants := []
    effDissociatingPairs := []
    effEmissionPairs := []
    temperature := 0
    diffusionCoefficient := 0 }

/-- A network without what a change of temperature recomputes. -/
def Network.skeleton (net : Network) : Network :=
  { net with objects := net.objects.map Reactant.skeleton, temperature := 0 }

/-- A choice of rate laws for the examples: the diffusion coefficient and
every rate constant is the temperature of the cluster. -/
def exampleLaws : RateLaws :=
  { diffusionCoefficient := fun _ temp => temp
    reactionRate := fun _ r _ => r.temperature
    combinationRate := fun _ r _ => r.temperature
    dissociationRate := fun _ r _ => r.temperature
    emissionRate := fun _ r _ => r.temperature }

/-! ## Dissociation connectivity of a helium cluster -/

/-- Modelled from the spec: the function `PSICluster::dissociateCluster`, whose
body is not among the sources; `PSICluster.h`: "this operation adds the
dissociating cluster to the list of dissociatingPairs".  A pair is recorded
when both pointers are not null ("possibly non-existent — skipped"). -/
def PSICluster.dissociateCluster (self : Handle) (net : Network)
    (dissociatingCluster emittedCluster : Option Handle) : Network :=
  match dissociatingCluster, emittedCluster with
  | some dissociating, some emitted =>
    net.modifyObject self fun r =>
      { r with dissociatingPairs :=
          r.dissociatingPairs ++ [{ first := dissociating, second := emitted }] }
  | _, _ => net

/-- Modelled from the spec: the function `PSICluster::emitClusters`, whose body
is not among the sources; `PSICluster.h`: "creates the two emitted clusters
from the dissociation of this cluster". -/
def PSICluster.emitClusters (self : Handle) (net : Network)
    (firstEmittedCluster secondEmittedCluster : Option Handle) : Network :=
  match firstEmittedCluster, secondEmittedCluster with
  | some first, some second =>
    net.modifyObject self fun r =>
      { r with emissionPairs := r.emissionPairs ++ [{ first := first, second := second }] }
  | _, _ => net

/-- Modelled from the spec: the base-class function
`PSICluster::createDissociationConnectivity`, whose body is not among the
sources: "base behavior handles the single-species case
`A_n → A_(n-1) + A_1` for n>1"; the first emitted cluster is "the single size
one". -/
def PSICluster.createDissociationConnectivity (net : Network) (self : Handle) : Result :=
  match net.objects[self]? with
  | none => ⟨some .nullDereference, net⟩
  | some this =>
    match get net this.typeName.name (this.size - 1), get net this.typeName.name 1 with
    | .ok smallerReactant, .ok singleCluster =>
      ⟨none, PSICluster.emitClusters self net singleCluster smallerReactant⟩
    | .error e, _ => ⟨some e, net⟩
    | _, .error e => ⟨some e, net⟩

/-- The composition `comp` after `comp[heType] -= 1`. -/
def Composition.lessHe (comp : Composition) : Composition :=
  { comp with he := comp.he - 1 }

/-- The body of the loop of `HeCluster::createDissociationConnectivity` over
the HeV clusters, for the cluster at `self`. -/
def HeCluster.dissociateHeV (self : Handle) (allHeVReactants : List Handle) (net : Network)
    (i : Nat) : Result :=
  match allHeVReactants[i]? with
  | none => ⟨some .out_of_range, net⟩
  | some cluster =>
    match net.objects[cluster]? with
    | none => ⟨some .nullDereference, net⟩
    | some c =>
      let comp := c.composition.lessHe
      let compositionVec := [comp.he, comp.v, comp.i]
      match getCompound net "HeV" compositionVec with
      | .error e => ⟨some e, net⟩
      | .ok smallerReactant =>
        match allHeVReactants[i]? with
        | none => ⟨some .out_of_range, net⟩
        | some dissociating =>
          ⟨none, PSICluster.dissociateCluster self net (some dissociating) smallerReactant⟩

/-- The body of the loop of `HeCluster::createDissociationConnectivity` over
the HeI clusters: the cluster handed to `dissociateCluster` is
`allHeVReactants.at(i)`. -/
def HeCluster.dissociateHeI (self : Handle) (allHeVReactants allHeIReactants : List Handle)
    (net : Network) (i : Nat) : Result :=
  match allHeIReactants[i]? with
  | none => ⟨some .out_of_range, net⟩
  | some cluster =>
    match net.objects[cluster]? with
    | none => ⟨some .nullDereference, net⟩
    | some c =>
      let comp := c.composition.lessHe
      let compositionVec := [comp.he, comp.v, comp.i]
      match getCompound net "HeI" compositionVec with
      | .error e => ⟨some e, net⟩
      | .ok smallerReactant =>
        match allHeVReactants[i]? with
        | none => ⟨some .out_of_range, net⟩
        | some dissociating =>
          ⟨none, PSICluster.dissociateCluster self net (some dissociating) smallerReactant⟩

/-- The loop of `HeCluster::createDissociationConnectivity` over the HeV
clusters. -/
def HeCluster.heVPass (self : Handle) (net : Network) (allHeVReactants : List Handle) :
    Result :=
  forIndices (HeCluster.dissociateHeV self allHeVReactants) net
    (List.range allHeVReactants.length)

/-- The statements of `HeCluster::createDissociationConnectivity` inside
`if (size == 1)`. -/
def HeCluster.mixedDissociations (self : Handle) (net : Network) : Result :=
  match getAllOfType net "HeV" with
  | .error e => ⟨some e, net⟩
  | .ok allHeVReactants =>
    (HeCluster.heVPass self net allHeVReactants).andThen fun net =>
      match getAllOfType net "HeI" with
      | .error e => ⟨some e, net⟩
      | .ok allHeIReactants =>
        forIndices (HeCluster.dissociateHeI self allHeVReactants allHeIReactants) net
          (List.range allHeIReactants.length)

/-- The function `HeCluster::createDissociationConnectivity` for the cluster
at `self`. -/
def HeCluster.createDissociationConnectivity (net : Network) (self : Handle) : Result :=
  (PSICluster.createDissociationConnectivity net self).andThen fun net =>
    match net.objects[self]? with
    | none => ⟨some .nullDereference, net⟩
    | some this =>
      if this.size = 1 then HeCluster.mixedDissociations self net
      else ⟨none, net⟩

/-- The pair one turn of the loop over the HeV clusters records for the
cluster at `cluster`, if any. -/
def heVPairFor (net : Network) (cluster : Handle) : Option ClusterPair :=
  match net.objects[cluster]? with
  | none => none
  | some c =>
    match StdMap.find net.mixedSpeciesMap c.composition.lessHe with
    | none => none
    | some smaller => some { first := cluster, second := smaller }

/-- The push of `pairs` onto `dissociatingPairs`. -/
def Reactant.appendDissociating (pairs : List ClusterPair) (r : Reactant) : Reactant :=
  { r with dissociatingPairs := r.dissociatingPairs ++ pairs }

/-! ## More networks for the examples -/

/-- A network with one HeV cluster and one super-cluster of the composition
(5, 3, 0). -/
def sharedCompositionNetwork : Network :=
  run Network.new [.add (HeVCluster.mk 5 3), .addSuper (SuperCluster.mk 5 3)]

/-- The network that holds `He_1` only, as in `checkCopying`. -/
def singleHeliumNetwork : Network := run Network.new [.add (HeCluster.mk 1)]

/-- The network of `checkCopying` after `setConcentration(50.0)` on `He_1`. -/
def checkCopyingNetwork : Network :=
  singleHeliumNetwork.modifyObject 0 fun r => r.setConcentration 50

/-- A network that holds one super-cluster only. -/
def superOnlyNetwork : Network := run Network.new [.addSuper (SuperCluster.mk 5 3)]

/-- A network with clusters of three families and two super-clusters. -/
def groupedNetwork : Network :=
  run Network.new [.add (HeCluster.mk 1), .addSuper (SuperCluster.mk 5 3),
    .add (HeVCluster.mk 1 1), .addSuper (SuperCluster.mk 6 4), .add (VCluster.mk 1)]

/-- The network `groupedNetwork` after the removal of its HeV cluster. -/
def regroupedNetwork : Network := (removeReactant groupedNetwork 2).net

/-- The network `heliumNetwork` after `He_3` has built its reaction
connectivity. -/
def connectedHeliumNetwork : Network :=
  (HeCluster.createReactionConnectivity heliumNetwork 2).net

/-- A network with `He_1`, two HeV clusters and two HeI clusters. -/
def dissociationNetwork : Network :=
  run Network.new [.add (HeCluster.mk 1), .add (HeVCluster.mk 1 1), .add (HeVCluster.mk 1 2),
    .add (HeInterstitialCluster.mk 1 1), .add (HeInterstitialCluster.mk 2 1)]

/-- A network with `He_1`, `He_2`, and the HeV clusters (1,1), (2,1), (3,1). -/
def heVChainNetwork : Network :=
  run Network.new [.add (HeCluster.mk 1), .add (HeCluster.mk 2), .add (HeVCluster.mk 1 1),
    .add (HeVCluster.mk 2 1), .add (HeVCluster.mk 3 1)]

/-- A network with `He_1` and one HeI cluster, and no HeV cluster. -/
def heINetwork : Network :=
  run Network.new [.add (HeCluster.mk 1), .add (HeInterstitialCluster.mk 1 1)]

/-! ## Helium counts of clusters -/

/-- The number of helium atoms of the cluster at `h`, 0 for a pointer to no
object. -/
def Network.heOf (net : Network) (h : Handle) : Int :=
  ((net.deref h).map fun r => r.composition.he).getD 0

/-! ## Closed forms of removal and renumbering -/

/-- The test of the loops of `removeReactant`: the cluster at `h` has the type
name `type` and the composition `comp`. -/
def matchesCluster (objects : List Reactant) (type : String) (comp : Composition)
    (h : Handle) : Bool :=
  match objects[h]? with
  | none => false
  | some temp =>
    decide (temp.typeName.name = type) &&
      decide (temp.composition.he = comp.he ∧ temp.composition.v = comp.v
        ∧ temp.composition.i = comp.i)

/-- A cluster without its id and its two momentum ids. -/
def Reactant.sansIds (r : Reactant) : Reactant :=
  { r with id := 0, heMomentumId := 0, vMomentumId := 0 }

/-! ## Reachable states -/

/-- A call of one of the member functions that change the network. -/
inductive Operation where
  | add (r : Reactant)
  | addSuper (r : Reactant)
  | removeReactant (c : Handle)
  | reinitializeNetwork
  | setProperty (key value : String)
  deriving DecidableEq, Repr

/-- The network after a call, the caller catching what is thrown. -/
def Operation.apply (net : Network) : Operation → Network
  | .add r => (Xolotl.add net (some r)).net
  | .addSuper r => (Xolotl.addSuper net (some r)).net
  | .removeReactant c => (Xolotl.removeReactant net c).net
  | .reinitializeNetwork => (Xolotl.reinitializeNetwork net).net
  | .setProperty key value => Xolotl.setProperty net key value

/-- The network after a sequence of calls. -/
def reach (net : Network) : List Operation → Network
  | [] => net
  | op :: rest => reach (op.apply net) rest

/-- Every count and max-size property holds the decimal rendering of a
non-negative integer. -/
def Network.Rendered (net : Network) : Prop :=
  ∀ key ∈ integerKeys, ∃ n : Nat, StdMap.find net.properties key = some (to_string (n : Int))

/-- The pointers of the full list are valid. -/
def Network.Listed (net : Network) : Prop :=
  ∀ h ∈ net.allReactants, h < net.objects.length

/-! ## The loop over the HeI clusters -/

/-- The pair turn `i` of the loop of `HeCluster::createDissociationConnectivity`
over the HeI clusters records, if any: the parent is `allHeVReactants.at(i)`,
the co-emitted cluster the mixed cluster with one helium atom less than
`allHeIReactants.at(i)`. -/
def heIPairFor (net : Network) (allHeVReactants allHeIReactants : List Handle) (i : Nat) :
    Option ClusterPair :=
  match allHeIReactants[i]?, allHeVReactants[i]? with
  | some cluster, some dissociating =>
    match net.objects[cluster]? with
    | none => none
    | some c =>
      match StdMap.find net.mixedSpeciesMap c.composition.lessHe with
      | none => none
      | some smaller => some { first := dissociating, second := smaller }
  | _, _ => none

/-! ## Fluxes -/

/-- The call `getConcentration()` through the pointer `h`. -/
def concentrationAt (objects : List Reactant) (h : Handle) : Except Thrown Rat :=
  match objects[h]? with
  | none => .error .nullDereference
  | some r => .ok r.concentration

/-- The concentration of the cluster at `h`, 0 for a pointer to no cluster. -/
def concentrationOf (objects : List Reactant) (h : Handle) : Rat :=
  ((objects[h]?).map fun r => r.concentration).getD 0

/-- A loop `flux += term(entry)` over the entries of `entries` at the
positions of an effective list. -/
def fluxLoop {α : Type} (entries : List α) (term : α → Except Thrown Rat) :
    List Nat → Rat → Except Thrown Rat
  | [], flux => .ok flux
  | i :: rest, flux =>
    match entries[i]? with
    | none => .error .out_of_range
    | some entry =>
      match term entry with
      | .error e => .error e
      | .ok value => fluxLoop entries term rest (flux + value)

/-- The product of a rate constant and of the concentrations of two clusters. -/
def rateTimesTwo (objects : List Reactant) (k : Rat) (a b : Handle) : Except Thrown Rat :=
  match concentrationAt objects a, concentrationAt objects b with
  | .ok concA, .ok concB => .ok (k * concA * concB)
  | .error e, _ => .error e
  | _, .error e => .error e

/-- The product of a rate constant and of the concentration of one cluster. -/
def rateTimesOne (objects : List Reactant) (k : Rat) (a : Handle) : Except Thrown Rat :=
  match concentrationAt objects a with
  | .ok conc => .ok (k * conc)
  | .error e => .error e

/-- Modelled from the spec: the function `PSICluster::getProductionFlux`,
declared in `PSICluster.h` and without a body among the sources: "Σ over
reacting pairs of rate * concA * concB", summed over the effective subset
("entries whose rate underflows to zero are excluded from the hot-path
subset"). -/
def PSICluster.getProductionFlux (net : Network) (self : Handle) : Except Thrown Rat :=
  match net.objects[self]? with
  | none => .error .nullDereference
  | some this =>
    fluxLoop this.reactingPairs
      (fun p => rateTimesTwo net.objects p.kConstant p.first p.second) this.effReactingPairs 0

/-- Modelled from the spec: the function `PSICluster::getCombinationFlux`,
without a body among the sources: "Σ over combining partners of
rate * concThis * concOther", over the effective subset. -/
def PSICluster.getCombinationFlux (net : Network) (self : Handle) : Except Thrown Rat :=
  match net.objects[self]? with
  | none => .error .nullDereference
  | some this =>
    fluxLoop this.combiningReactants
      (fun c => rateTimesTwo net.objects c.kConstant self c.combining)
      this.effCombiningReactants 0

/-- Modelled from the spec: the function `PSICluster::getDissociationFlux`,
without a body among the sources: "Σ over dissociating pairs of
rate * concParent", over the effective subset; the parent is the first
cluster of the pair. -/
def PSICluster.getDissociationFlux (net : Network) (self : Handle) : Except Thrown Rat :=
  match net.objects[self]? with
  | none => .error .nullDereference
  | some this =>
    fluxLoop this.dissociatingPairs
      (fun p => rateTimesOne net.objects p.kConstant p.first) this.effDissociatingPairs 0

/-- Modelled from the spec: the function `PSICluster::getEmissionFlux`, without
a body among the sources: "Σ over emission pairs of rate * concThis", over the
effective subset. -/
def PSICluster.getEmissionFlux (net : Network) (self : Handle) : Except Thrown Rat :=
  match net.objects[self]? with
  | none => .error .nullDereference
  | some this =>
    fluxLoop this.emissionPairs
      (fun p => rateTimesOne net.objects p.kConstant self) this.effEmissionPairs 0

/-- Modelled from the spec: the function `PSICluster::getTotalFlux`, without a
body among the sources: "production − combination + dissociation −
emission". -/
def PSICluster.getTotalFlux (net : Network) (self : Handle) : Except Thrown Rat :=
  match PSICluster.getProductionFlux net self, PSICluster.getCombinationFlux net self,
    PSICluster.getDissociationFlux net self, PSICluster.getEmissionFlux net self with
  | .ok prodFlux, .ok combFlux, .ok dissFlux, .ok emissFlux =>
    .ok (prodFlux - combFlux + dissFlux - emissFlux)
  | .error e, _, _, _ => .error e
  | _, .error e, _, _ => .error e
  | _, _, .error e, _ => .error e
  | _, _, _, .error e => .error e

/-- The effective lists of the cluster are those of its rate constants, as
`updateRateConstants` leaves them. -/
def Reactant.Weighted (r : Reactant) : Prop :=
  r.effReactingPairs = effective (fun p => p.kConstant) r.reactingPairs ∧
    r.effCombiningReactants = effective (fun c => c.kConstant) r.combiningReactants ∧
    r.effDissociatingPairs = effective (fun p => p.kConstant) r.dissociatingPairs ∧
    r.effEmissionPairs = effective (fun p => p.kConstant) r.emissionPairs

/-- The pointers of the four connectivity lists of the cluster are valid. -/
def Reactant.Linked (objects : List Reactant) (r : Reactant) : Prop :=
  (∀ p ∈ r.reactingPairs, p.first < objects.length ∧ p.second < objects.length) ∧
    (∀ c ∈ r.combiningReactants, c.combining < objects.length) ∧
    (∀ p ∈ r.dissociatingPairs, p.first < objects.length)

/-- Rate laws for the examples with a rate that is 0.0: as `exampleLaws`,
but a dissociation whose parent is the cluster behind the pointer 3 has the
rate 0. -/
def sparseLaws : RateLaws :=
  { exampleLaws with
    dissociationRate := fun _ r p => if p.first = 3 then 0 else r.temperature }

/-- The network `heVChainNetwork` after `He_1` and `He_2` have built their
reaction and dissociation connectivity, at the temperature 1000 and with the
concentrations 2, 3, 5, 7 and 11. -/
def fluxNetwork : Network :=
  (updateConcentrationsFromArray
    (setTemperature sparseLaws
      (HeCluster.createDissociationConnectivity
        (HeCluster.createReactionConnectivity
          (HeCluster.createDissociationConnectivity
            (HeCluster.createReactionConnectivity heVChainNetwork 0).net 0).net 1).net 1).net
      1000).net [2, 3, 5, 7, 11]).net

/-! ## Bubble bursting -/

/-- The data members of `BubbleBurstingHandler` that `computeBursting` and
`computePartialsForBursting` read: for every grid point the positions, in the
list of the HeV clusters, of the bubbles that can burst there, and the
bursting rate. -/
structure BubbleBurstingHandler where
  indexVector : List (List Int)
  kBursting : Rat

/-- The element `v[k]` of a vector for an `int k`.  A read outside the vector,
which C++ leaves undefined, is `none`. -/
def elementAt {α : Type} (v : List α) (k : Int) : Option α :=
  if 0 ≤ k then v[k.toNat]? else none

/-- The write `indices[k] = x` to an array of integers; `none` outside the
array. -/
def writeIndex (indices : List Int) (k : Int) (x : Int) : Option (List Int) :=
  if 0 ≤ k ∧ k.toNat < indices.length then some (indices.set k.toNat x) else none

/-- The update `array[k] += x` of an array of doubles; `none` outside the
array. -/
def addToSlot (array : List Rat) (k : Int) (x : Rat) : Option (List Rat) :=
  match readSlot array k with
  | none => none
  | some old => writeSlot array k (old + x)

/-- One turn of the loop of `BubbleBurstingHandler::computeBursting`, for the
entry `j` of the list of the grid point. -/
def BubbleBurstingHandler.burst (handler : BubbleBurstingHandler) (net : Network)
    (bubbles : List Handle) (concOffset updatedConcOffset : List Rat) (j : Int) :
    Except Thrown (List Rat) :=
  match elementAt bubbles j with
  | none => .error .out_of_range
  | some bubble =>
    match net.objects[bubble]? with
    | none => .error .nullDereference
    | some b =>
      let bubbleIndex := b.id - 1
      match readSlot concOffset bubbleIndex with
      | none => .error .out_of_range
      | some oldConc =>
        if oldConc = 0 then .ok updatedConcOffset
        else
          match get net vType b.composition.v with
          | .error e => .error e
          | .ok none => .error .nullDereference
          | .ok (some vCluster) =>
            match net.objects[vCluster]? with
            | none => .error .nullDereference
            | some v =>
              let vIndex := v.id - 1
              match addToSlot updatedConcOffset bubbleIndex (-(handler.kBursting * oldConc)) with
              | none => .error .out_of_range
              | some updatedConcOffset =>
                match addToSlot updatedConcOffset vIndex (handler.kBursting * oldConc) with
                | none => .error .out_of_range
                | some updatedConcOffset => .ok updatedConcOffset

/-- The loop of `BubbleBurstingHandler::computeBursting` over the list of the
grid point. -/
def BubbleBurstingHandler.burstLoop (handler : BubbleBurstingHandler) (net : Network)
    (bubbles : List Handle) (concOffset : List Rat) :
    List Int → List Rat → Except Thrown (List Rat)
  | [], updatedConcOffset => .ok updatedConcOffset
  | j :: rest, updatedConcOffset =>
    match handler.burst net bubbles concOffset updatedConcOffset j with
    | .error e => .error e
    | .ok updatedConcOffset => burstLoop handler net bubbles concOffset rest updatedConcOffset

/-- The function `BubbleBurstingHandler::computeBursting`; the result is the
array `updatedConcOffset` after the call.  The two arrays are distinct. -/
def BubbleBurstingHandler.computeBursting (handler : BubbleBurstingHandler) (net : Network)
    (xi : Int) (concOffset updatedConcOffset : List Rat) : Except Thrown (List Rat) :=
  match getAllOfType net heVType with
  | .error e => .error e
  | .ok bubbles =>
    match elementAt handler.indexVector xi with
    | none => .error .out_of_range
    | some indices => handler.burstLoop net bubbles concOffset indices updatedConcOffset

/-- One turn of the loop of
`BubbleBurstingHandler::computePartialsForBursting`, for the counter `i` and
the entry `j` of the list of the grid point. -/
def BubbleBurstingHandler.partialsTurn (handler : BubbleBurstingHandler) (net : Network)
    (bubbles : List Handle) (val : List Rat) (indices : List Int) (i : Nat) (j : Int) :
    Except Thrown (List Rat × List Int) :=
  match elementAt bubbles j with
  | none => .error .out_of_range
  | some bubble =>
    match net.objects[bubble]? with
    | none => .error .nullDereference
    | some b =>
      let bubbleIndex := b.id - 1
      match writeIndex indices ((i : Int) * 2) bubbleIndex with
      | none => .error .out_of_range
      | some indices =>
        match writeSlot val ((i : Int) * 2) (-handler.kBursting) with
        | none => .error .out_of_range
        | some val =>
          match get net vType b.composition.v with
          | .error e => .error e
          | .ok none => .error .nullDereference
          | .ok (some vCluster) =>
            match net.objects[vCluster]? with
            | none => .error .nullDereference
            | some v =>
              let vIndex := v.id - 1
              match writeIndex indices ((i : Int) * 2 + 1) vIndex with
              | none => .error .out_of_range
              | some indices =>
                match writeSlot val ((i : Int) * 2 + 1) handler.kBursting with
                | none => .error .out_of_range
                | some val => .ok (val, indices)

/-- The loop of `BubbleBurstingHandler::computePartialsForBursting`, from the
counter `i` on. -/
def BubbleBurstingHandler.partialsLoop (handler : BubbleBurstingHandler) (net : Network)
    (bubbles : List Handle) :
    List Int → Nat → List Rat → List Int → Except Thrown (List Rat × List Int)
  | [], _, val, indices => .ok (val, indices)
  | j :: rest, i, val, indices =>
    match handler.partialsTurn net bubbles val indices i j with
    | .error e => .error e
    | .ok (val, indices) => partialsLoop handler net bubbles rest (i + 1) val indices

/-- The function `BubbleBurstingHandler::computePartialsForBursting`; the
result is the value returned and the arrays `val` and `indices` after the
call. -/
def BubbleBurstingHandler.computePartialsForBursting (handler : BubbleBurstingHandler)
    (net : Network) (val : List Rat) (indices : List Int) (xi : Int) :
    Except Thrown (Int × List Rat × List Int) :=
  match getAllOfType net heVType with
  | .error e => .error e
  | .ok bubbles =>
    match elementAt handler.indexVector xi with
    | none => .error .out_of_range
    | some clusterIndices =>
      match handler.partialsLoop net bubbles clusterIndices 0 val indices with
      | .error e => .error e
      | .ok (val, indices) => .ok ((clusterIndices.length : Int), val, indices)

/-- The slot `bubble->getId() - 1` of the bubble at the position `j` of the
list `bubbles`; 0 when there is no such bubble. -/
def bubbleSlot (net : Network) (bubbles : List Handle) (j : Int) : Int :=
  match elementAt bubbles j with
  | none => 0
  | some bubble =>
    match net.objects[bubble]? with
    | none => 0
    | some b => b.id - 1

/-- The slot `vCluster->getId() - 1` of the V cluster with the number of
vacancies of the bubble at the position `j` of the list `bubbles`; 0 when
there is no such cluster. -/
def vacancySlot (net : Network) (bubbles : List Handle) (j : Int) : Int :=
  match elementAt bubbles j with
  | none => 0
  | some bubble =>
    match net.objects[bubble]? with
    | none => 0
    | some b =>
      match get net vType b.composition.v with
      | .ok (some vCluster) =>
        match net.objects[vCluster]? with
        | none => 0
        | some v => v.id - 1
      | _ => 0

/-- The concentration `concOffset[bubbleIndex]` of the bubble at the position
`j` of the list `bubbles`; 0 when it cannot be read. -/
def bubbleConcentration (net : Network) (bubbles : List Handle) (concOffset : List Rat)
    (j : Int) : Rat :=
  (readSlot concOffset (bubbleSlot net bubbles j)).getD 0

/-- The test "the pointers one turn of the loops over the bubbles follows for
the entry `j` are valid": the bubble exists and so does the V cluster with its
number of vacancies. -/
def bubbleLinked (net : Network) (bubbles : List Handle) (j : Int) : Bool :=
  match elementAt bubbles j with
  | none => false
  | some bubble =>
    match net.objects[bubble]? with
    | none => false
    | some b =>
      match get net vType b.composition.v with
      | .ok (some vCluster) => (net.objects[vCluster]?).isSome
      | _ => false

/-- The test "the bubble for the entry `j` exists and its slot lies inside an
array of `n` doubles". -/
def bubbleListed (net : Network) (bubbles : List Handle) (n : Nat) (j : Int) : Bool :=
  match elementAt bubbles j with
  | none => false
  | some bubble =>
    match net.objects[bubble]? with
    | none => false
    | some b => decide (0 ≤ b.id - 1 ∧ (b.id - 1).toNat < n)

/-- The test "one turn of the loop of `computeBursting` for the entry `j`
follows valid pointers and stays inside the two arrays of `n` doubles": the
bubble exists and its slot lies inside the arrays and, unless the
concentration of the bubble is 0.0, the V cluster exists and its slot lies
inside the arrays. -/
def burstReady (net : Network) (bubbles : List Handle) (concOffset : List Rat) (n : Nat)
    (j : Int) : Bool :=
  bubbleListed net bubbles n j && bubbleListed net bubbles concOffset.length j &&
    (decide (bubbleConcentration net bubbles concOffset j = 0) ||
      (bubbleLinked net bubbles j &&
        decide (0 ≤ vacancySlot net bubbles j ∧ (vacancySlot net bubbles j).toNat < n)))

/-- What the turn for the entry `j` adds to the slot `s` of the update array:
`kBursting * oldConc` when `s` is the slot of the V cluster, minus this amount
when `s` is the slot of the bubble. -/
def BubbleBurstingHandler.change (handler : BubbleBurstingHandler) (net : Network)
    (bubbles : List Handle) (concOffset : List Rat) (s : Nat) (j : Int) : Rat :=
  (if vacancySlot net bubbles j = (s : Int) then
      handler.kBursting * bubbleConcentration net bubbles concOffset j else 0)
    - (if bubbleSlot net bubbles j = (s : Int) then
      handler.kBursting * bubbleConcentration net bubbles concOffset j else 0)

/-- A network with `V_1`, `V_2` and three bubbles, one of them with three
vacancies and no V cluster of this size, with the ids `reinitializeNetwork`
gives. -/
def bubbleNetwork : Network :=
  reach Network.new [.add (VCluster.mk 1), .add (HeVCluster.mk 3 1), .add (HeVCluster.mk 6 3),
    .add (VCluster.mk 2), .add (HeVCluster.mk 7 2), .reinitializeNetwork]

/-- A handler with the bursting rate 4 whose second grid point lists the three
bubbles and whose third grid point lists the first and the last bubble. -/
def exampleHandler : BubbleBurstingHandler :=
  { indexVector := [[], [0, 1, 2], [0, 2]], kBursting := 4 }

/-! ## Lemmas on `std::map` -/

namespace StdMap

variable {K V : Type} [DecidableEq K]

theorem find_set_self (lt : K → K → Bool) (m : StdMap K V) (k : K) (v : V) :
    find (set lt m k v) k = some v := by
  induction m with
  | nil => simp [set, find]
  | cons p t ih =>
    obtain ⟨k', v'⟩ := p
    by_cases h : k' = k
    · simp [set, find, h]
    · by_cases hl : lt k k' = true
      · simp [set, find, h, hl]
      · simp [set, find, h, hl, ih]

theorem find_set_ne (lt : K → K → Bool) (m : StdMap K V) (k k2 : K) (v : V) (hne : k ≠ k2) :
    find (set lt m k v) k2 = find m k2 := by
  induction m with
  | nil => simp [set, find, hne]
  | cons p t ih =>
    obtain ⟨k', v'⟩ := p
    by_cases h : k' = k
    · subst h
      simp [set, find, hne]
    · by_cases hl : lt k k' = true
      · simp [set, find, h, hl, hne]
      · by_cases h2 : k' = k2
        · subst h2
          simp [set, find, h, hl]
        · simp [set, find, h, hl, h2, ih]

theorem count_eq_zero_iff (m : StdMap K V) (k : K) : count m k = 0 ↔ find m k = none := by
  unfold count
  cases find m k <;> simp

theorem atKey_of_find {m : StdMap K V} {k : K} {v : V} (h : find m k = some v) :
    atKey m k = .ok v := by
  simp [atKey, h]

end StdMap

/-! ## `std::stoi` reads back what `std::to_string` writes -/

theorem digitsValue_nil (acc : Nat) : digitsValue acc [] = acc := rfl

theorem digitsValue_cons (acc : Nat) (c : Char) (cs : List Char) :
    digitsValue acc (c :: cs) = digitsValue (10 * acc + (c.toNat - 48)) cs := rfl

theorem digitsValue_append (acc : Nat) (xs ys : List Char) :
    digitsValue acc (xs ++ ys) = digitsValue (digitsValue acc xs) ys := by
  induction xs generalizing acc with
  | nil => rfl
  | cons c cs ih => exact ih (10 * acc + (c.toNat - 48))

theorem digitChar_isDigit (k : Nat) (hk : k < 10) : (Nat.digitChar k).isDigit = true :=
  match k, hk with
  | 0, _ | 1, _ | 2, _ | 3, _ | 4, _ | 5, _ | 6, _ | 7, _ | 8, _ | 9, _ => by decide
  | n + 10, h => absurd h (by omega)

theorem digitChar_value (k : Nat) (hk : k < 10) : (Nat.digitChar k).toNat - 48 = k :=
  match k, hk with
  | 0, _ | 1, _ | 2, _ | 3, _ | 4, _ | 5, _ | 6, _ | 7, _ | 8, _ | 9, _ => by decide
  | n + 10, h => absurd h (by omega)

theorem toDigitsCore_spec (fuel : Nat) : ∀ (n : Nat) (ds : List Char), n < fuel →
    ∃ pre : List Char, Nat.toDigitsCore 10 fuel n ds = pre ++ ds ∧ pre ≠ [] ∧
      (∀ c ∈ pre, c.isDigit = true) ∧
      ∀ acc, digitsValue acc pre = acc * 10 ^ pre.length + n := by
  induction fuel with
  | zero => intro n ds h; omega
  | succ fuel ih =>
    intro n ds hn
    have hmod : n % 10 < 10 := Nat.mod_lt _ (by decide)
    by_cases hq : n / 10 = 0
    · refine ⟨[Nat.digitChar (n % 10)], ?_, by simp, ?_, ?_⟩
      · simp [Nat.toDigitsCore, hq]
      · intro c hc
        simp at hc
        subst hc
        exact digitChar_isDigit _ hmod
      · intro acc
        rw [digitsValue_cons, digitsValue_nil, digitChar_value _ hmod, List.length_singleton,
          pow_one]
        omega
    · have hlt : n / 10 < fuel := by omega
      obtain ⟨pre, hpre, hne, hdig, hval⟩ := ih (n / 10) (Nat.digitChar (n % 10) :: ds) hlt
      refine ⟨pre ++ [Nat.digitChar (n % 10)], ?_, by simp, ?_, ?_⟩
      · simp [Nat.toDigitsCore, hq, hpre]
      · intro c hc
        rcases List.mem_append.mp hc with h | h
        · exact hdig c h
        · simp at h
          subst h
          exact digitChar_isDigit _ hmod
      · intro acc
        rw [digitsValue_append, hval acc]
        rw [digitsValue_cons, digitsValue_nil, digitChar_value _ hmod, List.length_append,
          List.length_singleton, pow_succ]
        have := Nat.div_add_mod n 10
        nlinarith [this]

theorem toDigits_spec (n : Nat) :
    Nat.toDigits 10 n ≠ [] ∧ (∀ c ∈ Nat.toDigits 10 n, c.isDigit = true) ∧
      digitsValue 0 (Nat.toDigits 10 n) = n := by
  obtain ⟨pre, hpre, hne, hdig, hval⟩ := toDigitsCore_spec (n + 1) n [] (Nat.lt_succ_self n)
  have h : Nat.toDigits 10 n = pre := by simp [Nat.toDigits, hpre]
  rw [h]
  exact ⟨hne, hdig, by simpa using hval 0⟩

theorem takeWhile_eq_self_of_all {α : Type} (p : α → Bool) (l : List α)
    (h : ∀ x ∈ l, p x = true) : l.takeWhile p = l := by
  induction l with
  | nil => rfl
  | cons a t ih =>
    have ha : p a = true := h a (List.mem_cons_self a t)
    simp [List.takeWhile, ha, ih (fun x hx => h x (List.mem_cons_of_mem a hx))]

theorem stoiDigits_toDigits (n : Nat) : stoiDigits (Nat.toDigits 10 n) = some n := by
  obtain ⟨hne, hdig, hval⟩ := toDigits_spec n
  unfold stoiDigits
  rw [takeWhile_eq_self_of_all _ _ hdig]
  cases h : Nat.toDigits 10 n with
  | nil => exact absurd h hne
  | cons c cs => simp [← h, hval]

theorem isDigit_not_special (c : Char) (h : c.isDigit = true) :
    isSpace c = false ∧ c ≠ '-' ∧ c ≠ '+' := by
  have h1 : 48 ≤ c.val ∧ c.val ≤ 57 := by simpa [Char.isDigit] using h
  refine ⟨?_, ?_, ?_⟩
  · simp only [isSpace, Bool.or_eq_false_iff, decide_eq_false_iff_not]
    refine ⟨⟨⟨⟨⟨?_, ?_⟩, ?_⟩, ?_⟩, ?_⟩, ?_⟩ <;> (intro hc; subst hc; revert h1; decide)
  · intro hc; subst hc; revert h1; decide
  · intro hc; subst hc; revert h1; decide

/-- Reading back a rendered integer gives the integer. -/
theorem stoi_to_string (n : Int) : stoi (to_string n) = some n := by
  cases n with
  | ofNat m =>
    obtain ⟨hne, hdig, -⟩ := toDigits_spec m
    have hs := stoiDigits_toDigits m
    simp only [to_string, stoi]
    cases h : Nat.toDigits 10 m with
    | nil => exact absurd h hne
    | cons c cs =>
      rw [h] at hs
      have hc : c.isDigit = true := hdig c (by rw [h]; exact List.mem_cons_self c cs)
      obtain ⟨hsp, hm, hp⟩ := isDigit_not_special c hc
      have hdrop : List.dropWhile isSpace (c :: cs) = c :: cs := by
        simp [List.dropWhile, hsp]
      rw [hdrop]
      split
      · rename_i heq; injection heq with h1 _; exact absurd h1 hm
      · rename_i heq; injection heq with h1 _; exact absurd h1 hp
      · simp [hs]
  | negSucc m =>
    have hs := stoiDigits_toDigits (m + 1)
    have hdrop : List.dropWhile isSpace ('-' :: Nat.toDigits 10 (m + 1))
        = '-' :: Nat.toDigits 10 (m + 1) := by
      rw [List.dropWhile_cons]
      simp [isSpace]
    simp only [to_string, stoi, hdrop, hs, Option.map_some']
    rfl

/-! ## The effect of `add` and `addSuper` -/

theorem modify_append_length {α : Type} (f : α → α) (l : List α) (x : α) :
    List.modify f l.length (l ++ [x]) = l ++ [f x] := by
  induction l with
  | nil => rfl
  | cons a t ih => simp [List.modify_succ_cons, ih]

theorem Result.andThen_of_ok {r : Result} (f : Network → Result) (h : r.thrown = none) :
    r.andThen f = f r.net := by
  simp [Result.andThen, h]

theorem Result.andThen_thrown_none {r : Result} {f : Network → Result} :
    (r.andThen f).thrown = none ↔ r.thrown = none ∧ (f r.net).thrown = none := by
  unfold Result.andThen
  cases h : r.thrown <;> simp [h]

theorem readIntProperty_eq_ok {net : Network} {key : String} {n : Int} :
    readIntProperty net key = .ok n ↔
      ∃ text, StdMap.find net.properties key = some text ∧ stoi text = some n := by
  unfold readIntProperty StdMap.atKey
  cases h1 : StdMap.find net.properties key with
  | none => simp
  | some text =>
    cases h2 : stoi text <;> simp [h2]

theorem readIntProperty_error {net : Network} {key : String} {e : Thrown}
    (h : readIntProperty net key = .error e) : e = .out_of_range ∨ e = .invalid_argument := by
  unfold readIntProperty StdMap.atKey at h
  cases h1 : StdMap.find net.properties key with
  | none => simp [h1] at h; exact Or.inl h.symm
  | some text =>
    cases h2 : stoi text with
    | none => simp [h1, h2] at h; exact Or.inr h.symm
    | some n => simp [h1, h2] at h

theorem readIntProperty_eq_intProperty {net : Network} {key : String} {n : Int} :
    readIntProperty net key = .ok n ↔ net.intProperty key = some n := by
  rw [readIntProperty_eq_ok]
  unfold Network.intProperty
  cases h1 : StdMap.find net.properties key <;> simp

theorem readIntProperty_of_propsOK {net : Network} (hp : net.PropsOK) {key : String}
    (hk : key ∈ integerKeys) : ∃ n, readIntProperty net key = .ok n := by
  have h := hp key hk
  cases h1 : StdMap.find net.properties key with
  | none => simp [h1] at h
  | some text =>
    cases h2 : stoi text with
    | none => simp [h1, h2] at h
    | some n => exact ⟨n, readIntProperty_eq_ok.mpr ⟨text, h1, h2⟩⟩

theorem countKey_ne_sizeKey (c : Composition) : c.countKey ≠ c.sizeKey := by
  unfold Composition.countKey Composition.sizeKey
  split_ifs <;> decide

theorem countKey_mem_integerKeys (c : Composition) : c.countKey ∈ integerKeys := by
  unfold Composition.countKey integerKeys
  split_ifs <;> decide

theorem sizeKey_mem_integerKeys (c : Composition) : c.sizeKey ∈ integerKeys := by
  unfold Composition.sizeKey integerKeys
  split_ifs <;> decide

theorem readIntProperty_setProp_ne (net : Network) (k1 k2 value : String) (hne : k1 ≠ k2) :
    readIntProperty (net.setProp k1 value) k2 = readIntProperty net k2 := by
  simp [readIntProperty, StdMap.atKey, Network.setProp, StdMap.find_set_ne _ _ _ _ _ hne]

/-- The bookkeeping of `add` when both properties parse and the vector of the
type exists. -/
theorem addBookkeeping_eq (net : Network) (h : Handle) (k1 k2 : String) (s n1 n2 : Int)
    (r0 : Reactant) (v : List Handle) (hne : k1 ≠ k2)
    (h1 : readIntProperty net k1 = .ok n1) (h2 : readIntProperty net k2 = .ok n2)
    (hobj : net.objects[h]? = some r0)
    (hv : StdMap.find net.clusterTypeMap r0.typeName.name = some v) :
    addBookkeeping net h k1 k2 s =
      ⟨none, { net with
        objects := net.objects.modify (fun r => r.setId (net.networkSize + 1)) h
        properties := StdMap.set strLt (StdMap.set strLt net.properties k1 (to_string (n1 + 1)))
          k2 (to_string (max s n2))
        networkSize := net.networkSize + 1
        clusterTypeMap := StdMap.set strLt net.clusterTypeMap r0.typeName.name (v ++ [h])
        allReactants := net.allReactants ++ [h] }⟩ := by
  have h2' : readIntProperty (net.setProp k1 (to_string (n1 + 1))) k2 = .ok n2 := by
    rw [readIntProperty_setProp_ne _ _ _ _ hne]; exact h2
  unfold addBookkeeping
  rw [Result.andThen_of_ok _ (by simp [incrementCount, h1])]
  simp only [incrementCount, h1]
  rw [Result.andThen_of_ok _ (by simp [raiseMaxSize, h2'])]
  simp only [raiseMaxSize, h2']
  simp [registerReactant, Network.modifyObject, Network.setProp, Network.setTypeVector,
    List.getElem?_modify, hobj, Reactant.setId, hv]

theorem Result.andThen_thrown_ne {r : Result} {f : Network → Result} {e : Thrown}
    (h1 : r.thrown ≠ some e) (h2 : ∀ net, (f net).thrown ≠ some e) :
    (r.andThen f).thrown ≠ some e := by
  unfold Result.andThen
  cases h : r.thrown with
  | none => simpa [h] using h2 r.net
  | some e' => simpa [h] using h1

theorem incrementCount_thrown_ne_message (net : Network) (k text : String) :
    (incrementCount net k).thrown ≠ some (.message text) := by
  unfold incrementCount
  cases h : readIntProperty net k with
  | error e => rcases readIntProperty_error h with h' | h' <;> simp [h']
  | ok n => simp

theorem raiseMaxSize_thrown_ne_message (net : Network) (k text : String) (s : Int) :
    (raiseMaxSize net k s).thrown ≠ some (.message text) := by
  unfold raiseMaxSize
  cases h : readIntProperty net k with
  | error e => rcases readIntProperty_error h with h' | h' <;> simp [h']
  | ok n => simp

theorem registerReactant_thrown_ne_message (net : Network) (h : Handle) (text : String) :
    (registerReactant net h).thrown ≠ some (.message text) := by
  unfold registerReactant
  simp only
  split
  · simp
  · split <;> simp

theorem addBookkeeping_thrown_ne_message (net : Network) (h : Handle) (k1 k2 : String)
    (s : Int) (text : String) :
    (addBookkeeping net h k1 k2 s).thrown ≠ some (.message text) :=
  Result.andThen_thrown_ne (incrementCount_thrown_ne_message _ _ _) fun _ =>
    Result.andThen_thrown_ne (raiseMaxSize_thrown_ne_message _ _ _ _) fun _ =>
      registerReactant_thrown_ne_message _ _ _

/-- The form of `add`: a duplicate throws and leaves the network alone, any
other cluster goes through the bookkeeping with the keys of its composition. -/
theorem add_eq (net : Network) (r : Reactant) :
    add net (some r) =
      if StdMap.find (net.speciesMap r.composition) r.composition = none then
        addBookkeeping
          { net with
            objects := net.objects ++ [r]
            singleSpeciesMap :=
              if r.composition.isMixed then net.singleSpeciesMap
              else StdMap.set Composition.lt net.singleSpeciesMap r.composition
                net.objects.length
            mixedSpeciesMap :=
              if r.composition.isMixed then
                StdMap.set Composition.lt net.mixedSpeciesMap r.composition net.objects.length
              else net.mixedSpeciesMap }
          net.objects.length r.composition.countKey r.composition.sizeKey
            (wrapInt r.composition.total)
      else
        ⟨some (.message (duplicateMessage r.composition.he r.composition.v r.composition.i)),
          net⟩ := by
  unfold add Network.speciesMap Composition.countKey Composition.sizeKey Composition.total
  by_cases hm : r.composition.isMixed = true
  · by_cases hc : StdMap.find net.mixedSpeciesMap r.composition = none
    · have hc' : StdMap.count net.mixedSpeciesMap r.composition = 0 :=
        (StdMap.count_eq_zero_iff _ _).mpr hc
      by_cases hv : r.composition.v > 0 <;> simp [hm, hc, hc', hv]
    · have hc' : ¬ StdMap.count net.mixedSpeciesMap r.composition = 0 :=
        fun h => hc ((StdMap.count_eq_zero_iff _ _).mp h)
      simp [hm, hc, hc']
  · by_cases hc : StdMap.find net.singleSpeciesMap r.composition = none
    · have hc' : StdMap.count net.singleSpeciesMap r.composition = 0 :=
        (StdMap.count_eq_zero_iff _ _).mpr hc
      by_cases hhe : r.composition.he > 0
      · simp [hm, hc, hc', hhe]
      · by_cases hv : r.composition.v > 0 <;> simp [hm, hc, hc', hhe, hv]
    · have hc' : ¬ StdMap.count net.singleSpeciesMap r.composition = 0 :=
        fun h => hc ((StdMap.count_eq_zero_iff _ _).mp h)
      simp [hm, hc, hc']

/-- A duplicate is rejected and the network is as before. -/
theorem add_duplicate (net : Network) (r : Reactant) (h : Handle)
    (hdup : StdMap.find (net.speciesMap r.composition) r.composition = some h) :
    add net (some r) =
      ⟨some (.message (duplicateMessage r.composition.he r.composition.v r.composition.i)),
        net⟩ := by
  rw [add_eq]; simp [hdup]

/-- A cluster whose composition is not stored is added when the two properties
parse and the vector of its type exists. -/
theorem add_fresh (net : Network) (r : Reactant) (n1 n2 : Int) (v : List Handle)
    (hfresh : StdMap.find (net.speciesMap r.composition) r.composition = none)
    (h1 : readIntProperty net r.composition.countKey = .ok n1)
    (h2 : readIntProperty net r.composition.sizeKey = .ok n2)
    (hv : StdMap.find net.clusterTypeMap r.typeName.name = some v) :
    add net (some r) = ⟨none, net.inserted r n1 n2 v⟩ := by
  rw [add_eq, if_pos hfresh]
  refine (addBookkeeping_eq _ _ _ _ _ n1 n2 r v (countKey_ne_sizeKey _) ?_ ?_ ?_ ?_).trans ?_
  · exact h1
  · exact h2
  · simp
  · exact hv
  · simp [Network.inserted, modify_append_length, Reactant.setId]

theorem incrementCount_ok {net : Network} {k : String}
    (h : (incrementCount net k).thrown = none) :
    ∃ n, readIntProperty net k = .ok n ∧
      incrementCount net k = ⟨none, net.setProp k (to_string (n + 1))⟩ := by
  unfold incrementCount at h ⊢
  cases hr : readIntProperty net k with
  | error e => simp [hr] at h
  | ok n => exact ⟨n, rfl, rfl⟩

theorem raiseMaxSize_ok {net : Network} {k : String} {s : Int}
    (h : (raiseMaxSize net k s).thrown = none) :
    ∃ n, readIntProperty net k = .ok n ∧
      raiseMaxSize net k s = ⟨none, net.setProp k (to_string (max s n))⟩ := by
  unfold raiseMaxSize at h ⊢
  cases hr : readIntProperty net k with
  | error e => simp [hr] at h
  | ok n => exact ⟨n, rfl, rfl⟩

theorem registerReactant_ok {net : Network} {h : Handle}
    (hok : (registerReactant net h).thrown = none) :
    ∃ r0 v, net.objects[h]? = some r0 ∧
      StdMap.find net.clusterTypeMap r0.typeName.name = some v := by
  unfold registerReactant at hok
  simp only [Network.modifyObject, List.getElem?_modify] at hok
  cases ho : net.objects[h]? with
  | none => simp [ho] at hok
  | some r0 =>
    simp only [ho, Option.map_eq_map, Option.map_some', if_true] at hok
    cases hv : StdMap.find net.clusterTypeMap r0.typeName.name with
    | none => simp [Reactant.setId, hv] at hok
    | some v => exact ⟨r0, v, rfl, hv⟩

/-- A call of `add` that returns has stored a fresh composition. -/
theorem add_ok (net : Network) (r : Reactant) (hok : (add net (some r)).thrown = none) :
    ∃ n1 n2 v, StdMap.find (net.speciesMap r.composition) r.composition = none ∧
      readIntProperty net r.composition.countKey = .ok n1 ∧
      readIntProperty net r.composition.sizeKey = .ok n2 ∧
      StdMap.find net.clusterTypeMap r.typeName.name = some v ∧
      add net (some r) = ⟨none, net.inserted r n1 n2 v⟩ := by
  rw [add_eq] at hok
  by_cases hfresh : StdMap.find (net.speciesMap r.composition) r.composition = none
  · rw [if_pos hfresh] at hok
    unfold addBookkeeping at hok
    obtain ⟨hinc, hrest⟩ := Result.andThen_thrown_none.mp hok
    obtain ⟨hmax, hreg⟩ := Result.andThen_thrown_none.mp hrest
    obtain ⟨n1, h1, e1⟩ := incrementCount_ok hinc
    rw [e1] at hmax hreg
    obtain ⟨n2, h2, e2⟩ := raiseMaxSize_ok hmax
    rw [e2] at hreg
    rw [readIntProperty_setProp_ne _ _ _ _ (countKey_ne_sizeKey _)] at h2
    obtain ⟨r0, v, hr0, hv⟩ := registerReactant_ok hreg
    have hr : r0 = r := by
      simp [Network.setProp] at hr0
      exact hr0.symm
    subst hr
    exact ⟨n1, n2, v, hfresh, h1, h2, hv, add_fresh net r0 n1 n2 v hfresh h1 h2 hv⟩
  · simp [hfresh] at hok

/-! ## `addSuper` -/

theorem addSuper_eq (net : Network) (r : Reactant) :
    addSuper net (some r) =
      if r.composition.isMixed = true ∧ StdMap.find net.superSpeciesMap r.composition = none then
        (incrementCount
          { net with
            objects := net.objects ++ [r]
            superSpeciesMap :=
              StdMap.set Composition.lt net.superSpeciesMap r.composition net.objects.length }
          "numSuperClusters").andThen fun net' => registerReactant net' net.objects.length
      else
        ⟨some (.message
          (duplicateSuperMessage r.composition.he r.composition.v r.composition.i)), net⟩ := by
  unfold addSuper
  simp only [StdMap.count_eq_zero_iff]

theorem addSuper_fresh (net : Network) (r : Reactant) (n : Int) (v : List Handle)
    (hm : r.composition.isMixed = true)
    (hfresh : StdMap.find net.superSpeciesMap r.composition = none)
    (h1 : readIntProperty net "numSuperClusters" = .ok n)
    (hv : StdMap.find net.clusterTypeMap r.typeName.name = some v) :
    addSuper net (some r) = ⟨none, net.insertedSuper r n v⟩ := by
  rw [addSuper_eq, if_pos ⟨hm, hfresh⟩]
  have e : ∀ objs sup, readIntProperty
      { net with objects := objs, superSpeciesMap := sup } "numSuperClusters" = .ok n :=
    fun _ _ => h1
  simp only [incrementCount, e]
  rw [Result.andThen_of_ok _ rfl]
  simp [registerReactant, Network.modifyObject, Network.setProp, Network.setTypeVector,
    List.getElem?_modify, Reactant.setId, hv, Network.insertedSuper, modify_append_length]

theorem addSuper_ok (net : Network) (r : Reactant)
    (hok : (addSuper net (some r)).thrown = none) :
    ∃ n v, r.composition.isMixed = true ∧
      StdMap.find net.superSpeciesMap r.composition = none ∧
      readIntProperty net "numSuperClusters" = .ok n ∧
      StdMap.find net.clusterTypeMap r.typeName.name = some v ∧
      addSuper net (some r) = ⟨none, net.insertedSuper r n v⟩ := by
  rw [addSuper_eq] at hok
  by_cases hc : r.composition.isMixed = true ∧
      StdMap.find net.superSpeciesMap r.composition = none
  · rw [if_pos hc] at hok
    obtain ⟨hinc, hreg⟩ := Result.andThen_thrown_none.mp hok
    obtain ⟨n, h1, e1⟩ := incrementCount_ok hinc
    rw [e1] at hreg
    obtain ⟨r0, v, hr0, hv⟩ := registerReactant_ok hreg
    have hr : r0 = r := by
      simp [Network.setProp] at hr0
      exact hr0.symm
    subst hr
    exact ⟨n, v, hc.1, hc.2, h1, hv, addSuper_fresh net r0 n v hc.1 hc.2 h1 hv⟩
  · rw [if_neg hc] at hok
    simp at hok

/-! ## The representation invariant is kept -/

theorem ClusterType.name_injective {a b : ClusterType} (h : a.name = b.name) : a = b := by
  cases a <;> cases b <;> first | rfl | (exact absurd h (by decide))

theorem ClusterType.mem_all (t : ClusterType) : t ∈ ClusterType.all := by
  cases t <;> decide

namespace StdMap

variable {K V : Type} [DecidableEq K]

theorem mem_set {lt : K → K → Bool} {m : StdMap K V} {k : K} {v : V} {p : K × V}
    (h : p ∈ set lt m k v) : p = (k, v) ∨ p ∈ m := by
  induction m with
  | nil => simp [set] at h; exact Or.inl h
  | cons q t ih =>
    obtain ⟨k', v'⟩ := q
    unfold set at h
    split_ifs at h with h1 h2
    · rcases List.mem_cons.mp h with h | h
      · exact Or.inl h
      · exact Or.inr (List.mem_cons_of_mem _ h)
    · rcases List.mem_cons.mp h with h | h
      · exact Or.inl h
      · exact Or.inr h
    · rcases List.mem_cons.mp h with h | h
      · exact Or.inr (h ▸ List.mem_cons_self _ _)
      · rcases ih h with h | h
        · exact Or.inl h
        · exact Or.inr (List.mem_cons_of_mem _ h)

theorem mem_of_find {m : StdMap K V} {k : K} {v : V} (h : find m k = some v) : (k, v) ∈ m := by
  induction m with
  | nil => simp [find] at h
  | cons q t ih =>
    obtain ⟨k', v'⟩ := q
    unfold find at h
    split_ifs at h with h1
    · simp at h; subst h1; subst h; exact List.mem_cons_self _ _
    · exact List.mem_cons_of_mem _ (ih h)

end StdMap

theorem getElem?_append_of_some {α : Type} {l : List α} {i : Nat} {x : α} (l' : List α)
    (h : l[i]? = some x) : (l ++ l')[i]? = some x := by
  have hi : i < l.length := by
    by_contra hc
    rw [List.getElem?_eq_none (by omega)] at h
    exact Option.noConfusion h
  rw [List.getElem?_append_left hi]; exact h

theorem propsOK_set_to_string {props : StdMap String String}
    (hp : ∀ key ∈ integerKeys, ((StdMap.find props key).bind stoi).isSome = true)
    (k : String) (n : Int) :
    ∀ key ∈ integerKeys,
      ((StdMap.find (StdMap.set strLt props k (to_string n)) key).bind stoi).isSome = true := by
  intro key hkey
  by_cases h : k = key
  · subst h
    simp [StdMap.find_set_self, stoi_to_string]
  · rw [StdMap.find_set_ne _ _ _ _ _ h]
    exact hp key hkey

theorem typesOK_push {objects : List Reactant} {ctm : StdMap String (List Handle)}
    (ht : ∀ t ∈ ClusterType.all, ∃ v, StdMap.find ctm t.name = some v ∧
      ∀ h ∈ v, ∃ r, objects[h]? = some r ∧ r.typeName = t)
    (r : Reactant) (v : List Handle) (hv : StdMap.find ctm r.typeName.name = some v) :
    ∀ t ∈ ClusterType.all,
      ∃ w, StdMap.find (StdMap.set strLt ctm r.typeName.name (v ++ [objects.length])) t.name
          = some w ∧
        ∀ h ∈ w, ∃ r', (objects ++ [r])[h]? = some r' ∧ r'.typeName = t := by
  intro t htm
  obtain ⟨w, hw, hall⟩ := ht t htm
  by_cases hname : r.typeName.name = t.name
  · have ht' : r.typeName = t := ClusterType.name_injective hname
    rw [hname, StdMap.find_set_self]
    rw [hname, hw] at hv
    injection hv with hv
    subst hv
    refine ⟨_, rfl, ?_⟩
    intro h hh
    rcases List.mem_append.mp hh with hh | hh
    · obtain ⟨r', hr', hty⟩ := hall h hh
      exact ⟨r', getElem?_append_of_some _ hr', hty⟩
    · simp at hh
      subst hh
      exact ⟨r, by simp, ht'⟩
  · rw [StdMap.find_set_ne _ _ _ _ _ hname]
    refine ⟨w, hw, ?_⟩
    intro h hh
    obtain ⟨r', hr', hty⟩ := hall h hh
    exact ⟨r', getElem?_append_of_some _ hr', hty⟩

theorem indexOK_append {objects : List Reactant} {m : StdMap Composition Handle}
    (h : ∀ p ∈ m, ∃ r, objects[p.2]? = some r ∧ r.composition = p.1) (r0 : Reactant) :
    ∀ p ∈ m, ∃ r, (objects ++ [r0])[p.2]? = some r ∧ r.composition = p.1 := by
  intro p hp
  obtain ⟨r, hr, hc⟩ := h p hp
  exact ⟨r, getElem?_append_of_some _ hr, hc⟩

theorem indexOK_set {objects : List Reactant} {m : StdMap Composition Handle}
    (h : ∀ p ∈ m, ∃ r, objects[p.2]? = some r ∧ r.composition = p.1) (r0 : Reactant) :
    ∀ p ∈ StdMap.set Composition.lt m r0.composition objects.length,
      ∃ r, (objects ++ [r0])[p.2]? = some r ∧ r.composition = p.1 := by
  intro p hp
  rcases StdMap.mem_set hp with hp | hp
  · subst hp
    exact ⟨r0, by simp, rfl⟩
  · exact indexOK_append h r0 p hp

theorem WF_inserted {net : Network} (hwf : net.WF) (r : Reactant) (n1 n2 : Int)
    (v : List Handle) (hv : StdMap.find net.clusterTypeMap r.typeName.name = some v) :
    (net.inserted r n1 n2 v).WF := by
  refine ⟨?_, ?_, ?_, ?_, ?_⟩
  · exact propsOK_set_to_string (propsOK_set_to_string hwf.props _ _) _ _
  · have := typesOK_push hwf.types (r.setId (net.networkSize + 1)) v hv
    exact this
  · intro p hp
    simp only [Network.inserted] at hp ⊢
    split_ifs at hp with hm
    · exact indexOK_append hwf.single _ p hp
    · exact indexOK_set hwf.single (r.setId (net.networkSize + 1)) p hp
  · intro p hp
    simp only [Network.inserted] at hp ⊢
    split_ifs at hp with hm
    · exact indexOK_set hwf.mixed (r.setId (net.networkSize + 1)) p hp
    · exact indexOK_append hwf.mixed _ p hp
  · exact indexOK_append hwf.super _

theorem WF_insertedSuper {net : Network} (hwf : net.WF) (r : Reactant) (n : Int)
    (v : List Handle) (hv : StdMap.find net.clusterTypeMap r.typeName.name = some v) :
    (net.insertedSuper r n v).WF := by
  refine ⟨?_, ?_, ?_, ?_, ?_⟩
  · exact propsOK_set_to_string hwf.props _ _
  · have := typesOK_push hwf.types (r.setId (net.networkSize + 1)) v hv
    exact this
  · exact indexOK_append hwf.single _
  · exact indexOK_append hwf.mixed _
  · exact indexOK_set hwf.super (r.setId (net.networkSize + 1))

theorem WF_new : Network.new.WF := by
  refine ⟨?_, ?_, ?_, ?_, ?_⟩
  · intro key hkey
    simp only [integerKeys, List.mem_cons, List.mem_singleton, List.not_mem_nil, or_false] at hkey
    rcases hkey with h | h | h | h | h | h | h | h | h | h | h <;> subst h <;> decide
  · intro t _
    cases t <;> exact ⟨[], by decide, by simp⟩
  · intro p hp
    simp [Network.new, setDefaultPropsAndNames, ReactionNetwork.init, Network.setProp,
      Network.setTypeVector] at hp
  · intro p hp
    simp [Network.new, setDefaultPropsAndNames, ReactionNetwork.init, Network.setProp,
      Network.setTypeVector] at hp
  · intro p hp
    simp [Network.new, setDefaultPropsAndNames, ReactionNetwork.init, Network.setProp,
      Network.setTypeVector] at hp

/-- In a well-formed network `add` either rejects a duplicate and leaves the
network alone, or returns with the cluster inserted. -/
theorem add_cases {net : Network} (hwf : net.WF) (r : Reactant) :
    (∃ h, StdMap.find (net.speciesMap r.composition) r.composition = some h ∧
      add net (some r) =
        ⟨some (.message (duplicateMessage r.composition.he r.composition.v r.composition.i)),
          net⟩) ∨
    (∃ n1 n2 v, StdMap.find (net.speciesMap r.composition) r.composition = none ∧
      readIntProperty net r.composition.countKey = .ok n1 ∧
      readIntProperty net r.composition.sizeKey = .ok n2 ∧
      StdMap.find net.clusterTypeMap r.typeName.name = some v ∧
      add net (some r) = ⟨none, net.inserted r n1 n2 v⟩) := by
  cases hf : StdMap.find (net.speciesMap r.composition) r.composition with
  | some h => exact Or.inl ⟨h, rfl, add_duplicate net r h hf⟩
  | none =>
    obtain ⟨n1, h1⟩ := readIntProperty_of_propsOK hwf.props (countKey_mem_integerKeys r.composition)
    obtain ⟨n2, h2⟩ := readIntProperty_of_propsOK hwf.props (sizeKey_mem_integerKeys r.composition)
    obtain ⟨v, hv, -⟩ := hwf.types r.typeName (ClusterType.mem_all _)
    exact Or.inr ⟨n1, n2, v, rfl, h1, h2, hv, add_fresh net r n1 n2 v hf h1 h2 hv⟩

/-- In a well-formed network `addSuper` either throws and leaves the network
alone, or returns with the cluster inserted. -/
theorem addSuper_cases {net : Network} (hwf : net.WF) (r : Reactant) :
    (¬ (r.composition.isMixed = true ∧
        StdMap.find net.superSpeciesMap r.composition = none) ∧
      addSuper net (some r) =
        ⟨some (.message
          (duplicateSuperMessage r.composition.he r.composition.v r.composition.i)), net⟩) ∨
    (∃ n v, r.composition.isMixed = true ∧
      StdMap.find net.superSpeciesMap r.composition = none ∧
      readIntProperty net "numSuperClusters" = .ok n ∧
      StdMap.find net.clusterTypeMap r.typeName.name = some v ∧
      addSuper net (some r) = ⟨none, net.insertedSuper r n v⟩) := by
  by_cases hc : r.composition.isMixed = true ∧
      StdMap.find net.superSpeciesMap r.composition = none
  · obtain ⟨n, h1⟩ := readIntProperty_of_propsOK hwf.props
      (show "numSuperClusters" ∈ integerKeys by decide)
    obtain ⟨v, hv, -⟩ := hwf.types r.typeName (ClusterType.mem_all _)
    exact Or.inr ⟨n, v, hc.1, hc.2, h1, hv, addSuper_fresh net r n v hc.1 hc.2 h1 hv⟩
  · refine Or.inl ⟨hc, ?_⟩
    rw [addSuper_eq, if_neg hc]

theorem WF_apply {net : Network} (hwf : net.WF) (c : Call) : (c.apply net).net.WF := by
  cases c with
  | add r =>
    rcases add_cases hwf r with ⟨h, -, e⟩ | ⟨n1, n2, v, -, -, -, hv, e⟩
    · simp only [Call.apply, e]; exact hwf
    · simp only [Call.apply, e]; exact WF_inserted hwf r n1 n2 v hv
  | addSuper r =>
    rcases addSuper_cases hwf r with ⟨-, e⟩ | ⟨n, v, -, -, -, hv, e⟩
    · simp only [Call.apply, e]; exact hwf
    · simp only [Call.apply, e]; exact WF_insertedSuper hwf r n v hv

theorem WF_run {net : Network} (hwf : net.WF) (calls : List Call) : (run net calls).WF := by
  induction calls generalizing net with
  | nil => exact hwf
  | cons c rest ih => exact ih (WF_apply hwf c)

/-! ## Lookups -/

theorem get_eq (net : Network) (type : String) (size : Int) :
    get net type size = .ok
      (if (type = heType ∨ type = vType ∨ type = iType) ∧ size ≥ 1 then
        StdMap.find net.singleSpeciesMap
          (Composition.setKey { he := 0, v := 0, i := 0 } type size)
      else none) := by
  unfold get
  by_cases hc : (type = heType ∨ type = vType ∨ type = iType) ∧ size ≥ 1
  · simp only [if_pos hc]
    cases hf : StdMap.find net.singleSpeciesMap
        (Composition.setKey { he := 0, v := 0, i := 0 } type size) with
    | none => simp [StdMap.count, hf]
    | some h => simp [StdMap.count, StdMap.atKey, hf, Except.map]
  · simp only [if_neg hc]

theorem getCompound_eq (net : Network) (type : String) (sizes : List Int) :
    getCompound net type sizes = .ok
      (if (type = heVType ∨ type = heIType) ∧ sizes.length = 3 then
        StdMap.find net.mixedSpeciesMap (compositionOfSizes sizes)
      else none) := by
  unfold getCompound
  by_cases hc : (type = heVType ∨ type = heIType) ∧ sizes.length = 3
  · simp only [if_pos hc]
    cases hf : StdMap.find net.mixedSpeciesMap (compositionOfSizes sizes) with
    | none => simp [StdMap.count, hf]
    | some h => simp [StdMap.count, StdMap.atKey, hf, Except.map]
  · simp only [if_neg hc]

theorem getSuper_eq (net : Network) (type : String) (sizes : List Int) :
    getSuper net type sizes = .ok
      (if type = superType ∧ sizes.length = 3 then
        StdMap.find net.superSpeciesMap (compositionOfSizes sizes)
      else none) := by
  unfold getSuper
  by_cases hc : type = superType ∧ sizes.length = 3
  · simp only [if_pos hc]
    cases hf : StdMap.find net.superSpeciesMap (compositionOfSizes sizes) with
    | none => simp [StdMap.count, hf]
    | some h => simp [StdMap.count, StdMap.atKey, hf, Except.map]
  · simp only [if_neg hc]

theorem isMixed_setKey (type : String) (size : Int) :
    (Composition.setKey { he := 0, v := 0, i := 0 } type size).isMixed = false := by
  have key : ∀ x : Int, ¬ ((if x > 0 then (1 : Int) else 0) + (if (0 : Int) > 0 then 1 else 0)
      + (if (0 : Int) > 0 then 1 else 0) > 1) := by
    intro x; split_ifs <;> omega
  have key2 : ∀ x : Int, ¬ ((if (0 : Int) > 0 then (1 : Int) else 0) + (if x > 0 then 1 else 0)
      + (if (0 : Int) > 0 then 1 else 0) > 1) := by
    intro x; split_ifs <;> omega
  have key3 : ∀ x : Int, ¬ ((if (0 : Int) > 0 then (1 : Int) else 0)
      + (if (0 : Int) > 0 then 1 else 0) + (if x > 0 then 1 else 0) > 1) := by
    intro x; split_ifs <;> omega
  unfold Composition.setKey
  split_ifs
  · simpa [Composition.isMixed, positive] using key size
  · simpa [Composition.isMixed, positive] using key2 size
  · simpa [Composition.isMixed, positive] using key3 size
  · simp [Composition.isMixed, positive]

/-! ## The composition maps only grow under `add` and `addSuper` -/

theorem SameMaps.andThen {r : Result} {f : Network → Result} {net : Network}
    (h1 : SameMaps r.net net) (h2 : ∀ n, SameMaps (f n).net n) :
    SameMaps (r.andThen f).net net := by
  unfold Result.andThen
  cases h : r.thrown with
  | none =>
    simp only [h]
    exact ⟨(h2 r.net).1.trans h1.1, (h2 r.net).2.1.trans h1.2.1, (h2 r.net).2.2.trans h1.2.2⟩
  | some e => simpa [h] using h1

theorem incrementCount_sameMaps (net : Network) (k : String) :
    SameMaps (incrementCount net k).net net := by
  unfold incrementCount
  cases readIntProperty net k <;> exact ⟨rfl, rfl, rfl⟩

theorem raiseMaxSize_sameMaps (net : Network) (k : String) (s : Int) :
    SameMaps (raiseMaxSize net k s).net net := by
  unfold raiseMaxSize
  cases readIntProperty net k <;> exact ⟨rfl, rfl, rfl⟩

theorem registerReactant_sameMaps (net : Network) (h : Handle) :
    SameMaps (registerReactant net h).net net := by
  unfold registerReactant
  simp only
  split
  · exact ⟨rfl, rfl, rfl⟩
  · split <;> exact ⟨rfl, rfl, rfl⟩

theorem addBookkeeping_sameMaps (net : Network) (h : Handle) (k1 k2 : String) (s : Int) :
    SameMaps (addBookkeeping net h k1 k2 s).net net :=
  SameMaps.andThen (incrementCount_sameMaps _ _) fun _ =>
    SameMaps.andThen (raiseMaxSize_sameMaps _ _ _) fun _ => registerReactant_sameMaps _ _

theorem add_maps (net : Network) (r : Reactant) :
    (add net (some r)).net.singleSpeciesMap =
        (if StdMap.find (net.speciesMap r.composition) r.composition = none
            ∧ r.composition.isMixed = false then
          StdMap.set Composition.lt net.singleSpeciesMap r.composition net.objects.length
        else net.singleSpeciesMap) ∧
      (add net (some r)).net.mixedSpeciesMap =
        (if StdMap.find (net.speciesMap r.composition) r.composition = none
            ∧ r.composition.isMixed = true then
          StdMap.set Composition.lt net.mixedSpeciesMap r.composition net.objects.length
        else net.mixedSpeciesMap) ∧
      (add net (some r)).net.superSpeciesMap = net.superSpeciesMap := by
  rw [add_eq]
  by_cases hfresh : StdMap.find (net.speciesMap r.composition) r.composition = none
  · rw [if_pos hfresh]
    obtain ⟨e1, e2, e3⟩ := addBookkeeping_sameMaps
      { net with
        objects := net.objects ++ [r]
        singleSpeciesMap :=
          if r.composition.isMixed then net.singleSpeciesMap
          else StdMap.set Composition.lt net.singleSpeciesMap r.composition
            net.objects.length
        mixedSpeciesMap :=
          if r.composition.isMixed then
            StdMap.set Composition.lt net.mixedSpeciesMap r.composition net.objects.length
          else net.mixedSpeciesMap }
      net.objects.length r.composition.countKey r.composition.sizeKey
        (wrapInt r.composition.total)
    rw [e1, e2, e3]
    by_cases hm : r.composition.isMixed = true <;> simp [hm, hfresh]
  · rw [if_neg hfresh]
    simp [hfresh]

theorem addSuper_maps (net : Network) (r : Reactant) :
    (addSuper net (some r)).net.singleSpeciesMap = net.singleSpeciesMap ∧
      (addSuper net (some r)).net.mixedSpeciesMap = net.mixedSpeciesMap := by
  rw [addSuper_eq]
  by_cases hc : r.composition.isMixed = true ∧
      StdMap.find net.superSpeciesMap r.composition = none
  · rw [if_pos hc]
    obtain ⟨e1, e2, -⟩ := SameMaps.andThen
      (f := fun net' => registerReactant net' net.objects.length)
      (incrementCount_sameMaps
        { net with
          objects := net.objects ++ [r]
          superSpeciesMap :=
            StdMap.set Composition.lt net.superSpeciesMap r.composition net.objects.length }
        "numSuperClusters") (fun _ => registerReactant_sameMaps _ _)
    exact ⟨e1, e2⟩
  · rw [if_neg hc]
    exact ⟨rfl, rfl⟩

/-- A composition that `add` would find stored is still stored after any call. -/
theorem stored_persists (net : Network) (c : Call) (comp : Composition) (h : Handle)
    (hs : StdMap.find (net.speciesMap comp) comp = some h) :
    StdMap.find ((c.apply net).net.speciesMap comp) comp = some h := by
  cases c with
  | add r =>
    obtain ⟨e1, e2, -⟩ := add_maps net r
    simp only [Call.apply]
    unfold Network.speciesMap at hs ⊢
    rw [e1, e2]
    by_cases hfresh : StdMap.find (net.speciesMap r.composition) r.composition = none
    · have hne : r.composition ≠ comp := by
        intro heq
        rw [heq] at hfresh
        unfold Network.speciesMap at hfresh
        rw [hs] at hfresh
        exact Option.noConfusion hfresh
      by_cases hm : comp.isMixed = true <;> by_cases hr : r.composition.isMixed = true <;>
        simp only [hm, hr, hfresh, if_true, if_false, Bool.false_eq_true, true_and, and_true,
          and_false] at hs ⊢ <;>
        first
          | exact hs
          | (rw [StdMap.find_set_ne _ _ _ _ _ hne]; exact hs)
    · simp only [hfresh, false_and, if_false]
      exact hs
  | addSuper r =>
    obtain ⟨e1, e2⟩ := addSuper_maps net r
    simp only [Call.apply]
    unfold Network.speciesMap at hs ⊢
    rw [e1, e2]
    exact hs

theorem stored_persists_run (net : Network) (calls : List Call) (comp : Composition)
    (h : Handle) (hs : StdMap.find (net.speciesMap comp) comp = some h) :
    StdMap.find ((run net calls).speciesMap comp) comp = some h := by
  induction calls generalizing net with
  | nil => exact hs
  | cons c rest ih => exact ih _ (stored_persists net c comp h hs)

theorem speciesMap_inserted_self (net : Network) (r : Reactant) (n1 n2 : Int)
    (v : List Handle) :
    StdMap.find ((net.inserted r n1 n2 v).speciesMap r.composition) r.composition
      = some net.objects.length := by
  unfold Network.speciesMap Network.inserted
  by_cases hm : r.composition.isMixed = true <;> simp [hm, StdMap.find_set_self]

/-! ## Insertion and lookup -/

/-- C1: when `add(c)` returns, the object of the new cluster is `c` with the id
`size()` of the network after the call; if `c` is a single-species cluster of
type `type` in He, V, I and size `n >= 1`, `get(type, n)` returns this object;
if `c` is a mixed cluster, `getCompound` with either mixed family name and the
sizes `[nHe, nV, nI]` returns it. -/
theorem add_then_lookup_returns_cluster (net : Network) (r : Reactant)
    (hok : (add net (some r)).thrown = none) :
    (add net (some r)).net.deref net.objects.length
        = some (r.setId (add net (some r)).net.size) ∧
      (∀ (type : String) (n : Int), (type = heType ∨ type = vType ∨ type = iType) → 1 ≤ n →
        r.composition = Composition.setKey { he := 0, v := 0, i := 0 } type n →
        get (add net (some r)).net type n = .ok (some net.objects.length)) ∧
      (∀ type : String, (type = heVType ∨ type = heIType) → r.composition.isMixed = true →
        getCompound (add net (some r)).net type
          [r.composition.he, r.composition.v, r.composition.i]
            = .ok (some net.objects.length)) := by
  obtain ⟨n1, n2, v, -, -, -, -, e⟩ := add_ok net r hok
  rw [e]
  refine ⟨?_, ?_, ?_⟩
  · simp [Network.deref, Network.inserted, Network.size]
  · intro type n htype hn hcomp
    have hm : r.composition.isMixed = false := by rw [hcomp]; exact isMixed_setKey type n
    rw [get_eq, if_pos ⟨htype, hn⟩, ← hcomp]
    simp [Network.inserted, hm, StdMap.find_set_self]
  · intro type htype hm
    rw [getCompound_eq, if_pos ⟨htype, rfl⟩]
    have hc : compositionOfSizes [r.composition.he, r.composition.v, r.composition.i]
        = r.composition := rfl
    rw [hc]
    simp [Network.inserted, hm, StdMap.find_set_self]

/-- Witness of C1: `He_10`, `V_4` and `I_48` added to an empty network are
returned by `get("He", 10)`, `get("V", 4)` and `get("I", 48)`. -/
theorem add_then_lookup_returns_cluster_witness :
    (add (run Network.new [.add (HeCluster.mk 10), .add (VCluster.mk 4)])
        (some (InterstitialCluster.mk 48))).thrown = none ∧
      get (add (run Network.new [.add (HeCluster.mk 10), .add (VCluster.mk 4)])
        (some (InterstitialCluster.mk 48))).net "I" 48 = .ok (some 2) ∧
      get (add (run Network.new [.add (HeCluster.mk 10), .add (VCluster.mk 4)])
        (some (InterstitialCluster.mk 48))).net "He" 10 = .ok (some 0) ∧
      get (add (run Network.new [.add (HeCluster.mk 10), .add (VCluster.mk 4)])
        (some (InterstitialCluster.mk 48))).net "V" 4 = .ok (some 1) :=
  ⟨by decide,
    (add_then_lookup_returns_cluster
      (run Network.new [.add (HeCluster.mk 10), .add (VCluster.mk 4)])
      (InterstitialCluster.mk 48) (by decide)).2.1 "I" 48 (by decide) (by decide) (by decide),
    by rfl, by rfl⟩

/-- C2: once `add` has returned for a cluster, `add` of any cluster with the
same composition throws the duplicate message, whatever `add` and `addSuper`
calls came in between; and in a well-formed network that does not store the
composition the first `add` returns. -/
theorem add_same_composition_twice_fails (net : Network) (r1 r2 : Reactant)
    (hsame : r2.composition = r1.composition) :
    ((add net (some r1)).thrown = none → ∀ calls : List Call,
      (add (run (add net (some r1)).net calls) (some r2)).thrown =
        some (.message
          (duplicateMessage r2.composition.he r2.composition.v r2.composition.i))) ∧
      (net.WF → StdMap.find (net.speciesMap r1.composition) r1.composition = none →
        (add net (some r1)).thrown = none) := by
  constructor
  · intro hok calls
    obtain ⟨n1, n2, v, -, -, -, -, e⟩ := add_ok net r1 hok
    have hs := stored_persists_run (add net (some r1)).net calls r1.composition
      net.objects.length (by rw [e]; exact speciesMap_inserted_self net r1 n1 n2 v)
    rw [← hsame] at hs
    rw [add_duplicate _ r2 _ hs]
  · intro hwf hfresh
    rcases add_cases hwf r1 with ⟨h, hd, -⟩ | ⟨n1, n2, v, -, -, -, -, e⟩
    · rw [hfresh] at hd; exact Option.noConfusion hd
    · rw [e]

/-- Witness of C2: a second `HeV(5,3)` added to a network that already holds
`HeV(5,3)` throws. -/
theorem add_same_composition_twice_fails_witness :
    (add Network.new (some (HeVCluster.mk 5 3))).thrown = none ∧
      (add (run (add Network.new (some (HeVCluster.mk 5 3))).net [.add (HeCluster.mk 5)])
          (some (HeVCluster.mk 5 3))).thrown =
        some (.message
          "PSIClusterReactionNetwork Message: Duplicate Reactant (He=5,V=3,I=0) not added!\n") :=
  ⟨(add_same_composition_twice_fails Network.new (HeVCluster.mk 5 3) (HeVCluster.mk 5 3)
      rfl).2 WF_new (by decide),
    (add_same_composition_twice_fails Network.new (HeVCluster.mk 5 3) (HeVCluster.mk 5 3)
      rfl).1 (by decide) [.add (HeCluster.mk 5)]⟩

/-- C3: an `add` that throws the duplicate message leaves the network as it
was: every data member, hence `size()`, `getAll()`, the per-type lists, the
properties, every lookup and the next id, is unchanged. -/
theorem failed_add_leaves_network_unchanged (net : Network) (r : Reactant) (text : String)
    (hfail : (add net (some r)).thrown = some (.message text)) :
    (add net (some r)).net = net := by
  rw [add_eq] at hfail ⊢
  by_cases hfresh : StdMap.find (net.speciesMap r.composition) r.composition = none
  · rw [if_pos hfresh] at hfail
    exact absurd hfail (addBookkeeping_thrown_ne_message _ _ _ _ _ _)
  · rw [if_neg hfresh]

set_option maxRecDepth 100000 in
/-- Witness of C3: after the rejected duplicate `HeV(5,3)` the network of the
test still has 3 + 45 + 36 = 84 clusters, 45 of them HeV. -/
theorem failed_add_leaves_network_unchanged_witness :
    (add checkReactantsNetwork (some (HeVCluster.mk 5 3))).thrown =
        some (.message
          "PSIClusterReactionNetwork Message: Duplicate Reactant (He=5,V=3,I=0) not added!\n") ∧
      (add checkReactantsNetwork (some (HeVCluster.mk 5 3))).net = checkReactantsNetwork ∧
      (getAll checkReactantsNetwork).length = 84 ∧
      (getAllOfType checkReactantsNetwork "HeV").map List.length = .ok 45 :=
  ⟨by decide,
    failed_add_leaves_network_unchanged checkReactantsNetwork (HeVCluster.mk 5 3)
      "PSIClusterReactionNetwork Message: Duplicate Reactant (He=5,V=3,I=0) not added!\n"
      (by decide),
    by decide, by rfl⟩

/-! ## Sequences of calls -/

/-- The effect of one call on a well-formed network: it throws and changes
nothing, or it returns and the cluster is appended everywhere. -/
theorem apply_cases {net : Network} (hwf : net.WF) (c : Call) :
    ((c.apply net).thrown ≠ none ∧ (c.apply net).net = net) ∨
    ((c.apply net).thrown = none ∧ ∃ v : List Handle,
      StdMap.find net.clusterTypeMap c.reactant.typeName.name = some v ∧
      (c.apply net).net.objects = net.objects ++ [c.reactant.setId (net.networkSize + 1)] ∧
      (c.apply net).net.allReactants = net.allReactants ++ [net.objects.length] ∧
      (c.apply net).net.networkSize = net.networkSize + 1 ∧
      (c.apply net).net.clusterTypeMap =
        StdMap.set strLt net.clusterTypeMap c.reactant.typeName.name
          (v ++ [net.objects.length])) := by
  cases c with
  | add r =>
    rcases add_cases hwf r with ⟨h, -, e⟩ | ⟨n1, n2, v, -, -, -, hv, e⟩
    · exact Or.inl (by simp [Call.apply, e])
    · exact Or.inr ⟨by simp [Call.apply, e], v, hv, by simp [Call.apply, e, Network.inserted,
        Call.reactant]⟩
  | addSuper r =>
    rcases addSuper_cases hwf r with ⟨-, e⟩ | ⟨n, v, -, -, -, hv, e⟩
    · exact Or.inl (by simp [Call.apply, e])
    · exact Or.inr ⟨by simp [Call.apply, e], v, hv, by simp [Call.apply, e,
        Network.insertedSuper, Call.reactant]⟩

theorem added_cons_of_ok {net : Network} {c : Call} (rest : List Call)
    (h : (c.apply net).thrown = none) :
    added net (c :: rest) = c.reactant :: added (c.apply net).net rest := by
  simp [added, succeeded, h]

theorem added_cons_of_thrown {net : Network} {c : Call} (rest : List Call)
    (h : (c.apply net).thrown ≠ none) :
    added net (c :: rest) = added (c.apply net).net rest := by
  simp [added, succeeded, h]

/-- The objects, the size and the full list after a sequence of calls. -/
theorem run_objects {net : Network} (hwf : net.WF) (calls : List Call) :
    (run net calls).objects = net.objects ++ withIdsFrom net.networkSize (added net calls) ∧
      (run net calls).networkSize = net.networkSize + (added net calls).length ∧
      (run net calls).allReactants =
        net.allReactants ++ List.range' net.objects.length (added net calls).length := by
  induction calls generalizing net with
  | nil => simp [run, added, succeeded, withIdsFrom]
  | cons c rest ih =>
    obtain ⟨ih1, ih2, ih3⟩ := ih (WF_apply hwf c)
    rcases apply_cases hwf c with ⟨hthrown, hnet⟩ | ⟨hok, v, -, ho, ha, hs, -⟩
    · rw [added_cons_of_thrown rest hthrown]
      simp only [run]
      rw [hnet] at ih1 ih2 ih3 ⊢
      exact ⟨ih1, ih2, ih3⟩
    · rw [added_cons_of_ok rest hok]
      simp only [run]
      rw [ho, hs] at ih1
      rw [hs] at ih2
      rw [ha, ho] at ih3
      refine ⟨?_, ?_, ?_⟩
      · rw [ih1]; simp [withIdsFrom]
      · rw [ih2]; simp; ring
      · rw [ih3]; simp [List.range'_succ]

theorem getElem?_withIdsFrom (base : Int) (rs : List Reactant) (i : Nat) :
    (withIdsFrom base rs)[i]? = rs[i]?.map fun r => r.setId (base + i + 1) := by
  induction rs generalizing base i with
  | nil => simp [withIdsFrom]
  | cons r rest ih =>
    cases i with
    | zero => simp [withIdsFrom]
    | succ i =>
      simp only [withIdsFrom, List.getElem?_cons_succ, ih]
      congr 1
      funext r
      push_cast
      ring_nf

/-! ## Dense lists -/

theorem run_new_objects (calls : List Call) :
    (run Network.new calls).objects = withIdsFrom 0 (added Network.new calls) ∧
      (run Network.new calls).networkSize = ((added Network.new calls).length : Int) ∧
      (run Network.new calls).allReactants = List.range (added Network.new calls).length := by
  obtain ⟨h1, h2, h3⟩ := run_objects WF_new calls
  have e1 : Network.new.objects = [] := by decide
  have e2 : Network.new.networkSize = 0 := by decide
  have e3 : Network.new.allReactants = [] := by decide
  rw [e1, e2] at h1
  rw [e2] at h2
  rw [e1, e3] at h3
  refine ⟨by simpa using h1, by simpa using h2, ?_⟩
  rw [h3, List.range_eq_range']
  simp

theorem map_range_getElem? {α : Type} (l : List α) :
    (List.range l.length).map (fun i => l[i]?) = l.map some := by
  apply List.ext_getElem?
  intro i
  by_cases hi : i < l.length
  · simp [hi, List.getElem?_eq_getElem hi]
  · have hle : l.length ≤ i := not_lt.mp hi
    rw [List.getElem?_map, List.getElem?_map, List.getElem?_eq_none hle,
      List.getElem?_eq_none (by simpa using hle)]
    rfl

/-- An object of a network built from the empty one is a cluster for which a
call returned. -/
theorem object_was_added (calls : List Call) (h : Handle) (r : Reactant)
    (hobj : (run Network.new calls).objects[h]? = some r) :
    ∃ r0 ∈ added Network.new calls, r0.composition = r.composition := by
  rw [(run_new_objects calls).1, getElem?_withIdsFrom] at hobj
  cases hadd : (added Network.new calls)[h]? with
  | none => simp [hadd] at hobj
  | some r0 =>
    simp only [hadd, Option.map_some', Option.some.injEq] at hobj
    exact ⟨r0, List.getElem?_mem hadd, by rw [← hobj]; rfl⟩

/-- C4: the three lookups never throw, and return the null pointer for a type
name they do not serve, for `size < 1` (`get`), for a sizes vector whose length
is not 3 (`getCompound`, `getSuper`) and for a composition their map does not
store; in a network built from the empty one by `add` and `addSuper`, they
return the null pointer for every composition that none of the added clusters
has. -/
theorem absent_lookup_returns_null :
    (∀ (net : Network) (type : String) (size : Int),
      (¬ (type = heType ∨ type = vType ∨ type = iType) ∨ size < 1 ∨
        StdMap.find net.singleSpeciesMap
          (Composition.setKey { he := 0, v := 0, i := 0 } type size) = none) →
      get net type size = .ok none) ∧
    (∀ (net : Network) (type : String) (sizes : List Int),
      (¬ (type = heVType ∨ type = heIType) ∨ sizes.length ≠ 3 ∨
        StdMap.find net.mixedSpeciesMap (compositionOfSizes sizes) = none) →
      getCompound net type sizes = .ok none) ∧
    (∀ (net : Network) (type : String) (sizes : List Int),
      (type ≠ superType ∨ sizes.length ≠ 3 ∨
        StdMap.find net.superSpeciesMap (compositionOfSizes sizes) = none) →
      getSuper net type sizes = .ok none) ∧
    (∀ (net : Network) (type : String) (size : Int), ∃ p, get net type size = .ok p) ∧
    (∀ (net : Network) (type : String) (sizes : List Int),
      ∃ p, getCompound net type sizes = .ok p) ∧
    (∀ (net : Network) (type : String) (sizes : List Int),
      ∃ p, getSuper net type sizes = .ok p) ∧
    (∀ (calls : List Call) (type : String) (size : Int),
      (∀ r ∈ added Network.new calls,
        r.composition ≠ Composition.setKey { he := 0, v := 0, i := 0 } type size) →
      get (run Network.new calls) type size = .ok none) ∧
    (∀ (calls : List Call) (type : String) (sizes : List Int),
      (∀ r ∈ added Network.new calls, r.composition ≠ compositionOfSizes sizes) →
      getCompound (run Network.new calls) type sizes = .ok none ∧
        getSuper (run Network.new calls) type sizes = .ok none) := by
  have hget : ∀ (net : Network) (type : String) (size : Int),
      (¬ (type = heType ∨ type = vType ∨ type = iType) ∨ size < 1 ∨
        StdMap.find net.singleSpeciesMap
          (Composition.setKey { he := 0, v := 0, i := 0 } type size) = none) →
      get net type size = .ok none := by
    intro net type size h
    rw [get_eq]
    split_ifs with hc
    · rcases h with h | h | h
      · exact absurd hc.1 h
      · exact absurd hc.2 (by omega)
      · rw [h]
    · rfl
  have hcompound : ∀ (net : Network) (type : String) (sizes : List Int),
      (¬ (type = heVType ∨ type = heIType) ∨ sizes.length ≠ 3 ∨
        StdMap.find net.mixedSpeciesMap (compositionOfSizes sizes) = none) →
      getCompound net type sizes = .ok none := by
    intro net type sizes h
    rw [getCompound_eq]
    split_ifs with hc
    · rcases h with h | h | h
      · exact absurd hc.1 h
      · exact absurd hc.2 h
      · rw [h]
    · rfl
  have hsuper : ∀ (net : Network) (type : String) (sizes : List Int),
      (type ≠ superType ∨ sizes.length ≠ 3 ∨
        StdMap.find net.superSpeciesMap (compositionOfSizes sizes) = none) →
      getSuper net type sizes = .ok none := by
    intro net type sizes h
    rw [getSuper_eq]
    split_ifs with hc
    · rcases h with h | h | h
      · exact absurd hc.1 h
      · exact absurd hc.2 h
      · rw [h]
    · rfl
  have habsent : ∀ (calls : List Call) (m : StdMap Composition Handle) (c : Composition),
      (∀ p ∈ m, ∃ r, (run Network.new calls).objects[p.2]? = some r ∧ r.composition = p.1) →
      (∀ r ∈ added Network.new calls, r.composition ≠ c) → StdMap.find m c = none := by
    intro calls m c hindex hnone
    cases hf : StdMap.find m c with
    | none => rfl
    | some h =>
      obtain ⟨r, hr, hc⟩ := hindex _ (StdMap.mem_of_find hf)
      obtain ⟨r0, hr0, hc0⟩ := object_was_added calls h r hr
      exact absurd (hc0.trans hc) (hnone r0 hr0)
  refine ⟨hget, hcompound, hsuper, fun net type size => ⟨_, get_eq net type size⟩,
    fun net type sizes => ⟨_, getCompound_eq net type sizes⟩,
    fun net type sizes => ⟨_, getSuper_eq net type sizes⟩, ?_, ?_⟩
  · intro calls type size hnone
    exact hget _ type size
      (Or.inr (Or.inr (habsent calls _ _ (WF_run WF_new calls).single hnone)))
  · intro calls type sizes hnone
    exact ⟨hcompound _ type sizes
        (Or.inr (Or.inr (habsent calls _ _ (WF_run WF_new calls).mixed hnone))),
      hsuper _ type sizes
        (Or.inr (Or.inr (habsent calls _ _ (WF_run WF_new calls).super hnone)))⟩

/-- Witness of C4: on the network that holds `He_1`, `He_2`, `He_3` only,
`get("He", 4)` is null. -/
theorem absent_lookup_returns_null_witness :
    (∀ r ∈ added Network.new
        [.add (HeCluster.mk 1), .add (HeCluster.mk 2), .add (HeCluster.mk 3)],
      r.composition ≠ Composition.setKey { he := 0, v := 0, i := 0 } "He" 4) ∧
      get heliumNetwork "He" 4 = .ok none ∧
      get heliumNetwork "He" 0 = .ok none ∧
      get heliumNetwork "Xe" 1 = .ok none ∧
      getCompound heliumNetwork "HeV" [1, 1] = .ok none :=
  ⟨by decide,
    absent_lookup_returns_null.2.2.2.2.2.2.1
      [.add (HeCluster.mk 1), .add (HeCluster.mk 2), .add (HeCluster.mk 3)] "He" 4 (by decide),
    absent_lookup_returns_null.1 heliumNetwork "He" 0 (Or.inr (Or.inl (by decide))),
    absent_lookup_returns_null.1 heliumNetwork "Xe" 1 (Or.inl (by decide)),
    absent_lookup_returns_null.2.1 heliumNetwork "HeV" [1, 1] (Or.inr (Or.inl (by decide)))⟩

theorem intProperty_inserted (net : Network) (r : Reactant) (n1 n2 : Int) (v : List Handle)
    (key : String) :
    (net.inserted r n1 n2 v).intProperty key =
      if key = r.composition.sizeKey then some (max (wrapInt r.composition.total) n2)
      else if key = r.composition.countKey then some (n1 + 1)
      else net.intProperty key := by
  unfold Network.intProperty Network.inserted
  by_cases h1 : key = r.composition.sizeKey
  · subst h1
    simp [StdMap.find_set_self, stoi_to_string]
  · by_cases h2 : key = r.composition.countKey
    · subst h2
      simp [h1, StdMap.find_set_ne _ _ _ _ _ (Ne.symm h1), StdMap.find_set_self,
        stoi_to_string]
    · simp [h1, h2, StdMap.find_set_ne _ _ _ _ _ (Ne.symm h1),
        StdMap.find_set_ne _ _ _ _ _ (Ne.symm h2)]

theorem countKey_mem_countKeys (c : Composition) : c.countKey ∈ countKeys := by
  unfold Composition.countKey countKeys
  split_ifs <;> decide

theorem sizeKey_mem_sizeKeys (c : Composition) : c.sizeKey ∈ sizeKeys := by
  unfold Composition.sizeKey sizeKeys
  split_ifs <;> decide

theorem countKeys_not_sizeKeys : ∀ key ∈ countKeys, key ∉ sizeKeys := by decide

theorem run_append (net : Network) (a b : List Call) :
    run net (a ++ b) = run (run net a) b := by
  induction a generalizing net with
  | nil => rfl
  | cons c rest ih => exact ih _

/-- A count property after a sequence of `add` calls. -/
theorem run_count {net : Network} (hwf : net.WF) (key : String) (hkey : key ∈ countKeys)
    (rs : List Reactant) (n : Int) (h0 : net.intProperty key = some n) :
    (run net (rs.map Call.add)).intProperty key =
      some (n + ((added net (rs.map Call.add)).filter
        fun r => decide (r.composition.countKey = key)).length) := by
  induction rs generalizing net n with
  | nil => simp [run, added, succeeded, h0]
  | cons r rest ih =>
    simp only [List.map_cons, run]
    have hwf' := WF_apply hwf (Call.add r)
    rcases add_cases hwf r with ⟨h, -, e⟩ | ⟨n1, n2, v, -, h1, -, -, e⟩
    · have hthrown : ((Call.add r).apply net).thrown ≠ none := by simp [Call.apply, e]
      have hnet : ((Call.add r).apply net).net = net := by simp [Call.apply, e]
      rw [added_cons_of_thrown _ hthrown]
      rw [hnet] at hwf' ⊢
      exact ih hwf' n h0
    · have hok : ((Call.add r).apply net).thrown = none := by simp [Call.apply, e]
      have hnet : ((Call.add r).apply net).net = net.inserted r n1 n2 v := by
        simp [Call.apply, e]
      rw [added_cons_of_ok _ hok]
      have hns : key ≠ r.composition.sizeKey := by
        intro heq
        exact countKeys_not_sizeKeys key hkey (heq ▸ sizeKey_mem_sizeKeys _)
      by_cases hk : r.composition.countKey = key
      · have hn1 : n1 = n := by
          have := readIntProperty_eq_intProperty.mp h1
          rw [hk, h0] at this
          exact (Option.some.inj this).symm
        have h0' : ((Call.add r).apply net).net.intProperty key = some (n + 1) := by
          rw [hnet, intProperty_inserted, if_neg hns, if_pos hk.symm, hn1]
        rw [ih hwf' (n + 1) h0']
        simp [Call.reactant, hk]
        ring
      · have h0' : ((Call.add r).apply net).net.intProperty key = some n := by
          rw [hnet, intProperty_inserted, if_neg hns, if_neg (Ne.symm hk), h0]
        rw [ih hwf' n h0']
        simp [Call.reactant, hk]

/-- A max-size property after a sequence of `add` calls. -/
theorem run_size {net : Network} (hwf : net.WF) (key : String) (hkey : key ∈ sizeKeys)
    (rs : List Reactant) (n : Int) (h0 : net.intProperty key = some n) :
    (run net (rs.map Call.add)).intProperty key =
      some (raisedBy key n (added net (rs.map Call.add))) := by
  induction rs generalizing net n with
  | nil => simp [run, added, succeeded, h0, raisedBy]
  | cons r rest ih =>
    simp only [List.map_cons, run]
    have hwf' := WF_apply hwf (Call.add r)
    rcases add_cases hwf r with ⟨h, -, e⟩ | ⟨n1, n2, v, -, -, h2, -, e⟩
    · have hthrown : ((Call.add r).apply net).thrown ≠ none := by simp [Call.apply, e]
      have hnet : ((Call.add r).apply net).net = net := by simp [Call.apply, e]
      rw [added_cons_of_thrown _ hthrown]
      rw [hnet] at hwf' ⊢
      exact ih hwf' n h0
    · have hok : ((Call.add r).apply net).thrown = none := by simp [Call.apply, e]
      have hnet : ((Call.add r).apply net).net = net.inserted r n1 n2 v := by
        simp [Call.apply, e]
      rw [added_cons_of_ok _ hok]
      simp only [raisedBy, Call.reactant]
      by_cases hk : r.composition.sizeKey = key
      · have hn2 : n2 = n := by
          have := readIntProperty_eq_intProperty.mp h2
          rw [hk, h0] at this
          exact (Option.some.inj this).symm
        have h0' : ((Call.add r).apply net).net.intProperty key
            = some (max (wrapInt r.composition.total) n) := by
          rw [hnet, intProperty_inserted, if_pos hk.symm, hn2]
        rw [ih hwf' _ h0', if_pos hk]
      · have hnc : key ≠ r.composition.countKey := by
          intro heq
          exact countKeys_not_sizeKeys key (heq ▸ countKey_mem_countKeys _) hkey
        have h0' : ((Call.add r).apply net).net.intProperty key = some n := by
          rw [hnet, intProperty_inserted, if_neg (Ne.symm hk), if_neg hnc, h0]
        rw [ih hwf' _ h0', if_neg hk]

theorem raisedBy_ge (key : String) (start : Int) (rs : List Reactant) :
    start ≤ raisedBy key start rs := by
  induction rs generalizing start with
  | nil => exact le_refl _
  | cons r rest ih =>
    simp only [raisedBy]
    split_ifs
    · exact le_trans (le_max_right _ _) (ih _)
    · exact ih _

/-- The keys `add` uses for a regular cluster are those of its type tag. -/
theorem regular_keys (r : Reactant) (hr : r.Regular) (F : Family) :
    (r.composition.countKey = F.countKey ↔ r.typeName = F.tag) ∧
      (r.composition.sizeKey = F.sizeKey ↔ r.typeName = F.tag) ∧
      0 < r.composition.total := by
  unfold Reactant.Regular at hr
  unfold Composition.countKey Composition.sizeKey Composition.isMixed positive Composition.total
  cases ht : r.typeName <;> rw [ht] at hr <;> simp only at hr
  all_goals
    obtain ⟨h1, h2, h3⟩ := hr
    cases F <;> simp [h1, h2, h3, Family.countKey, Family.sizeKey, Family.tag] <;> omega

/-- The wrapped value lies in the range of an `int`. -/
theorem wrapInt_range (n : Int) : -2147483648 ≤ wrapInt n ∧ wrapInt n ≤ 2147483647 := by
  unfold wrapInt
  omega

/-- A sum inside the range of an `int` is not changed by the wrap-around. -/
theorem wrapInt_of_fits {n : Int} (h0 : -2147483648 ≤ n) (h1 : n ≤ 2147483647) :
    wrapInt n = n := by
  unfold wrapInt
  omega

theorem isMaxTotal_raisedBy (key : String) (F : Family) (hkey : F.sizeKey = key)
    (rs : List Reactant) (hreg : ∀ r ∈ rs, r.Regular)
    (hfit : ∀ r ∈ rs, r.composition.total ≤ 2147483647) (pre : List Reactant) (m0 : Int)
    (hpre : IsMaxTotal pre F.tag m0) :
    IsMaxTotal (pre ++ rs) F.tag (raisedBy key m0 rs) := by
  induction rs generalizing pre m0 with
  | nil => simpa [raisedBy] using hpre
  | cons r rest ih =>
    have hr : r.Regular := hreg r (List.mem_cons_self _ _)
    obtain ⟨-, hsz, hpos⟩ := regular_keys r hr F
    rw [hkey] at hsz
    have hw : wrapInt r.composition.total = r.composition.total :=
      wrapInt_of_fits (by omega) (hfit r (List.mem_cons_self _ _))
    have hrest : ∀ x ∈ rest, x.Regular := fun x hx => hreg x (List.mem_cons_of_mem _ hx)
    have hfrest : ∀ x ∈ rest, x.composition.total ≤ 2147483647 :=
      fun x hx => hfit x (List.mem_cons_of_mem _ hx)
    have hstep : IsMaxTotal (pre ++ [r]) F.tag
        (if r.composition.sizeKey = key then max r.composition.total m0 else m0) := by
      obtain ⟨hub, hatt⟩ := hpre
      by_cases hk : r.composition.sizeKey = key
      · have ht : r.typeName = F.tag := hsz.mp hk
        rw [if_pos hk]
        refine ⟨?_, ?_⟩
        · intro x hx hxt
          rcases List.mem_append.mp hx with hx | hx
          · exact le_trans (hub x hx hxt) (le_max_right _ _)
          · simp at hx; subst hx; exact le_max_left _ _
        · left
          by_cases hle : m0 ≤ r.composition.total
          · exact ⟨r, by simp, ht, (max_eq_left hle).symm⟩
          · rcases hatt with ⟨x, hx, hxt, hxm⟩ | ⟨-, hm0⟩
            · exact ⟨x, List.mem_append_left _ hx, hxt, by
                rw [hxm]; exact (max_eq_right (le_of_lt (not_le.mp hle))).symm⟩
            · omega
      · have ht : r.typeName ≠ F.tag := fun h => hk (hsz.mpr h)
        rw [if_neg hk]
        refine ⟨?_, ?_⟩
        · intro x hx hxt
          rcases List.mem_append.mp hx with hx | hx
          · exact hub x hx hxt
          · simp at hx; subst hx; exact absurd hxt ht
        · rcases hatt with ⟨x, hx, hxt, hxm⟩ | ⟨hnone, hm0⟩
          · exact Or.inl ⟨x, List.mem_append_left _ hx, hxt, hxm⟩
          · refine Or.inr ⟨?_, hm0⟩
            intro x hx
            rcases List.mem_append.mp hx with hx | hx
            · exact hnone x hx
            · simp at hx; subst hx; exact ht
    have := ih hrest hfrest (pre ++ [r]) _ hstep
    simpa [raisedBy, hw] using this

theorem added_sublist (net : Network) (calls : List Call) :
    ∀ r ∈ added net calls, r ∈ calls.map Call.reactant := by
  induction calls generalizing net with
  | nil => simp [added, succeeded]
  | cons c rest ih =>
    intro r hr
    by_cases h : (c.apply net).thrown = none
    · rw [added_cons_of_ok _ h] at hr
      rcases List.mem_cons.mp hr with hr | hr
      · simp [hr]
      · exact List.mem_cons_of_mem _ (ih _ r hr)
    · rw [added_cons_of_thrown _ h] at hr
      exact List.mem_cons_of_mem _ (ih _ r hr)

theorem new_intProperty_zero (key : String) (hkey : key ∈ countKeys ∨ key ∈ sizeKeys) :
    Network.new.intProperty key = some 0 := by
  simp only [countKeys, sizeKeys, List.mem_cons, List.mem_singleton, List.not_mem_nil,
    or_false] at hkey
  rcases hkey with (h | h | h | h | h) | (h | h | h | h | h) <;> subst h <;> decide

theorem family_countKey_mem (F : Family) : F.countKey ∈ countKeys := by
  cases F <;> decide

theorem family_sizeKey_mem (F : Family) : F.sizeKey ∈ sizeKeys := by
  cases F <;> decide

theorem Family.countKey_injective {F G : Family} (h : F.countKey = G.countKey) : F = G := by
  cases F <;> cases G <;> first | rfl | exact absurd h (by decide)

/-! ## Counts and max sizes -/

/-- C6, counterexample: `HeV(2147483647, 1)` is a cluster whose type tag
agrees with its composition, and `add` of it on a new network returns; its
sum `nHe + nV + nI` is 2147483648, which the `int clusterSize` of `add` cannot
hold: the sum wraps to -2147483648 and `maxHeVClusterSize` stays "0", which is
not the maximum of `nHe + nV + nI` over the added HeV clusters. -/
theorem max_size_misses_sum_beyond_int :
    (HeVCluster.mk 2147483647 1).Regular ∧
      (add Network.new (some (HeVCluster.mk 2147483647 1))).thrown = none ∧
      added Network.new [.add (HeVCluster.mk 2147483647 1)]
        = [HeVCluster.mk 2147483647 1] ∧
      (HeVCluster.mk 2147483647 1).composition.total = 2147483648 ∧
      wrapInt (HeVCluster.mk 2147483647 1).composition.total = -2147483648 ∧
      StdMap.find (run Network.new [.add (HeVCluster.mk 2147483647 1)]).properties
        "maxHeVClusterSize" = some "0" ∧
      (run Network.new [.add (HeVCluster.mk 2147483647 1)]).intProperty "maxHeVClusterSize"
        = some 0 ∧
      ¬ IsMaxTotal (added Network.new [.add (HeVCluster.mk 2147483647 1)]) .HeV 0 := by
  refine ⟨by decide, by decide, by decide, by decide, by decide, by decide, by decide, ?_⟩
  intro h
  have hle := h.1 (HeVCluster.mk 2147483647 1) (by decide) rfl
  exact absurd hle (by decide)

/-- C6: after any sequence of `add` calls of regular clusters whose sum
`nHe + nV + nI` fits a 32-bit `int` on an empty network, the max-size property
of every family is the maximum of `nHe + nV + nI` over the added clusters of
the family, and 0 when there is none; whatever is added later, the property
does not decrease. -/
theorem max_size_is_maximum_of_added (rs : List Reactant) (hreg : ∀ r ∈ rs, r.Regular)
    (hfit : ∀ r ∈ rs, r.composition.total ≤ 2147483647) :
    (∀ F : Family, ∃ m : Int,
      (run Network.new (rs.map Call.add)).intProperty F.sizeKey = some m ∧
        IsMaxTotal (added Network.new (rs.map Call.add)) F.tag m) ∧
      (∀ (F : Family) (more : List Reactant), ∃ m m' : Int,
        (run Network.new (rs.map Call.add)).intProperty F.sizeKey = some m ∧
          (run Network.new ((rs ++ more).map Call.add)).intProperty F.sizeKey = some m' ∧
          m ≤ m') := by
  have hzero : ∀ F : Family, Network.new.intProperty F.sizeKey = some 0 :=
    fun F => new_intProperty_zero _ (Or.inr (family_sizeKey_mem F))
  constructor
  · intro F
    refine ⟨_, run_size WF_new F.sizeKey (family_sizeKey_mem F) rs 0 (hzero F), ?_⟩
    have hsub : ∀ r ∈ added Network.new (rs.map Call.add), r ∈ rs := by
      intro r hr
      have := added_sublist _ _ r hr
      simp only [List.map_map, List.mem_map, Function.comp] at this
      obtain ⟨x, hx, rfl⟩ := this
      exact hx
    have := isMaxTotal_raisedBy F.sizeKey F rfl _ (fun r hr => hreg r (hsub r hr))
      (fun r hr => hfit r (hsub r hr)) [] 0 ⟨by simp, Or.inr ⟨by simp, rfl⟩⟩
    simpa using this
  · intro F more
    have h1 := run_size WF_new F.sizeKey (family_sizeKey_mem F) rs 0 (hzero F)
    have h2 := run_size (WF_run WF_new (rs.map Call.add)) F.sizeKey (family_sizeKey_mem F) more _ h1
    rw [← run_append, ← List.map_append] at h2
    exact ⟨_, _, h1, h2, raisedBy_ge _ _ _⟩

/-- Witness of C6: adding `He_5` and `HeV(5,3)` gives `maxHeClusterSize = 5`
and `maxHeVClusterSize = 8`. -/
theorem max_size_is_maximum_of_added_witness :
    (∀ r ∈ [HeCluster.mk 5, HeVCluster.mk 5 3], r.Regular) ∧
      (∀ r ∈ [HeCluster.mk 5, HeVCluster.mk 5 3], r.composition.total ≤ 2147483647) ∧
      checkPropertiesNetwork.intProperty "maxHeClusterSize" = some 5 ∧
      checkPropertiesNetwork.intProperty "maxHeVClusterSize" = some 8 ∧
      ∃ m : Int, checkPropertiesNetwork.intProperty "maxHeVClusterSize" = some m ∧
        IsMaxTotal (added Network.new [.add (HeCluster.mk 5), .add (HeVCluster.mk 5 3)])
          .HeV m :=
  ⟨by decide, by decide, by decide, by decide,
    (max_size_is_maximum_of_added [HeCluster.mk 5, HeVCluster.mk 5 3] (by decide)
      (by decide)).1 .HeV⟩

/-- C7: a freshly constructed network holds 0 in every count and max-size
property; an `add` of a regular cluster that returns increases the count of
the family of the cluster by exactly 1 and leaves the counts of the other
families as they were; for any cluster an `add` that returns increases exactly
one count property, by 1; so after any sequence of `add` calls of regular
clusters on an empty network the count of a family is the number of added
clusters of the family. -/
theorem counts_track_added_clusters :
    (∀ F : Family, Network.new.intProperty F.countKey = some 0 ∧
      Network.new.intProperty F.sizeKey = some 0) ∧
    (∀ (net : Network) (r : Reactant) (F : Family), (add net (some r)).thrown = none →
      r.Regular → r.typeName = F.tag →
      ∃ n : Int, net.intProperty F.countKey = some n ∧
        (add net (some r)).net.intProperty F.countKey = some (n + 1) ∧
        ∀ G : Family, G ≠ F →
          (add net (some r)).net.intProperty G.countKey = net.intProperty G.countKey) ∧
    (∀ (net : Network) (r : Reactant), (add net (some r)).thrown = none →
      ∃ n : Int, net.intProperty r.composition.countKey = some n ∧
        (add net (some r)).net.intProperty r.composition.countKey = some (n + 1) ∧
        ∀ key ∈ countKeys, key ≠ r.composition.countKey →
          (add net (some r)).net.intProperty key = net.intProperty key) ∧
    (∀ rs : List Reactant, (∀ r ∈ rs, r.Regular) → ∀ F : Family,
      (run Network.new (rs.map Call.add)).intProperty F.countKey
        = some ((countOfType (added Network.new (rs.map Call.add)) F.tag : Nat) : Int)) := by
  refine ⟨?_, ?_, ?_, ?_⟩
  · intro F
    exact ⟨new_intProperty_zero _ (Or.inl (family_countKey_mem F)),
      new_intProperty_zero _ (Or.inr (family_sizeKey_mem F))⟩
  · intro net r F hok hreg htag
    obtain ⟨n1, n2, v, -, h1, -, -, e⟩ := add_ok net r hok
    have hck : r.composition.countKey = F.countKey := (regular_keys r hreg F).1.mpr htag
    have hns : ∀ G : Family, G.countKey ≠ r.composition.sizeKey := by
      intro G heq
      exact countKeys_not_sizeKeys _ (family_countKey_mem G) (heq ▸ sizeKey_mem_sizeKeys _)
    refine ⟨n1, ?_, ?_, ?_⟩
    · rw [← hck]; exact readIntProperty_eq_intProperty.mp h1
    · rw [e, intProperty_inserted, if_neg (hns F), if_pos hck.symm]
    · intro G hG
      have hne : G.countKey ≠ r.composition.countKey := by
        rw [hck]
        exact fun h => hG (Family.countKey_injective h)
      rw [e, intProperty_inserted, if_neg (hns G), if_neg hne]
  · intro net r hok
    obtain ⟨n1, n2, v, -, h1, -, -, e⟩ := add_ok net r hok
    refine ⟨n1, readIntProperty_eq_intProperty.mp h1, ?_, ?_⟩
    · rw [e, intProperty_inserted, if_neg (countKey_ne_sizeKey _), if_pos rfl]
    · intro key hkey hne
      have hns : key ≠ r.composition.sizeKey := by
        intro heq
        exact countKeys_not_sizeKeys key hkey (heq ▸ sizeKey_mem_sizeKeys _)
      rw [e, intProperty_inserted, if_neg hns, if_neg hne]
  · intro rs hreg F
    have h := run_count WF_new F.countKey (family_countKey_mem F) rs 0
      (new_intProperty_zero _ (Or.inl (family_countKey_mem F)))
    rw [h]
    have hadded : ∀ r ∈ added Network.new (rs.map Call.add), r.Regular := by
      intro r hr
      have := added_sublist _ _ r hr
      simp only [List.map_map, List.mem_map, Function.comp] at this
      obtain ⟨x, hx, rfl⟩ := this
      exact hreg x hx
    have hfilter : (added Network.new (rs.map Call.add)).filter
          (fun r => decide (r.composition.countKey = F.countKey))
        = (added Network.new (rs.map Call.add)).filter
          (fun r => decide (r.typeName = F.tag)) := by
      apply List.filter_congr
      intro r hr
      simp only [decide_eq_decide]
      exact (regular_keys r (hadded r hr) F).1
    rw [hfilter]
    simp [countOfType]

/-- Witness of C7: after adding `He_5` and `HeV(5,3)`, `numHeClusters = 1`
and `numHeVClusters = 1`. -/
theorem counts_track_added_clusters_witness :
    (∀ r ∈ [HeCluster.mk 5, HeVCluster.mk 5 3], r.Regular) ∧
      checkPropertiesNetwork.intProperty "numHeClusters" = some 1 ∧
      checkPropertiesNetwork.intProperty "numHeVClusters" = some 1 ∧
      checkPropertiesNetwork.intProperty "numHeVClusters"
        = some ((countOfType (added Network.new
            [.add (HeCluster.mk 5), .add (HeVCluster.mk 5 3)]) .HeV : Nat) : Int) ∧
      ∃ n : Int, Network.new.intProperty "numHeClusters" = some n ∧
        (add Network.new (some (HeCluster.mk 5))).net.intProperty "numHeClusters"
          = some (n + 1) ∧
        ∀ G : Family, G ≠ .He →
          (add Network.new (some (HeCluster.mk 5))).net.intProperty G.countKey
            = Network.new.intProperty G.countKey :=
  ⟨by decide, by decide, by decide,
    counts_track_added_clusters.2.2.2 [HeCluster.mk 5, HeVCluster.mk 5 3] (by decide) .HeV,
    counts_track_added_clusters.2.1 Network.new (HeCluster.mk 5) .He (by decide) (by decide)
      (by decide)⟩

/-! ## The connectivity pass of a helium cluster -/

theorem modify_modify {α : Type} (f g : α → α) (n : Nat) (l : List α) :
    List.modify g n (List.modify f n l) = List.modify (g ∘ f) n l := by
  apply List.ext_getElem?
  intro i
  simp only [List.getElem?_modify]
  cases l[i]? with
  | none => rfl
  | some a => by_cases h : n = i <;> simp [h]

theorem modify_of_fixed {α : Type} (f : α → α) (n : Nat) (l : List α) (hf : ∀ a, f a = a) :
    List.modify f n l = l := by
  apply List.ext_getElem?
  intro i
  simp only [List.getElem?_modify]
  cases l[i]? with
  | none => rfl
  | some a => by_cases h : n = i <;> simp [h, hf]

theorem modifyObject_modifyObject (net : Network) (h : Handle) (f g : Reactant → Reactant) :
    (net.modifyObject h f).modifyObject h g = net.modifyObject h (g ∘ f) := by
  simp [Network.modifyObject, modify_modify]

theorem modifyObject_of_fixed (net : Network) (h : Handle) (f : Reactant → Reactant)
    (hf : ∀ r, f r = r) : net.modifyObject h f = net := by
  simp [Network.modifyObject, modify_of_fixed _ _ _ hf]

theorem get_he (net : Network) (n : Int) :
    get net "He" n = .ok (getHe net.singleSpeciesMap n) := by
  rw [get_eq]
  unfold getHe
  have h1 : ("He" = heType ∨ "He" = vType ∨ "He" = iType) := by decide
  have h2 : Composition.setKey { he := 0, v := 0, i := 0 } "He" n = { he := n, v := 0, i := 0 } := by
    simp [Composition.setKey, heType]
  by_cases hn : n ≥ 1
  · rw [if_pos ⟨h1, hn⟩, if_pos hn, h2]
  · rw [if_neg (fun h => hn h.2), if_neg hn]

theorem appendPairs_nil (r : Reactant) : r.appendPairs [] = r := by
  simp [Reactant.appendPairs]

theorem appendPairs_comp (a b : List ClusterPair) :
    Reactant.appendPairs b ∘ Reactant.appendPairs a = Reactant.appendPairs (a ++ b) := by
  funext r
  simp [Reactant.appendPairs]

theorem appendPartners_nil (r : Reactant) : r.appendPartners [] = r := by
  simp [Reactant.appendPartners]

theorem appendPartners_comp (a b : List CombiningCluster) :
    Reactant.appendPartners b ∘ Reactant.appendPartners a = Reactant.appendPartners (a ++ b) := by
  funext r
  simp [Reactant.appendPartners]

/-- One turn of the loop over `firstSize`. -/
theorem reactingPairStep_eq (self : Handle) (size : Int) (net : Network) (firstSize : Int) :
    HeCluster.reactingPairStep self size net firstSize =
      ⟨none, net.modifyObject self
        (Reactant.appendPairs (pairFor net.singleSpeciesMap size firstSize).toList)⟩ := by
  unfold HeCluster.reactingPairStep pairFor
  simp only [get_he]
  cases getHe net.singleSpeciesMap firstSize with
  | none => simp [modifyObject_of_fixed _ _ _ appendPairs_nil]
  | some a =>
    cases getHe net.singleSpeciesMap (size - firstSize) with
    | none => simp [modifyObject_of_fixed _ _ _ appendPairs_nil]
    | some b => rfl

/-- The loop over `firstSize` pushes the pairs of `pairsOf`, in order. -/
theorem forLoop_reactingPairStep (self : Handle) (size : Int) (values : List Int)
    (net : Network) :
    forLoop (HeCluster.reactingPairStep self size) net values =
      ⟨none, net.modifyObject self
        (Reactant.appendPairs (values.filterMap (pairFor net.singleSpeciesMap size)))⟩ := by
  induction values generalizing net with
  | nil => simp [forLoop, modifyObject_of_fixed _ _ _ appendPairs_nil]
  | cons v rest ih =>
    unfold forLoop
    rw [reactingPairStep_eq, Result.andThen_of_ok _ rfl]
    simp only
    rw [ih, modifyObject_modifyObject, appendPairs_comp]
    have hm : (net.modifyObject self (Reactant.appendPairs
        (pairFor net.singleSpeciesMap size v).toList)).singleSpeciesMap = net.singleSpeciesMap :=
      rfl
    rw [hm]
    cases h : pairFor net.singleSpeciesMap size v <;> simp [List.filterMap_cons, h]

theorem reactingPairLoop_eq (self : Handle) (size : Int) (net : Network) :
    HeCluster.reactingPairLoop self size net =
      ⟨none, net.modifyObject self (Reactant.appendPairs (pairsOf net.singleSpeciesMap size))⟩ :=
  forLoop_reactingPairStep self size _ net

theorem getElem?_modifyObject (net : Network) (self h : Handle) (F : Reactant → Reactant) :
    (net.modifyObject self F).objects[h]? =
      (net.objects[h]?).map fun a => if self = h then F a else a := by
  simp [Network.modifyObject, List.getElem?_modify]

theorem partnersOf_modify (objects : List Reactant) (self : Handle) (F : Reactant → Reactant)
    (hF : ∀ r, (F r).size = r.size) (size maxSize : Int) (clusters : List Handle) :
    partnersOf (List.modify F self objects) size maxSize clusters
      = partnersOf objects size maxSize clusters := by
  unfold partnersOf
  apply List.filterMap_congr
  intro other _
  rw [List.getElem?_modify]
  cases objects[other]? with
  | none => rfl
  | some second => by_cases h : self = other <;> simp [h, hF]

/-- One turn of the loop of `combineClusters`. -/
theorem combineStep_eq (self : Handle) (maxSize : Int) (net : Network) (other : Handle)
    (this second : Reactant) (hself : net.objects[self]? = some this)
    (hother : net.objects[other]? = some second) :
    PSICluster.combineStep self maxSize net other =
      ⟨none, net.modifyObject self
        (Reactant.appendPartners (partnersOf net.objects this.size maxSize [other]))⟩ := by
  unfold PSICluster.combineStep partnersOf
  simp only [hself, hother, List.filterMap_cons, List.filterMap_nil]
  by_cases h : this.size + second.size ≤ maxSize
  · simp only [h, if_true]
    rfl
  · simp only [h, if_false]
    rw [modifyObject_of_fixed _ _ _ appendPartners_nil]

/-- The loop of `combineClusters` pushes the partners of `partnersOf`. -/
theorem combineClusters_eq (self : Handle) (maxSize : Int) (productName : String)
    (this : Reactant) (clusters : List Handle) (net : Network)
    (hself : net.objects[self]? = some this)
    (hvalid : ∀ o ∈ clusters, ∃ r, net.objects[o]? = some r) :
    PSICluster.combineClusters self net clusters maxSize productName =
      ⟨none, net.modifyObject self
        (Reactant.appendPartners (partnersOf net.objects this.size maxSize clusters))⟩ := by
  unfold PSICluster.combineClusters
  induction clusters generalizing net this with
  | nil =>
    simp only [List.foldl_nil, partnersOf, List.filterMap_nil]
    rw [modifyObject_of_fixed _ _ _ appendPartners_nil]
  | cons o rest ih =>
    obtain ⟨second, hsecond⟩ := hvalid o (List.mem_cons_self _ _)
    simp only [List.foldl_cons]
    rw [Result.andThen_of_ok _ rfl]
    simp only
    rw [combineStep_eq self maxSize net o this second hself hsecond]
    have hself' : (net.modifyObject self (Reactant.appendPartners
        (partnersOf net.objects this.size maxSize [o]))).objects[self]?
          = some (this.appendPartners (partnersOf net.objects this.size maxSize [o])) := by
      rw [getElem?_modifyObject, hself]; simp
    have hvalid' : ∀ x ∈ rest, ∃ r, (net.modifyObject self (Reactant.appendPartners
        (partnersOf net.objects this.size maxSize [o]))).objects[x]? = some r := by
      intro x hx
      obtain ⟨r, hr⟩ := hvalid x (List.mem_cons_of_mem _ hx)
      rw [getElem?_modifyObject, hr]
      exact ⟨_, rfl⟩
    rw [ih _ _ hself' hvalid', modifyObject_modifyObject, appendPartners_comp]
    have hsize : (this.appendPartners (partnersOf net.objects this.size maxSize [o])).size
        = this.size := rfl
    rw [hsize]
    have hp : partnersOf (net.modifyObject self (Reactant.appendPartners
        (partnersOf net.objects this.size maxSize [o]))).objects this.size maxSize rest
          = partnersOf net.objects this.size maxSize rest :=
      partnersOf_modify net.objects self
        (Reactant.appendPartners (partnersOf net.objects this.size maxSize [o]))
        (fun _ => rfl) _ _ _
    rw [hp]
    have happ : partnersOf net.objects this.size maxSize [o]
        ++ partnersOf net.objects this.size maxSize rest
          = partnersOf net.objects this.size maxSize (o :: rest) := by
      unfold partnersOf
      rw [← List.filterMap_append]
      rfl
    rw [happ]

/-- The statements that combine the cluster at `self` with all clusters of a
type, on a network in which only the object at `self` was written to. -/
theorem combineWithAll_eq (self : Handle) (net : Network) (this : Reactant)
    (F : Reactant → Reactant) (hF : ∀ r, (F r).size = r.size) (name productName : String)
    (maxSize : Int) (clusters : List Handle)
    (hname : name = heType ∨ name = vType ∨ name = iType ∨ name = heVType
      ∨ name = heIType ∨ name = superType)
    (hself : net.objects[self]? = some this)
    (hlist : StdMap.find net.clusterTypeMap name = some clusters)
    (hvalid : ∀ o ∈ clusters, ∃ r, net.objects[o]? = some r) :
    HeCluster.combineWithAll self (net.modifyObject self F) name maxSize productName =
      ⟨none, net.modifyObject self
        (Reactant.appendPartners (partnersOf net.objects this.size maxSize clusters) ∘ F)⟩ := by
  unfold HeCluster.combineWithAll getAllOfType
  have hctm : (net.modifyObject self F).clusterTypeMap = net.clusterTypeMap := rfl
  rw [if_pos hname, hctm, StdMap.atKey_of_find hlist]
  simp only
  have hself' : (net.modifyObject self F).objects[self]? = some (F this) := by
    rw [getElem?_modifyObject, hself]; simp
  have hvalid' : ∀ o ∈ clusters, ∃ r, (net.modifyObject self F).objects[o]? = some r := by
    intro o ho
    obtain ⟨r, hr⟩ := hvalid o ho
    rw [getElem?_modifyObject, hr]
    exact ⟨_, rfl⟩
  rw [combineClusters_eq self maxSize productName (F this) clusters _ hself' hvalid',
    modifyObject_modifyObject, hF this]
  have hp : partnersOf (net.modifyObject self F).objects this.size maxSize clusters
      = partnersOf net.objects this.size maxSize clusters :=
    partnersOf_modify net.objects self F hF _ _ _
  rw [hp]

theorem stoiOfCopy_eq (net : Network) (key : String) :
    stoiOfCopy net.properties key = net.intProperty key := by
  unfold stoiOfCopy Network.intProperty
  cases StdMap.find net.properties key with
  | none => decide
  | some text => rfl

theorem intProperty_of_propsOK {net : Network} (hp : net.PropsOK) {key : String}
    (hk : key ∈ integerKeys) : ∃ n, net.intProperty key = some n := by
  obtain ⟨n, hn⟩ := readIntProperty_of_propsOK hp hk
  exact ⟨n, readIntProperty_eq_intProperty.mp hn⟩

theorem setReactionConnectivity_size (r : Reactant) (id : Int) :
    (r.setReactionConnectivity id).size = r.size := by
  unfold Reactant.setReactionConnectivity
  split <;> rfl

theorem size_comp_appendPairs (pairs : List ClusterPair) (F : Reactant → Reactant)
    (hF : ∀ r, (F r).size = r.size) : ∀ r, ((Reactant.appendPairs pairs ∘ F) r).size = r.size :=
  fun r => hF r

theorem size_comp_appendPartners (partners : List CombiningCluster) (F : Reactant → Reactant)
    (hF : ∀ r, (F r).size = r.size) :
    ∀ r, ((Reactant.appendPartners partners ∘ F) r).size = r.size :=
  fun r => hF r

theorem modifyObject_singleSpeciesMap (net : Network) (h : Handle) (f : Reactant → Reactant) :
    (net.modifyObject h f).singleSpeciesMap = net.singleSpeciesMap := rfl

/-- A conditional call of `combineWithAll`. -/
theorem combineWithAll_if (c : Prop) [Decidable c] (self : Handle) (net : Network)
    (this : Reactant) (F : Reactant → Reactant) (hF : ∀ r, (F r).size = r.size)
    (name productName : String) (maxSize : Int) (clusters : List Handle)
    (hname : name = heType ∨ name = vType ∨ name = iType ∨ name = heVType
      ∨ name = heIType ∨ name = superType)
    (hself : net.objects[self]? = some this)
    (hlist : StdMap.find net.clusterTypeMap name = some clusters)
    (hvalid : ∀ o ∈ clusters, ∃ r, net.objects[o]? = some r) :
    (if c then HeCluster.combineWithAll self (net.modifyObject self F) name maxSize productName
      else ⟨none, net.modifyObject self F⟩) =
      ⟨none, net.modifyObject self
        (Reactant.appendPartners
          (if c then partnersOf net.objects this.size maxSize clusters else []) ∘ F)⟩ := by
  by_cases hc : c
  · rw [if_pos hc, if_pos hc]
    exact combineWithAll_eq self net this F hF name productName maxSize clusters hname hself
      hlist hvalid
  · rw [if_neg hc, if_neg hc]
    have : Reactant.appendPartners [] ∘ F = F := by
      funext r
      exact appendPartners_nil _
    rw [this]

/-- One run of `HeCluster::createReactionConnectivity` on a well-formed network
returns, and writes to the object at `self` only. -/
theorem createReactionConnectivity_eq {net : Network} (hwf : net.WF) {self : Handle}
    {this : Reactant} (hself : net.objects[self]? = some this) :
    HeCluster.createReactionConnectivity net self =
      ⟨none, net.modifyObject self (HeCluster.connected net this)⟩ := by
  obtain ⟨maxHe, hmaxHe⟩ := intProperty_of_propsOK hwf.props
    (show "maxHeClusterSize" ∈ integerKeys by decide)
  obtain ⟨maxHeV, hmaxHeV⟩ := intProperty_of_propsOK hwf.props
    (show "maxHeVClusterSize" ∈ integerKeys by decide)
  obtain ⟨maxHeI, hmaxHeI⟩ := intProperty_of_propsOK hwf.props
    (show "maxHeIClusterSize" ∈ integerKeys by decide)
  obtain ⟨numHeV, hnumHeV⟩ := intProperty_of_propsOK hwf.props
    (show "numHeVClusters" ∈ integerKeys by decide)
  obtain ⟨numHeI, hnumHeI⟩ := intProperty_of_propsOK hwf.props
    (show "numHeIClusters" ∈ integerKeys by decide)
  obtain ⟨heL, hheL, hheV⟩ := hwf.types .He (ClusterType.mem_all _)
  obtain ⟨vL, hvL, hvV⟩ := hwf.types .V (ClusterType.mem_all _)
  obtain ⟨iL, hiL, hiV⟩ := hwf.types .I (ClusterType.mem_all _)
  obtain ⟨heVL, hheVL, hheVV⟩ := hwf.types .HeV (ClusterType.mem_all _)
  obtain ⟨heIL, hheIL, hheIV⟩ := hwf.types .HeI (ClusterType.mem_all _)
  have valid : ∀ {t : ClusterType} {l : List Handle},
      (∀ h ∈ l, ∃ r, net.objects[h]? = some r ∧ r.typeName = t) →
      ∀ o ∈ l, ∃ r, net.objects[o]? = some r := by
    intro t l h o ho
    obtain ⟨r, hr, -⟩ := h o ho
    exact ⟨r, hr⟩
  have hF0 : ∀ r : Reactant, ((fun r : Reactant => r.setReactionConnectivity r.id) r).size
      = r.size := fun r => setReactionConnectivity_size r _
  have hpairs := size_comp_appendPairs (pairsOf net.singleSpeciesMap this.size) _ hF0
  have h1 := size_comp_appendPartners (partnersOf net.objects this.size maxHe heL) _ hpairs
  have h2 := size_comp_appendPartners (partnersOf net.objects this.size maxHeV vL) _ h1
  have h3 := size_comp_appendPartners (partnersOf net.objects this.size maxHeI iL) _ h2
  have h4 := size_comp_appendPartners
    (if numHeV > 0 then partnersOf net.objects this.size maxHeV heVL else []) _ h3
  unfold HeCluster.createReactionConnectivity
  simp only [hself, stoiOfCopy_eq, hmaxHe, hmaxHeV, hmaxHeI, hnumHeV, hnumHeI]
  rw [reactingPairLoop_eq, Result.andThen_of_ok _ rfl]
  simp only [modifyObject_singleSpeciesMap]
  rw [modifyObject_modifyObject]
  rw [combineWithAll_eq self net this _ hpairs "He" "He"
    maxHe heL (by decide) hself hheL (valid hheV), Result.andThen_of_ok _ rfl]
  simp only
  rw [combineWithAll_eq self net this _ h1 "V" "HeV"
    maxHeV vL (by decide) hself hvL (valid hvV), Result.andThen_of_ok _ rfl]
  simp only
  rw [combineWithAll_eq self net this _ h2 "I" "HeI"
    maxHeI iL (by decide) hself hiL (valid hiV), Result.andThen_of_ok _ rfl]
  simp only
  rw [combineWithAll_if (numHeV > 0) self net this _ h3 "HeV" "HeV"
    maxHeV heVL (by decide) hself hheVL (valid hheVV), Result.andThen_of_ok _ rfl]
  simp only
  rw [combineWithAll_if (numHeI > 0) self net this _ h4 "HeI" "HeI"
    maxHeI heIL (by decide) hself hheIL (valid hheIV)]
  congr 2
  funext r
  have e1 : net.typeVector "He" = heL := by
    unfold Network.typeVector; rw [show StdMap.find net.clusterTypeMap "He" = some heL from hheL]
    rfl
  have e2 : net.typeVector "V" = vL := by
    unfold Network.typeVector; rw [show StdMap.find net.clusterTypeMap "V" = some vL from hvL]
    rfl
  have e3 : net.typeVector "I" = iL := by
    unfold Network.typeVector; rw [show StdMap.find net.clusterTypeMap "I" = some iL from hiL]
    rfl
  have e4 : net.typeVector "HeV" = heVL := by
    unfold Network.typeVector
    rw [show StdMap.find net.clusterTypeMap "HeV" = some heVL from hheVL]
    rfl
  have e5 : net.typeVector "HeI" = heIL := by
    unfold Network.typeVector
    rw [show StdMap.find net.clusterTypeMap "HeI" = some heIL from hheIL]
    rfl
  simp only [HeCluster.connected, HeCluster.partners, Network.intOr0, hmaxHe, hmaxHeV, hmaxHeI,
    hnumHeV, hnumHeI, e1, e2, e3, e4, e5, Option.getD_some, Function.comp,
    Reactant.appendPartners, Reactant.appendPairs, List.append_assoc]

/-! ## Reacting pairs and combining partners of a helium cluster -/

theorem mem_countedFrom1 (last v : Int) : v ∈ countedFrom1 last ↔ 1 ≤ v ∧ v ≤ last := by
  unfold countedFrom1
  simp only [List.mem_map, List.mem_range]
  constructor
  · rintro ⟨k, hk, rfl⟩
    omega
  · rintro ⟨h1, h2⟩
    exact ⟨(v - 1).toNat, by omega, by omega⟩

theorem nodup_countedFrom1 (last : Int) : (countedFrom1 last).Nodup := by
  unfold countedFrom1
  apply List.Nodup.map _ (List.nodup_range _)
  intro a b h
  simp only at h
  omega

theorem getHe_eq_some {m : StdMap Composition Handle} {n : Int} {h : Handle}
    (hg : getHe m n = some h) : 1 ≤ n ∧ StdMap.find m { he := n, v := 0, i := 0 } = some h := by
  unfold getHe at hg
  split_ifs at hg with hn
  exact ⟨hn, hg⟩

/-- Two sizes that `get("He", .)` maps to the same object are equal. -/
theorem getHe_injective {net : Network} (hs : net.SingleIndexOK) {n1 n2 : Int} {h : Handle}
    (h1 : getHe net.singleSpeciesMap n1 = some h) (h2 : getHe net.singleSpeciesMap n2 = some h) :
    n1 = n2 := by
  obtain ⟨r1, hr1, hc1⟩ := hs _ (StdMap.mem_of_find (getHe_eq_some h1).2)
  obtain ⟨r2, hr2, hc2⟩ := hs _ (StdMap.mem_of_find (getHe_eq_some h2).2)
  simp only at hr1 hr2 hc1 hc2
  rw [hr1] at hr2
  injection hr2 with hr2
  subst hr2
  rw [hc1] at hc2
  injection hc2

theorem setReactionConnectivity_lists (r : Reactant) (id : Int) :
    (r.setReactionConnectivity id).reactingPairs = r.reactingPairs ∧
      (r.setReactionConnectivity id).combiningReactants = r.combiningReactants := by
  unfold Reactant.setReactionConnectivity
  split <;> exact ⟨rfl, rfl⟩

theorem connected_lists (net : Network) (this : Reactant) :
    (HeCluster.connected net this this).reactingPairs
        = this.reactingPairs ++ pairsOf net.singleSpeciesMap this.size ∧
      (HeCluster.connected net this this).combiningReactants
        = this.combiningReactants ++ HeCluster.partners net this.size := by
  unfold HeCluster.connected Reactant.appendPartners Reactant.appendPairs
  simp [(setReactionConnectivity_lists this this.id).1,
    (setReactionConnectivity_lists this this.id).2]

/-- The object at `self` after one run of the connectivity pass. -/
theorem createReactionConnectivity_self {net : Network} (hwf : net.WF) {self : Handle}
    {this : Reactant} (hself : net.deref self = some this) :
    (HeCluster.createReactionConnectivity net self).thrown = none ∧
      (HeCluster.createReactionConnectivity net self).net.deref self
        = some (HeCluster.connected net this this) := by
  have hself' : net.objects[self]? = some this := hself
  rw [createReactionConnectivity_eq hwf hself']
  refine ⟨rfl, ?_⟩
  unfold Network.deref
  rw [getElem?_modifyObject, hself']
  simp

/-- The pairs of `pairsOf` that join `He_a` and `He_b`: exactly one. -/
theorem countP_joins_pairsOf {net : Network} (hs : net.SingleIndexOK) (n a b : Int)
    (ha : 1 ≤ a) (hb : 1 ≤ b) (hab : a + b = n) (x y : Handle)
    (hx : getHe net.singleSpeciesMap a = some x) (hy : getHe net.singleSpeciesMap b = some y) :
    (pairsOf net.singleSpeciesMap n).countP (fun p => p.joins x y) = 1 := by
  have hdiv : Int.tdiv n 2 = n / 2 := Int.tdiv_eq_ediv (by omega) (by decide)
  unfold pairsOf
  rw [List.countP_filterMap, hdiv]
  have hmem : min a b ∈ countedFrom1 (n / 2) := by
    rw [mem_countedFrom1]
    omega
  rw [← List.count_eq_one_of_mem (nodup_countedFrom1 (n / 2)) hmem, List.count]
  apply List.countP_congr
  intro v hv
  rw [mem_countedFrom1] at hv
  simp only [beq_iff_eq]
  constructor
  · intro hj
    cases hp : pairFor net.singleSpeciesMap n v with
    | none => simp [hp] at hj
    | some p =>
      simp only [hp, Option.map_some', Option.getD_some] at hj
      unfold pairFor at hp
      cases h1 : getHe net.singleSpeciesMap v with
      | none => simp [h1] at hp
      | some u =>
        cases h2 : getHe net.singleSpeciesMap (n - v) with
        | none => simp [h1, h2] at hp
        | some w =>
          simp only [h1, h2, Option.some.injEq] at hp
          subst hp
          simp only [ClusterPair.joins, Bool.or_eq_true, Bool.and_eq_true, beq_iff_eq] at hj
          rcases hj with ⟨hu, -⟩ | ⟨hu, -⟩
          · subst hu
            have := getHe_injective hs h1 hx
            omega
          · subst hu
            have := getHe_injective hs h1 hy
            omega
  · intro hv'
    subst hv'
    by_cases hle : a ≤ b
    · have e1 : min a b = a := min_eq_left hle
      have e2 : n - a = b := by omega
      simp [pairFor, e1, e2, hx, hy, ClusterPair.joins]
    · have e1 : min a b = b := min_eq_right (by omega)
      have e2 : n - b = a := by omega
      simp [pairFor, e1, e2, hx, hy, ClusterPair.joins]

/-- C9: in a well-formed network, for a cluster of size `n` whose reacting-pair
list is empty and sizes `a, b >= 1` with `a + b = n` such that `get("He", a)`
and `get("He", b)` return clusters, one run of
`HeCluster::createReactionConnectivity` returns and leaves in the reacting-pair
list exactly one entry that joins the two clusters, in either order. -/
theorem reacting_pair_recorded_once (net : Network) (hwf : net.WF) (self : Handle)
    (this : Reactant) (hself : net.deref self = some this) (hempty : this.reactingPairs = [])
    (a b : Int) (ha : 1 ≤ a) (hb : 1 ≤ b) (hab : a + b = this.size) (x y : Handle)
    (hx : get net "He" a = .ok (some x)) (hy : get net "He" b = .ok (some y)) :
    (HeCluster.createReactionConnectivity net self).thrown = none ∧
      ∃ this', (HeCluster.createReactionConnectivity net self).net.deref self = some this' ∧
        this'.reactingPairs.countP (fun p => p.joins x y) = 1 := by
  obtain ⟨hok, hd⟩ := createReactionConnectivity_self hwf hself
  refine ⟨hok, _, hd, ?_⟩
  rw [(connected_lists net this).1, hempty, List.nil_append]
  rw [get_he] at hx hy
  exact countP_joins_pairsOf hwf.single this.size a b ha hb hab x y
    (Except.ok.inj hx) (Except.ok.inj hy)

/-- Witness of C9: in a network of `He_1`, `He_2`, `He_3` only, the
reacting-pair list of `He_3` is exactly `[(He_1, He_2)]`. -/
theorem reacting_pair_recorded_once_witness :
    heliumNetwork.deref 2 = some ((HeCluster.mk 3).setId 3) ∧
      get heliumNetwork "He" 1 = .ok (some 0) ∧ get heliumNetwork "He" 2 = .ok (some 1) ∧
      ((HeCluster.createReactionConnectivity heliumNetwork 2).net.deref 2).map
          (fun r => r.reactingPairs) = some [{ first := 0, second := 1 }] ∧
      ((HeCluster.createReactionConnectivity heliumNetwork 2).thrown = none ∧
        ∃ this', (HeCluster.createReactionConnectivity heliumNetwork 2).net.deref 2
            = some this' ∧
          this'.reactingPairs.countP (fun p => p.joins 0 1) = 1) :=
  ⟨by decide, by rfl, by rfl, by decide,
    reacting_pair_recorded_once heliumNetwork (WF_run WF_new _) 2 ((HeCluster.mk 3).setId 3)
      (by decide) (by decide) 1 2 (by decide) (by decide) (by decide) 0 1 (by rfl) (by rfl)⟩

theorem mem_partnersOf {objects : List Reactant} {size maxSize : Int} {clusters : List Handle}
    {h : Handle} :
    ({ combining := h } : CombiningCluster) ∈ partnersOf objects size maxSize clusters ↔
      h ∈ clusters ∧ ∃ second, objects[h]? = some second ∧ size + second.size ≤ maxSize := by
  unfold partnersOf
  simp only [List.mem_filterMap]
  constructor
  · rintro ⟨o, ho, hop⟩
    cases hobj : objects[o]? with
    | none => simp [hobj] at hop
    | some second =>
      simp only [hobj] at hop
      split_ifs at hop with hle
      simp only [Option.some.injEq, CombiningCluster.mk.injEq, and_true] at hop
      subst hop
      exact ⟨ho, second, hobj, hle⟩
  · rintro ⟨hmem, second, hobj, hle⟩
    exact ⟨h, hmem, by simp [hobj, hle]⟩

/-- C10: in a well-formed network whose property `maxHeClusterSize` holds `M`,
one run of `HeCluster::createReactionConnectivity` for a cluster of size `n`
with an empty combining list returns without throwing, and a He cluster of
size `m` is in the combining list afterwards exactly when it is in the list
`getAll("He")` of the network and `n + m <= M`. -/
theorem combining_partner_iff (net : Network) (hwf : net.WF) (self : Handle)
    (this : Reactant) (hself : net.deref self = some this)
    (hempty : this.combiningReactants = []) (M : Int)
    (hM : net.intProperty "maxHeClusterSize" = some M) :
    (HeCluster.createReactionConnectivity net self).thrown = none ∧
      getAllOfType net "He" = .ok (net.typeVector "He") ∧
      ∃ this', (HeCluster.createReactionConnectivity net self).net.deref self = some this' ∧
        ∀ (h : Handle) (other : Reactant), net.deref h = some other → other.typeName = .He →
          (({ combining := h } : CombiningCluster) ∈ this'.combiningReactants ↔
            h ∈ net.typeVector "He" ∧ this.size + other.size ≤ M) := by
  obtain ⟨hok, hd⟩ := createReactionConnectivity_self hwf hself
  obtain ⟨heL, hheL, -⟩ := hwf.types .He (ClusterType.mem_all _)
  have hheL' : StdMap.find net.clusterTypeMap "He" = some heL := hheL
  have hgetAll : getAllOfType net "He" = .ok (net.typeVector "He") := by
    unfold getAllOfType Network.typeVector
    rw [if_pos (by decide), StdMap.atKey_of_find hheL', hheL']
    rfl
  refine ⟨hok, hgetAll, _, hd, ?_⟩
  intro h other hother hHe
  have hother' : net.objects[h]? = some other := hother
  have hnot : ∀ (t : ClusterType) (size maxSize : Int), t ≠ .He →
      ({ combining := h } : CombiningCluster) ∉
        partnersOf net.objects size maxSize (net.typeVector t.name) := by
    intro t size maxSize ht hmem
    obtain ⟨hin, -⟩ := mem_partnersOf.mp hmem
    obtain ⟨v, hv, hall⟩ := hwf.types t (ClusterType.mem_all _)
    unfold Network.typeVector at hin
    rw [hv] at hin
    obtain ⟨r, hr, hty⟩ := hall h hin
    rw [hother'] at hr
    injection hr with hr
    subst hr
    exact ht (hty.symm.trans hHe)
  have hV := hnot .V this.size (net.intOr0 "maxHeVClusterSize") (by decide)
  have hI := hnot .I this.size (net.intOr0 "maxHeIClusterSize") (by decide)
  have hHeV := hnot .HeV this.size (net.intOr0 "maxHeVClusterSize") (by decide)
  have hHeI := hnot .HeI this.size (net.intOr0 "maxHeIClusterSize") (by decide)
  have hMax : net.intOr0 "maxHeClusterSize" = M := by
    unfold Network.intOr0; rw [hM]; rfl
  rw [(connected_lists net this).2, hempty, List.nil_append]
  unfold HeCluster.partners
  rw [hMax]
  simp only [List.mem_append]
  constructor
  · rintro ((((h1 | h2) | h3) | h4) | h5)
    · obtain ⟨hin, second, hsec, hle⟩ := mem_partnersOf.mp h1
      rw [hother'] at hsec
      injection hsec with hsec
      subst hsec
      exact ⟨hin, hle⟩
    · exact absurd h2 hV
    · exact absurd h3 hI
    · split_ifs at h4
      · exact absurd h4 hHeV
      · simp at h4
    · split_ifs at h5
      · exact absurd h5 hHeI
      · simp at h5
  · rintro ⟨hin, hle⟩
    exact Or.inl (Or.inl (Or.inl (Or.inl (mem_partnersOf.mpr ⟨hin, other, hother', hle⟩))))

/-- Witness of C10: in a network of `He_1`, `He_2`, `He_3` only, where the
maximum He size is 3, the combining list of `He_1` holds `He_1` and `He_2`,
and not `He_3`. -/
theorem combining_partner_iff_witness :
    heliumNetwork.deref 0 = some ((HeCluster.mk 1).setId 1) ∧
      heliumNetwork.intProperty "maxHeClusterSize" = some 3 ∧
      ((HeCluster.createReactionConnectivity heliumNetwork 0).net.deref 0).map
          (fun r => r.combiningReactants) = some [{ combining := 0 }, { combining := 1 }] ∧
      ((HeCluster.createReactionConnectivity heliumNetwork 0).thrown = none ∧
        getAllOfType heliumNetwork "He" = .ok (heliumNetwork.typeVector "He") ∧
        ∃ this', (HeCluster.createReactionConnectivity heliumNetwork 0).net.deref 0
            = some this' ∧
          ∀ (h : Handle) (other : Reactant), heliumNetwork.deref h = some other →
            other.typeName = .He →
            (({ combining := h } : CombiningCluster) ∈ this'.combiningReactants ↔
              h ∈ heliumNetwork.typeVector "He" ∧
                ((HeCluster.mk 1).setId 1).size + other.size ≤ 3)) :=
  ⟨by decide, by decide, by decide,
    combining_partner_iff heliumNetwork (WF_run WF_new _) 0 ((HeCluster.mk 1).setId 1)
      (by decide) (by decide) 3 (by decide)⟩

/-! ## The property setter -/

theorem mem_protectedKeys (key : String) :
    key ∈ protectedKeys ↔
      ¬ (key ≠ "reactionsEnabled"
        ∧ key ≠ "dissociationsEnabled" ∧ key ≠ "numHeClusters"
        ∧ key ≠ "numVClusters" ∧ key ≠ "numIClusters"
        ∧ key ≠ "numHeVClusters" ∧ key ≠ "numHeIClusters"
        ∧ key ≠ "numSuperClusters" ∧ key ≠ "maxHeClusterSize"
        ∧ key ≠ "maxVClusterSize" ∧ key ≠ "maxIClusterSize"
        ∧ key ≠ "maxHeVClusterSize" ∧ key ≠ "maxHeIClusterSize") := by
  simp only [protectedKeys, List.mem_cons, List.mem_singleton, List.not_mem_nil, or_false]
  tauto

theorem setProperty_eq (net : Network) (key value : String) :
    setProperty net key value =
      if key ≠ "" ∧ value ≠ "" ∧ key ∉ protectedKeys then net.setProp key value else net := by
  unfold setProperty
  by_cases h : key ∈ protectedKeys
  · have h2 := (mem_protectedKeys key).1 h
    rw [if_neg (fun hc => h2 hc.2.2), if_neg (fun hc => hc.2.2 h)]
  · have h2 : _ := not_not.1 (mt (mem_protectedKeys key).2 h)
    by_cases hk : key ≠ ""
    · by_cases hv : value ≠ ""
      · rw [if_pos ⟨hk, hv, h2⟩, if_pos ⟨hk, hv, h⟩]
      · rw [if_neg (fun hc => hv hc.2.1), if_neg (fun hc => hv hc.2.1)]
    · rw [if_neg (fun hc => hk hc.1), if_neg (fun hc => hk hc.1)]

/-- C16, counterexample: on a new network `setProperty("maxHeClusterSize",
"10")` leaves the property at "0", and `setProperty("reactionsEnabled",
"false")` leaves the toggle at "true". -/
theorem setProperty_keeps_configuration_keys :
    StdMap.find (setProperty Network.new "maxHeClusterSize" "10").properties
        "maxHeClusterSize" = some "0" ∧
      StdMap.find (setProperty Network.new "reactionsEnabled" "false").properties
        "reactionsEnabled" = some "true" ∧
      StdMap.find (setProperty Network.new "dissociationsEnabled" "false").properties
        "dissociationsEnabled" = some "true" := by
  decide

/-- C16 (amended): after `setProperty(key, value)` the property table maps
`key` to `value` when `key` and `value` are not empty and `key` is none of the
thirteen properties the network creates itself (the toggles, the counts and
the max sizes); in every other case, and under every other key, the table
holds what it held before. -/
theorem setProperty_stores_unprotected_keys (net : Network) (key value k : String) :
    StdMap.find (setProperty net key value).properties k =
      if (key ≠ "" ∧ value ≠ "" ∧ key ∉ protectedKeys) ∧ k = key then some value
      else StdMap.find net.properties k := by
  rw [setProperty_eq]
  by_cases hc : key ≠ "" ∧ value ≠ "" ∧ key ∉ protectedKeys
  · rw [if_pos hc]
    by_cases hk : k = key
    · rw [if_pos ⟨hc, hk⟩, hk]
      exact StdMap.find_set_self _ _ _ _
    · rw [if_neg (fun h => hk h.2)]
      exact StdMap.find_set_ne _ _ _ _ _ (fun h => hk h.symm)
  · rw [if_neg hc, if_neg (fun h => hc h.1)]

/-! ## What makes `add` and `addSuper` throw -/

/-- C12, counterexample: `addSuper` of the single-species cluster `He_1` on a
new network throws the message of a duplicate super-cluster, although the
network stores no cluster at all. -/
theorem addSuper_raises_without_duplicate :
    (addSuper Network.new (some (HeCluster.mk 1))).thrown
        = some (.message
          "PSIClusterReactionNetwork Message: Duplicate Super Reactant (He=1,V=0,I=0) not added!\n")
      ∧ getAll Network.new = []
      ∧ StdMap.find Network.new.superSpeciesMap (HeCluster.mk 1).composition = none := by
  decide

/-- C12 (amended): on a network that satisfies the representation invariant,
`addSuper(c)` throws exactly when the composition of `c` is not mixed or the
super-species map stores a cluster of this composition, and `add(c)` throws
exactly when the map of the single-species or of the mixed compositions stores
a cluster of this composition (a super-cluster of this composition does not
count); a call that throws leaves the network as it was. -/
theorem population_raises_iff (net : Network) (hwf : net.WF) (c : Reactant) :
    ((addSuper net (some c)).thrown ≠ none ↔
      (c.composition.isMixed = false ∨
        ∃ h r, StdMap.find net.superSpeciesMap c.composition = some h ∧
          net.deref h = some r ∧ r.composition = c.composition)) ∧
    ((add net (some c)).thrown ≠ none ↔
      ∃ h r, StdMap.find (net.speciesMap c.composition) c.composition = some h ∧
        net.deref h = some r ∧ r.composition = c.composition) ∧
    ((addSuper net (some c)).thrown ≠ none → (addSuper net (some c)).net = net) ∧
    ((add net (some c)).thrown ≠ none → (add net (some c)).net = net) := by
  have hstored : ∀ h, StdMap.find (net.speciesMap c.composition) c.composition = some h →
      ∃ r, net.deref h = some r ∧ r.composition = c.composition := by
    intro h hf
    have hm := StdMap.mem_of_find hf
    unfold Network.speciesMap at hm
    split at hm
    · exact hwf.mixed _ hm
    · exact hwf.single _ hm
  refine ⟨?_, ?_, ?_, ?_⟩
  · rcases addSuper_cases hwf c with ⟨hn, e⟩ | ⟨n, v, hm, hfresh, -, -, e⟩
    · rw [e]
      refine ⟨fun _ => ?_, fun _ => by simp⟩
      by_cases hm : c.composition.isMixed = true
      · right
        cases hf : StdMap.find net.superSpeciesMap c.composition with
        | none => exact absurd ⟨hm, hf⟩ hn
        | some h =>
          obtain ⟨r, hr, hc⟩ := hwf.super _ (StdMap.mem_of_find hf)
          exact ⟨h, r, rfl, hr, hc⟩
      · left
        simpa using hm
    · rw [e]
      refine ⟨fun h => absurd rfl h, ?_⟩
      rintro (h | ⟨h, r, hf, -, -⟩)
      · rw [hm] at h; exact absurd h (by decide)
      · rw [hfresh] at hf; exact Option.noConfusion hf
  · rcases add_cases hwf c with ⟨h, hd, e⟩ | ⟨n1, n2, v, hfresh, -, -, -, e⟩
    · rw [e]
      refine ⟨fun _ => ?_, fun _ => by simp⟩
      obtain ⟨r, hr, hc⟩ := hstored h hd
      exact ⟨h, r, hd, hr, hc⟩
    · rw [e]
      refine ⟨fun h => absurd rfl h, ?_⟩
      rintro ⟨h, r, hf, -, -⟩
      rw [hfresh] at hf; exact Option.noConfusion hf
  · rcases addSuper_cases hwf c with ⟨-, e⟩ | ⟨n, v, -, -, -, -, e⟩
    · rw [e]; exact fun _ => rfl
    · rw [e]; exact fun h => absurd rfl h
  · rcases add_cases hwf c with ⟨h, -, e⟩ | ⟨n1, n2, v, -, -, -, -, e⟩
    · rw [e]; exact fun _ => rfl
    · rw [e]; exact fun h => absurd rfl h

/-- Witness of C12: on the network that holds `HeV(5,3)`, `addSuper` of a
super-cluster of the composition (5, 3, 0) returns and `add` of `HeV(5,3)`
throws. -/
theorem population_raises_iff_witness :
    (run Network.new [.add (HeVCluster.mk 5 3)]).WF ∧
      (addSuper (run Network.new [.add (HeVCluster.mk 5 3)])
        (some (SuperCluster.mk 5 3))).thrown = none ∧
      (add (run Network.new [.add (HeVCluster.mk 5 3)])
        (some (HeVCluster.mk 5 3))).thrown ≠ none :=
  ⟨WF_run WF_new _,
    by decide,
    (population_raises_iff (run Network.new [.add (HeVCluster.mk 5 3)]) (WF_run WF_new _)
      (HeVCluster.mk 5 3)).2.1.2 ⟨0, (HeVCluster.mk 5 3).setId 1, by decide, by decide, by decide⟩⟩

/-! ## Uniqueness of compositions -/

theorem Indexed_new : Network.new.Indexed := by
  intro h hh
  have he : Network.new.allReactants = [] := by decide
  rw [he] at hh
  exact absurd hh (List.not_mem_nil h)

theorem speciesMap_insertedSuper (net : Network) (r : Reactant) (n : Int) (v : List Handle)
    (comp : Composition) :
    (net.insertedSuper r n v).speciesMap comp = net.speciesMap comp := rfl

theorem Indexed_apply {net : Network} (hwf : net.WF) (hi : net.Indexed) (c : Call) :
    (c.apply net).net.Indexed := by
  cases c with
  | add r =>
    rcases add_cases hwf r with ⟨h, -, e⟩ | ⟨n1, n2, v, hfresh, -, -, -, e⟩
    · change (add net (some r)).net.Indexed
      rw [e]; exact hi
    · have hp := fun comp h => stored_persists net (.add r) comp h
      change (add net (some r)).net.Indexed
      simp only [Call.apply] at hp
      rw [e] at hp ⊢
      intro h hh
      have hh' : h ∈ net.allReactants ++ [net.objects.length] := hh
      rcases List.mem_append.1 hh' with hold | hnew
      · obtain ⟨r0, hr0, hcase⟩ := hi h hold
        refine ⟨r0, getElem?_append_of_some _ hr0, ?_⟩
        rcases hcase with hs | hs
        · exact Or.inl hs
        · exact Or.inr (hp _ _ hs)
      · have hh2 : h = net.objects.length := by simpa using hnew
        subst hh2
        refine ⟨r.setId (net.networkSize + 1), ?_, Or.inr ?_⟩
        · simp [Network.inserted]
        · exact speciesMap_inserted_self net r n1 n2 v
  | addSuper r =>
    rcases addSuper_cases hwf r with ⟨-, e⟩ | ⟨n, v, -, hfresh, -, -, e⟩
    · change (addSuper net (some r)).net.Indexed
      rw [e]; exact hi
    · change (addSuper net (some r)).net.Indexed
      rw [e]
      intro h hh
      have hh' : h ∈ net.allReactants ++ [net.objects.length] := hh
      rcases List.mem_append.1 hh' with hold | hnew
      · obtain ⟨r0, hr0, hcase⟩ := hi h hold
        refine ⟨r0, getElem?_append_of_some _ hr0, ?_⟩
        rcases hcase with hs | hs
        · left
          have hne : r.composition ≠ r0.composition := by
            intro heq
            rw [← heq, hfresh] at hs
            exact Option.noConfusion hs
          exact (StdMap.find_set_ne _ _ _ _ _ hne).trans hs
        · right
          rw [speciesMap_insertedSuper]
          exact hs
      · have hh2 : h = net.objects.length := by simpa using hnew
        subst hh2
        refine ⟨r.setId (net.networkSize + 1), ?_, Or.inl ?_⟩
        · simp [Network.insertedSuper]
        · exact StdMap.find_set_self _ _ _ _

theorem Indexed_run {net : Network} (hwf : net.WF) (hi : net.Indexed) (calls : List Call) :
    (run net calls).Indexed := by
  induction calls generalizing net with
  | nil => exact hi
  | cons c rest ih => exact ih (WF_apply hwf c) (Indexed_apply hwf hi c)

/-- C11, counterexample: after `add(HeV(5,3))` and `addSuper` of a
super-cluster of the composition (5, 3, 0) on a new network, both calls have
returned and `getAll()` lists two distinct clusters of the composition
(5, 3, 0). -/
theorem super_shares_composition :
    succeeded Network.new [.add (HeVCluster.mk 5 3), .addSuper (SuperCluster.mk 5 3)]
        = [.add (HeVCluster.mk 5 3), .addSuper (SuperCluster.mk 5 3)] ∧
      getAll sharedCompositionNetwork = [0, 1] ∧
      (sharedCompositionNetwork.deref 0).map (fun r => r.composition)
        = some { he := 5, v := 3, i := 0 } ∧
      (sharedCompositionNetwork.deref 1).map (fun r => r.composition)
        = some { he := 5, v := 3, i := 0 } := by
  decide

/-- C11 (amended): after any sequence of `add` and `addSuper` calls on a new
network, two distinct clusters listed by `getAll()` that have the same
composition are one super-cluster and one other cluster: one of them is the
entry of this composition in the super-species map and the other is its entry
in the map of the single-species or of the mixed compositions.  Hence no two
clusters stored by `add` share a composition, and no two stored by
`addSuper`. -/
theorem composition_unique_within_index (calls : List Call) (h1 h2 : Handle)
    (r1 r2 : Reactant) (hne : h1 ≠ h2)
    (hm1 : h1 ∈ getAll (run Network.new calls)) (hm2 : h2 ∈ getAll (run Network.new calls))
    (hr1 : (run Network.new calls).deref h1 = some r1)
    (hr2 : (run Network.new calls).deref h2 = some r2)
    (hc : r1.composition = r2.composition) :
    (StdMap.find (run Network.new calls).superSpeciesMap r1.composition = some h1 ∧
      StdMap.find ((run Network.new calls).speciesMap r1.composition) r1.composition
        = some h2) ∨
    (StdMap.find (run Network.new calls).superSpeciesMap r1.composition = some h2 ∧
      StdMap.find ((run Network.new calls).speciesMap r1.composition) r1.composition
        = some h1) := by
  have hi := Indexed_run WF_new Indexed_new calls
  obtain ⟨r1', e1, c1⟩ := hi h1 hm1
  obtain ⟨r2', e2, c2⟩ := hi h2 hm2
  have e1' : r1' = r1 := Option.some.inj (e1.symm.trans hr1)
  have e2' : r2' = r2 := Option.some.inj (e2.symm.trans hr2)
  subst e1' e2'
  rw [← hc] at c2
  rcases c1 with s1 | s1 <;> rcases c2 with s2 | s2
  · exact absurd (Option.some.inj (s1.symm.trans s2)) hne
  · exact Or.inl ⟨s1, s2⟩
  · exact Or.inr ⟨s2, s1⟩
  · exact absurd (Option.some.inj (s1.symm.trans s2)) hne

/-- Witness of C11: in the network built by `add(HeV(5,3))` and `addSuper` of
a super-cluster of the same composition, the cluster at position 1 is the entry
of the super-species map and the cluster at position 0 the entry of the mixed
map. -/
theorem composition_unique_within_index_witness :
    (0 : Handle) ≠ 1 ∧
      0 ∈ getAll (run Network.new [.add (HeVCluster.mk 5 3), .addSuper (SuperCluster.mk 5 3)]) ∧
      1 ∈ getAll (run Network.new [.add (HeVCluster.mk 5 3), .addSuper (SuperCluster.mk 5 3)]) ∧
      ((StdMap.find (run Network.new
            [.add (HeVCluster.mk 5 3), .addSuper (SuperCluster.mk 5 3)]).superSpeciesMap
          { he := 5, v := 3, i := 0 } = some 0 ∧
        StdMap.find (run Network.new
            [.add (HeVCluster.mk 5 3), .addSuper (SuperCluster.mk 5 3)]).mixedSpeciesMap
          { he := 5, v := 3, i := 0 } = some 1) ∨
       (StdMap.find (run Network.new
            [.add (HeVCluster.mk 5 3), .addSuper (SuperCluster.mk 5 3)]).superSpeciesMap
          { he := 5, v := 3, i := 0 } = some 1 ∧
        StdMap.find (run Network.new
            [.add (HeVCluster.mk 5 3), .addSuper (SuperCluster.mk 5 3)]).mixedSpeciesMap
          { he := 5, v := 3, i := 0 } = some 0)) :=
  ⟨by decide, by decide, by decide,
    composition_unique_within_index
      [.add (HeVCluster.mk 5 3), .addSuper (SuperCluster.mk 5 3)] 0 1
      ((HeVCluster.mk 5 3).setId 1) ((SuperCluster.mk 5 3).setId 2)
      (by decide) (by decide) (by decide) (by decide) (by decide) (by decide)⟩

/-! ## Removal of a cluster -/

theorem removeReactant_maps (net : Network) (reactant : Handle) :
    (removeReactant net reactant).net.singleSpeciesMap = net.singleSpeciesMap ∧
      (removeReactant net reactant).net.superSpeciesMap = net.superSpeciesMap := by
  unfold removeReactant
  cases net.objects[reactant]? with
  | none => exact ⟨rfl, rfl⟩
  | some r =>
    dsimp only
    cases eraseFirstMatch net.objects r.typeName.name r.composition net.allReactants with
    | error e => exact ⟨rfl, rfl⟩
    | ok all =>
      dsimp only
      cases StdMap.find net.clusterTypeMap r.typeName.name with
      | none => exact ⟨rfl, rfl⟩
      | some clusters =>
        dsimp only
        cases eraseFirstMatch net.objects r.typeName.name r.composition clusters with
        | error e => exact ⟨rfl, rfl⟩
        | ok clusters2 => exact ⟨rfl, rfl⟩

/-- C13: `removeReactant` changes neither the single-species map nor the
super-species map, so `get` and `getSuper` return what they returned before
the call.  On the network that holds `He_1` only, `removeReactant(He_1)`
returns and empties `getAll()` and `getAll("He")`, and `get("He", 1)` still
returns the cluster; on the network that holds one super-cluster of the
composition (5, 3, 0), `getSuper` still returns the cluster after its removal;
the mixed cluster `HeV(5,3)` of the network of `checkProperties` is no longer
returned by `getCompound`. -/
theorem removeReactant_keeps_single_and_super_entries :
    (∀ (net : Network) (reactant : Handle) (type : String) (size : Int),
      get (removeReactant net reactant).net type size = get net type size) ∧
    (∀ (net : Network) (reactant : Handle) (type : String) (sizes : List Int),
      getSuper (removeReactant net reactant).net type sizes = getSuper net type sizes) ∧
    ((removeReactant singleHeliumNetwork 0).thrown = none ∧
      getAll (removeReactant singleHeliumNetwork 0).net = [] ∧
      getAllOfType (removeReactant singleHeliumNetwork 0).net "He" = .ok [] ∧
      get (removeReactant singleHeliumNetwork 0).net "He" 1 = .ok (some 0)) ∧
    ((removeReactant superOnlyNetwork 0).thrown = none ∧
      getAll (removeReactant superOnlyNetwork 0).net = [] ∧
      getAllOfType (removeReactant superOnlyNetwork 0).net superType = .ok [] ∧
      getSuper (removeReactant superOnlyNetwork 0).net superType [5, 3, 0] = .ok (some 0)) ∧
    ((removeReactant checkPropertiesNetwork 1).thrown = none ∧
      getAll (removeReactant checkPropertiesNetwork 1).net = [0] ∧
      getCompound checkPropertiesNetwork "HeV" [5, 3, 0] = .ok (some 1) ∧
      getCompound (removeReactant checkPropertiesNetwork 1).net "HeV" [5, 3, 0] = .ok none) := by
  refine ⟨?_, ?_, ⟨by decide, by decide, by rfl, by rfl⟩, ⟨by decide, by decide, by rfl, by rfl⟩,
    ⟨by decide, by decide, by rfl, by rfl⟩⟩
  · intro net reactant type size
    unfold get
    rw [(removeReactant_maps net reactant).1]
  · intro net reactant type sizes
    unfold getSuper
    rw [(removeReactant_maps net reactant).2]

/-! ## The copy constructor -/

/-- The scenario of `checkCopying`: the copy of the network that holds `He_1`
with the concentration 50 is built without a throw and has the size 1, and
after the concentration of the cluster of the copy is set to 7 the cluster of
the original still has the concentration 50. -/
theorem checkCopying_scenario :
    (Network.copy checkCopyingNetwork).thrown = none ∧
      (Network.copy checkCopyingNetwork).net.size = 1 ∧
      get (Network.copy checkCopyingNetwork).net "He" 1 = .ok (some 0) ∧
      ((Network.copy checkCopyingNetwork).net.deref 0).map (fun r => r.concentration)
        = some 50 ∧
      ((((Network.copy checkCopyingNetwork).net.modifyObject 0
          fun r => r.setConcentration 7).deref 0).map fun r => r.concentration) = some 7 ∧
      (checkCopyingNetwork.deref 0).map (fun r => r.concentration) = some 50 := by
  refine ⟨by decide, by decide, by rfl, by rfl, by rfl, by rfl⟩

/-- C15: the copy of a network that holds one super-cluster of the composition
(5, 3, 0) is built without a throw, but the clone was handed to `add`:
`getSuper` returns the cluster in the original and a null pointer in the copy,
`getCompound` returns a null pointer in the original and the clone in the
copy, the count `numSuperClusters` is 1 in the original and 0 in the copy and
the count `numHeVClusters` is 0 in the original and 1 in the copy.  The copy
constructor throws the duplicate message for the network that holds `HeV(5,3)`
and a super-cluster of the same composition. -/
theorem copy_hands_super_clusters_to_add :
    (Network.copy superOnlyNetwork).thrown = none ∧
      getSuper superOnlyNetwork superType [5, 3, 0] = .ok (some 0) ∧
      getSuper (Network.copy superOnlyNetwork).net superType [5, 3, 0] = .ok none ∧
      getCompound superOnlyNetwork heVType [5, 3, 0] = .ok none ∧
      getCompound (Network.copy superOnlyNetwork).net heVType [5, 3, 0] = .ok (some 0) ∧
      superOnlyNetwork.intProperty "numSuperClusters" = some 1 ∧
      (Network.copy superOnlyNetwork).net.intProperty "numSuperClusters" = some 0 ∧
      superOnlyNetwork.intProperty "numHeVClusters" = some 0 ∧
      (Network.copy superOnlyNetwork).net.intProperty "numHeVClusters" = some 1 ∧
      (Network.copy sharedCompositionNetwork).thrown = some (.message
        "PSIClusterReactionNetwork Message: Duplicate Reactant (He=5,V=3,I=0) not added!\n") := by
  refine ⟨by decide, by rfl, by rfl, by rfl, by rfl, by decide, by decide, by decide,
    by decide, by decide⟩

/-! ## Renumbering -/

theorem length_modifyObject (net : Network) (h : Handle) (f : Reactant → Reactant) :
    (net.modifyObject h f).objects.length = net.objects.length := by
  simp [Network.modifyObject]

theorem resetIdsLoop_spec : ∀ (l : List Handle) (net : Network) (id : Int),
    (∀ h ∈ l, h < net.objects.length) → l.Nodup →
    ∃ objs, resetIdsLoop net id l = (⟨none, { net with objects := objs }⟩, id + l.length) ∧
      objs.length = net.objects.length ∧
      (∀ (i : Nat) (h : Handle), l[i]? = some h →
        objs[h]? = (net.objects[h]?).map (Reactant.renumbered (id + i + 1))) ∧
      (∀ h, h ∉ l → objs[h]? = net.objects[h]?) := by
  intro l
  induction l with
  | nil =>
    intro net id _ _
    exact ⟨net.objects, by simp [resetIdsLoop], rfl, by simp, fun _ _ => rfl⟩
  | cons it rest ih =>
    intro net id hvalid hnodup
    have hit : it < net.objects.length := hvalid it (List.mem_cons_self _ _)
    obtain ⟨r0, hr0⟩ : ∃ r0, net.objects[it]? = some r0 :=
      ⟨net.objects[it], List.getElem?_eq_getElem hit⟩
    have hnd := List.nodup_cons.1 hnodup
    have hstep : resetIdsLoop net id (it :: rest) =
        resetIdsLoop (net.modifyObject it (Reactant.renumbered (id + 1))) (id + 1) rest := by
      simp only [resetIdsLoop, hr0, modifyObject_modifyObject]
      rfl
    obtain ⟨objs, e, hlen, hin, hout⟩ :=
      ih (net.modifyObject it (Reactant.renumbered (id + 1))) (id + 1)
        (fun h hh => by rw [length_modifyObject]; exact hvalid h (List.mem_cons_of_mem _ hh))
        hnd.2
    refine ⟨objs, ?_, ?_, ?_, ?_⟩
    · rw [hstep, e]
      simp only [Network.modifyObject, List.length_cons, Nat.cast_add, Nat.cast_one]
      congr 1
      ring
    · rw [hlen, length_modifyObject]
    · intro i h hi
      cases i with
      | zero =>
        have hh : it = h := by simpa using hi
        subst hh
        rw [hout it hnd.1, getElem?_modifyObject]
        simp
      | succ i =>
        have hi' : rest[i]? = some h := by simpa using hi
        have hmem : h ∈ rest := List.getElem?_mem hi'
        have hne : it ≠ h := fun e => hnd.1 (e ▸ hmem)
        rw [hin i h hi', getElem?_modifyObject]
        simp only [hne, if_false, Option.map_map]
        congr 1
        funext a
        simp only [Function.comp, Nat.cast_add, Nat.cast_one]
        congr 1
        ring
    · intro h hh
      have hne : it ≠ h := fun e => hh (e ▸ List.mem_cons_self _ _)
      rw [hout h (fun hm => hh (List.mem_cons_of_mem _ hm)), getElem?_modifyObject]
      simp [hne]

theorem superMomentumLoop_spec : ∀ (l : List Handle) (net : Network) (id : Int),
    (∀ h ∈ l, h < net.objects.length) → l.Nodup →
    ∃ objs, superMomentumLoop net id l
        = (⟨none, { net with objects := objs }⟩, id + 2 * l.length) ∧
      objs.length = net.objects.length ∧
      (∀ (j : Nat) (h : Handle), l[j]? = some h →
        objs[h]? = (net.objects[h]?).map
          (Reactant.withMomentumIds (id + 2 * j + 1) (id + 2 * j + 2))) ∧
      (∀ h, h ∉ l → objs[h]? = net.objects[h]?) := by
  intro l
  induction l with
  | nil =>
    intro net id _ _
    exact ⟨net.objects, by simp [superMomentumLoop], rfl, by simp, fun _ _ => rfl⟩
  | cons it rest ih =>
    intro net id hvalid hnodup
    have hit : it < net.objects.length := hvalid it (List.mem_cons_self _ _)
    obtain ⟨r0, hr0⟩ : ∃ r0, net.objects[it]? = some r0 :=
      ⟨net.objects[it], List.getElem?_eq_getElem hit⟩
    have hnd := List.nodup_cons.1 hnodup
    have hstep : superMomentumLoop net id (it :: rest) =
        superMomentumLoop (net.modifyObject it (Reactant.withMomentumIds (id + 1) (id + 1 + 1)))
          (id + 1 + 1) rest := by
      simp only [superMomentumLoop, hr0, modifyObject_modifyObject]
      rfl
    obtain ⟨objs, e, hlen, hin, hout⟩ :=
      ih (net.modifyObject it (Reactant.withMomentumIds (id + 1) (id + 1 + 1))) (id + 1 + 1)
        (fun h hh => by rw [length_modifyObject]; exact hvalid h (List.mem_cons_of_mem _ hh))
        hnd.2
    refine ⟨objs, ?_, ?_, ?_, ?_⟩
    · rw [hstep, e]
      simp only [Network.modifyObject, List.length_cons, Nat.cast_add, Nat.cast_one]
      congr 1
      ring
    · rw [hlen, length_modifyObject]
    · intro j h hj
      cases j with
      | zero =>
        have hh : it = h := by simpa using hj
        subst hh
        rw [hout it hnd.1, getElem?_modifyObject]
        have e2 : id + 1 + 1 = id + 2 := by ring
        simp [e2]
      | succ j =>
        have hj' : rest[j]? = some h := by simpa using hj
        have hmem : h ∈ rest := List.getElem?_mem hj'
        have hne : it ≠ h := fun e => hnd.1 (e ▸ hmem)
        rw [hin j h hj', getElem?_modifyObject]
        simp only [hne, if_false, Option.map_map]
        congr 1
        funext a
        simp only [Function.comp, Nat.cast_add, Nat.cast_one]
        congr 1 <;> ring
    · intro h hh
      have hne : it ≠ h := fun e => hh (e ▸ List.mem_cons_self _ _)
      rw [hout h (fun hm => hh (List.mem_cons_of_mem _ hm)), getElem?_modifyObject]
      simp [hne]

theorem map_of_indexed {α β : Type} (l : List α) (g : α → β) (G : Nat → β)
    (h : ∀ (j : Nat) (a : α), l[j]? = some a → g a = G j) :
    l.map g = (List.range l.length).map G := by
  apply List.ext_getElem?
  intro n
  rw [List.getElem?_map, List.getElem?_map]
  by_cases hn : n < l.length
  · rw [List.getElem?_range hn, List.getElem?_eq_getElem hn]
    simp only [Option.map_some']
    rw [h n l[n] (List.getElem?_eq_getElem hn)]
  · rw [List.getElem?_eq_none (Nat.le_of_not_lt hn),
      List.getElem?_eq_none (by rw [List.length_range]; exact Nat.le_of_not_lt hn)]
    rfl

theorem flatMap_of_indexed {α β : Type} (l : List α) (g : α → List β) (G : Nat → List β)
    (h : ∀ (j : Nat) (a : α), l[j]? = some a → g a = G j) :
    l.flatMap g = (List.range l.length).flatMap G := by
  rw [List.flatMap_def, List.flatMap_def, map_of_indexed l g G h]

theorem range_double (k : Nat) (F : Nat → Option Int) :
    (List.range (2 * k)).map F = (List.range k).flatMap (fun j => [F (2 * j), F (2 * j + 1)]) := by
  induction k with
  | zero => rfl
  | succ k ih =>
    have e : 2 * (k + 1) = 2 * k + 1 + 1 := by ring
    rw [e, List.range_succ, List.range_succ, List.range_succ k, List.flatMap_append, ← ih]
    simp

theorem counted_slots (n k : Nat) :
    (List.range n).map (fun i : Nat => some ((i : Int) + 1)) ++
      (List.range k).flatMap (fun j : Nat =>
        [some ((n : Int) + 2 * j + 1), some ((n : Int) + 2 * j + 2)])
      = (countedFrom1 ((n : Int) + 2 * k)).map some := by
  have hn : ((n : Int) + 2 * k).toNat = n + 2 * k := by omega
  unfold countedFrom1
  rw [hn, List.range_add, List.map_append, List.map_append, List.map_map, List.map_map,
    List.map_map, range_double]
  congr 1

theorem getAllOfType_super (net : Network) (supers : List Handle) :
    getAllOfType net superType = .ok supers ↔
      StdMap.find net.clusterTypeMap superType = some supers := by
  unfold getAllOfType
  rw [if_pos (by simp)]
  unfold StdMap.atKey
  cases StdMap.find net.clusterTypeMap superType with
  | none => simp
  | some v => simp

/-- C14: on a network whose full list holds `n` distinct clusters and whose
vector of super-clusters holds `k` distinct clusters of the full list,
`reinitializeNetwork` returns; the lists are as before; `size()` is `n`; the
cluster at position `i` (from 0) of `getAll()` has the id `i + 1`; if it is not
a super-cluster its He- and V-momentum ids are `i + 1` as well; the
super-cluster at position `j` (from 0) of the vector of super-clusters has the
He-momentum id `n + 2 j + 1` and the V-momentum id `n + 2 j + 2`; nothing else
of a cluster changes; and the ids of the clusters followed by the momentum ids
of the super-clusters are the integers 1, 2, ..., `n + 2 k` in order. -/
theorem reinitializeNetwork_restores_dense_ids (net : Network) (supers : List Handle)
    (hvalid : ∀ h ∈ getAll net, (net.deref h).isSome = true)
    (hnodup : (getAll net).Nodup)
    (hsupers : getAllOfType net superType = .ok supers)
    (hsnodup : supers.Nodup)
    (hsub : ∀ h ∈ supers, h ∈ getAll net) :
    ∃ net', reinitializeNetwork net = ⟨none, net'⟩ ∧
      getAll net' = getAll net ∧
      getAllOfType net' superType = .ok supers ∧
      net'.size = ((getAll net).length : Int) ∧
      (∀ (i : Nat) (h : Handle), (getAll net)[i]? = some h → h ∉ supers →
        net'.deref h = (net.deref h).map (Reactant.renumbered ((i : Int) + 1))) ∧
      (∀ (i j : Nat) (h : Handle), (getAll net)[i]? = some h → supers[j]? = some h →
        net'.deref h = (net.deref h).map fun r =>
          (r.renumbered ((i : Int) + 1)).withMomentumIds
            (((getAll net).length : Int) + 2 * j + 1) (((getAll net).length : Int) + 2 * j + 2)) ∧
      net'.idSlots supers
        = (countedFrom1 (((getAll net).length : Int) + 2 * supers.length)).map some := by
  have hv : ∀ h ∈ net.allReactants, h < net.objects.length := by
    intro h hh
    obtain ⟨r, hr⟩ := Option.isSome_iff_exists.1 (hvalid h hh)
    have hr' : net.objects[h]? = some r := hr
    exact (List.getElem?_eq_some.1 hr').1
  obtain ⟨objs1, e1, hlen1, hin1, hout1⟩ := resetIdsLoop_spec net.allReactants net 0 hv hnodup
  have hfind := (getAllOfType_super net supers).1 hsupers
  obtain ⟨objs2, e2, hlen2, hin2, hout2⟩ :=
    superMomentumLoop_spec supers
      { net with objects := objs1, networkSize := 0 + (net.allReactants.length : Int) }
      (0 + (net.allReactants.length : Int))
      (fun h hh => by
        show h < objs1.length
        rw [hlen1]; exact hv h (hsub h hh))
      hsnodup
  have hres : reinitializeNetwork net = ⟨none,
      { net with objects := objs2, networkSize := 0 + (net.allReactants.length : Int) }⟩ := by
    unfold reinitializeNetwork
    rw [e1]
    simp only [hfind, e2]
  have hsome : ∀ h ∈ net.allReactants, ∃ r, net.objects[h]? = some r :=
    fun h hh => Option.isSome_iff_exists.1 (hvalid h hh)
  have key1 : ∀ (i : Nat) (h : Handle), net.allReactants[i]? = some h → h ∉ supers →
      objs2[h]? = (net.objects[h]?).map (Reactant.renumbered ((i : Int) + 1)) := by
    intro i h hi hns
    rw [hout2 h hns]
    show objs1[h]? = _
    rw [hin1 i h hi, zero_add]
  have key2 : ∀ (i j : Nat) (h : Handle), net.allReactants[i]? = some h → supers[j]? = some h →
      objs2[h]? = (net.objects[h]?).map fun r =>
        (r.renumbered ((i : Int) + 1)).withMomentumIds
          ((net.allReactants.length : Int) + 2 * j + 1)
          ((net.allReactants.length : Int) + 2 * j + 2) := by
    intro i j h hi hj
    rw [hin2 j h hj]
    show Option.map _ objs1[h]? = _
    rw [hin1 i h hi, zero_add, zero_add, Option.map_map]
    rfl
  refine ⟨_, hres, rfl, ?_, ?_, key1, key2, ?_⟩
  · exact (getAllOfType_super _ supers).2 hfind
  · show (0 : Int) + (net.allReactants.length : Int) = _
    rw [zero_add]; rfl
  · unfold Network.idSlots
    rw [← counted_slots]
    congr 1
    · apply map_of_indexed
      intro i h hi
      obtain ⟨r, hr⟩ := hsome h (List.getElem?_mem hi)
      show (objs2[h]?).map (fun r => r.id) = _
      by_cases hs : h ∈ supers
      · obtain ⟨j, hj⟩ := List.mem_iff_getElem?.1 hs
        rw [key2 i j h hi hj, hr]
        rfl
      · rw [key1 i h hi hs, hr]
        rfl
    · apply flatMap_of_indexed
      intro j h hj
      obtain ⟨i, hi⟩ := List.mem_iff_getElem?.1 (hsub h (List.getElem?_mem hj))
      obtain ⟨r, hr⟩ := hsome h (List.getElem?_mem hi)
      show [(objs2[h]?).map (fun r => r.heMomentumId), (objs2[h]?).map (fun r => r.vMomentumId)]
        = _
      rw [key2 i j h hi hj, hr]
      rfl

set_option maxRecDepth 100000 in
/-- Witness of C14: the network with `He_1`, two super-clusters and `V_1` that
is left after the removal of an HeV cluster: the ids of the four clusters
become 1, 2, 3, 4 and the momentum ids of the two super-clusters 5, 6 and
7, 8. -/
theorem reinitializeNetwork_restores_dense_ids_witness :
    (∀ h ∈ getAll regroupedNetwork, (regroupedNetwork.deref h).isSome = true) ∧
      (getAll regroupedNetwork).Nodup ∧
      getAll regroupedNetwork = [0, 1, 3, 4] ∧
      getAllOfType regroupedNetwork superType = .ok [1, 3] ∧
      (getAll regroupedNetwork).map (fun h => (regroupedNetwork.deref h).map fun r => r.id)
        = [some 1, some 2, some 4, some 5] ∧
      (reinitializeNetwork regroupedNetwork).net.idSlots [1, 3]
        = [some 1, some 2, some 3, some 4, some 5, some 6, some 7, some 8] ∧
      ∃ net', reinitializeNetwork regroupedNetwork = ⟨none, net'⟩ ∧
        getAll net' = getAll regroupedNetwork ∧
        getAllOfType net' superType = .ok [1, 3] ∧
        net'.size = ((getAll regroupedNetwork).length : Int) ∧
        (∀ (i : Nat) (h : Handle), (getAll regroupedNetwork)[i]? = some h → h ∉ [1, 3] →
          net'.deref h = (regroupedNetwork.deref h).map (Reactant.renumbered ((i : Int) + 1))) ∧
        (∀ (i j : Nat) (h : Handle), (getAll regroupedNetwork)[i]? = some h →
          [1, 3][j]? = some h →
          net'.deref h = (regroupedNetwork.deref h).map fun r =>
            (r.renumbered ((i : Int) + 1)).withMomentumIds
              (((getAll regroupedNetwork).length : Int) + 2 * j + 1)
              (((getAll regroupedNetwork).length : Int) + 2 * j + 2)) ∧
        net'.idSlots [1, 3]
          = (countedFrom1 (((getAll regroupedNetwork).length : Int)
              + 2 * ([1, 3] : List Handle).length)).map some :=
  ⟨by decide, by decide, by decide, by rfl, by decide, by decide,
    reinitializeNetwork_restores_dense_ids regroupedNetwork [1, 3] (by decide) (by decide)
      (by rfl) (by decide) (by decide)⟩

/-! ## Concentration arrays -/

theorem dense_lists_coherent {net : Network} (hd : net.Dense) :
    (∀ h ∈ getAll net, (net.deref h).isSome = true) ∧ (getAll net).Nodup ∧
      getAllOfType net superType = .ok ((getAll net).filter (net.hasType .Super)) ∧
      ((getAll net).filter (net.hasType .Super)).Nodup ∧
      ∀ h ∈ (getAll net).filter (net.hasType .Super), h ∈ getAll net := by
  have hall : getAll net = List.range net.objects.length := hd.all
  have hnd : (getAll net).Nodup := by rw [hall]; exact List.nodup_range _
  refine ⟨?_, hnd, ?_, hnd.filter _, fun h hh => (List.mem_filter.1 hh).1⟩
  · intro h hh
    rw [hall, List.mem_range] at hh
    show (net.objects[h]?).isSome = true
    rw [List.getElem?_eq_getElem hh]
    rfl
  · rw [getAllOfType_super, hall]
    exact hd.lists .Super

theorem idsDense_run (calls : List Call) : (run Network.new calls).IdsDense := by
  obtain ⟨ho, hs, ha⟩ := run_new_objects calls
  refine ⟨?_, ?_⟩
  · rw [hs, ha, List.length_range]
  · intro i h hi
    rw [ha] at hi
    have hlt : i < (added Network.new calls).length := by
      by_contra hc
      rw [List.getElem?_eq_none (by rw [List.length_range]; exact Nat.le_of_not_lt hc)] at hi
      exact Option.noConfusion hi
    rw [List.getElem?_range hlt] at hi
    have hih : i = h := Option.some.inj hi
    subst hih
    rw [ho, getElem?_withIdsFrom, List.getElem?_eq_getElem hlt]
    exact ⟨_, rfl, by simp [Reactant.setId]⟩

theorem readSlot_of_id {x : List Rat} {id : Int} (h1 : 1 ≤ id) (h2 : id ≤ x.length) :
    readSlot x (id - 1) = some (x.getD (id - 1).toNat 0) := by
  have hlt : (id - 1).toNat < x.length := by omega
  unfold readSlot
  rw [if_pos (by omega), List.getD_eq_getElem?_getD, List.getElem?_eq_getElem hlt]
  rfl

theorem takeConcentration_idem (x : List Rat) (r : Reactant) :
    (r.takeConcentration x).takeConcentration x = r.takeConcentration x := rfl

theorem modify_eq_of_getElem? {α : Type} {f g : α → α} {l : List α} {n : Nat} {a : α}
    (h : l[n]? = some a) (hfg : f a = g a) : List.modify f n l = List.modify g n l := by
  apply List.ext_getElem?
  intro m
  rw [List.getElem?_modify, List.getElem?_modify]
  by_cases hnm : n = m
  · subst hnm
    rw [h]
    simp [hfg]
  · simp [hnm]

theorem updateConcentrationsLoop_spec (x : List Rat) : ∀ (l : List Handle) (net : Network),
    (∀ h ∈ l, ∃ r, net.objects[h]? = some r ∧ 1 ≤ r.id ∧ r.id ≤ x.length) →
    ∃ objs, updateConcentrationsLoop x net l = ⟨none, { net with objects := objs }⟩ ∧
      (∀ h ∈ l, objs[h]? = (net.objects[h]?).map (Reactant.takeConcentration x)) ∧
      (∀ h, h ∉ l → objs[h]? = net.objects[h]?) := by
  intro l
  induction l with
  | nil =>
    intro net _
    exact ⟨net.objects, rfl, fun h hh => absurd hh (List.not_mem_nil h), fun _ _ => rfl⟩
  | cons it rest ih =>
    intro net hvalid
    obtain ⟨r0, hr0, h1, h2⟩ := hvalid it (List.mem_cons_self _ _)
    have hstep : updateConcentrationsLoop x net (it :: rest) =
        updateConcentrationsLoop x (net.modifyObject it (Reactant.takeConcentration x)) rest := by
      simp only [updateConcentrationsLoop, hr0, readSlot_of_id h1 h2]
      congr 1
      simp only [Network.modifyObject]
      congr 1
      exact modify_eq_of_getElem? hr0 rfl
    have hobj : ∀ h, (net.modifyObject it (Reactant.takeConcentration x)).objects[h]? =
        (net.objects[h]?).map fun a => if it = h then a.takeConcentration x else a :=
      fun h => getElem?_modifyObject net it h _
    obtain ⟨objs, e, hin, hout⟩ :=
      ih (net.modifyObject it (Reactant.takeConcentration x)) (by
        intro h hh
        obtain ⟨r, hr, h1', h2'⟩ := hvalid h (List.mem_cons_of_mem _ hh)
        rw [hobj h, hr]
        by_cases hih : it = h
        · exact ⟨r.takeConcentration x, by simp [hih], h1', h2'⟩
        · exact ⟨r, by simp [hih], h1', h2'⟩)
    refine ⟨objs, hstep.trans e, ?_, ?_⟩
    · intro h hh
      by_cases hr : h ∈ rest
      · rw [hin h hr, hobj h, Option.map_map]
        congr 1
        funext a
        by_cases hih : it = h
        · simp [hih, Function.comp, takeConcentration_idem]
        · simp [hih, Function.comp]
      · have hih : it = h := by
          rcases List.mem_cons.1 hh with e1 | e1
          · exact e1.symm
          · exact absurd e1 hr
        rw [hout h hr, hobj h]
        simp [hih]
    · intro h hh
      have hih : it ≠ h := fun e1 => hh (e1 ▸ List.mem_cons_self _ _)
      rw [hout h (fun hm => hh (List.mem_cons_of_mem _ hm)), hobj h]
      simp [hih]

theorem set_take_succ (arr : List Rat) (base : Nat) (c : Rat) (h : base < arr.length) :
    (arr.set base c).take (base + 1) = arr.take base ++ [c] := by
  rw [List.set_eq_take_append_cons_drop, if_pos h]
  simp [List.take_append_eq_append_take, List.length_take, Nat.min_eq_left (Nat.le_of_lt h)]

theorem fillConcentrationsLoop_spec (net : Network) :
    ∀ (l : List Handle) (arr : List Rat) (base : Nat),
    (∀ (i : Nat) (h : Handle), l[i]? = some h →
      ∃ r, net.objects[h]? = some r ∧ r.id = (base : Int) + i + 1) →
    base + l.length ≤ arr.length →
    fillConcentrationsLoop net arr l = .ok (arr.take base ++
      l.map (fun h => ((net.objects[h]?).map fun r => r.concentration).getD 0) ++
      arr.drop (base + l.length)) := by
  intro l
  induction l with
  | nil =>
    intro arr base _ _
    simp [fillConcentrationsLoop]
  | cons it rest ih =>
    intro arr base hid hlen
    obtain ⟨r0, hr0, hid0⟩ := hid 0 it (by simp)
    have hlen' : base + (rest.length + 1) ≤ arr.length := hlen
    have hb : base < arr.length := by omega
    have hslot : writeSlot arr (r0.id - 1) r0.concentration
        = some (arr.set base r0.concentration) := by
      have e1 : r0.id - 1 = (base : Int) := by rw [hid0]; simp
      rw [e1]
      unfold writeSlot
      rw [if_pos ⟨by omega, by simpa using hb⟩]
      simp
    have hstep : fillConcentrationsLoop net arr (it :: rest) =
        fillConcentrationsLoop net (arr.set base r0.concentration) rest := by
      simp only [fillConcentrationsLoop, hr0, hslot]
    rw [hstep, ih (arr.set base r0.concentration) (base + 1) (by
        intro i h hi
        obtain ⟨r, hr, hidr⟩ := hid (i + 1) h (by simpa using hi)
        exact ⟨r, hr, by rw [hidr]; push_cast; ring⟩)
      (by rw [List.length_set]; omega)]
    rw [set_take_succ arr base _ hb, List.drop_set_of_lt _ _ (by omega)]
    simp only [List.map_cons, hr0, Option.map_some', Option.getD_some, List.append_assoc,
      List.singleton_append, List.cons_append]
    have e3 : base + 1 + rest.length = base + (it :: rest).length := by
      simp only [List.length_cons]; omega
    rw [e3, List.nil_append]

theorem list_eq_map_getD (x : List Rat) :
    x = (List.range x.length).map (fun i => x.getD i 0) := by
  apply List.ext_getElem?
  intro n
  rw [List.getElem?_map]
  by_cases hn : n < x.length
  · rw [List.getElem?_range hn, List.getElem?_eq_getElem hn]
    simp [List.getD_eq_getElem?_getD, List.getElem?_eq_getElem hn]
  · rw [List.getElem?_eq_none (Nat.le_of_not_lt hn),
      List.getElem?_eq_none (by rw [List.length_range]; exact Nat.le_of_not_lt hn)]
    rfl

/-- C20: on a network with dense ids and `n = size()` clusters, for every
array `x` of `n` values, `updateConcentrationsFromArray(x)` returns, and
`fillConcentrationsArray` called next on any array of `n` values returns an
array equal to `x`; every cluster of the full list then holds the value of the
slot `id - 1` of `x` as its concentration and is otherwise as it was. -/
theorem concentration_round_trip (net : Network) (hdense : net.IdsDense)
    (x buffer : List Rat) (hx : (x.length : Int) = net.size)
    (hb : buffer.length = x.length) :
    ∃ net', updateConcentrationsFromArray net x = ⟨none, net'⟩ ∧
      fillConcentrationsArray net' buffer = .ok x ∧
      (∀ h ∈ getAll net', ∃ r, net'.deref h = some r ∧
        readSlot x (r.id - 1) = some r.concentration) ∧
      (∀ h ∈ getAll net, net'.deref h = (net.deref h).map fun r =>
        r.setConcentration (x.getD (r.id - 1).toNat 0)) ∧
      getAll net' = getAll net ∧ net'.size = net.size := by
  obtain ⟨hsize, hids⟩ := hdense
  have hxn : x.length = net.allReactants.length := by
    have : (x.length : Int) = (net.allReactants.length : Int) := hx.trans hsize
    exact_mod_cast this
  have hvalid : ∀ h ∈ net.allReactants,
      ∃ r, net.objects[h]? = some r ∧ 1 ≤ r.id ∧ r.id ≤ x.length := by
    intro h hh
    obtain ⟨i, hi⟩ := List.mem_iff_getElem?.1 hh
    obtain ⟨r, hr, hid⟩ := hids i h hi
    have hlt : i < net.allReactants.length := (List.getElem?_eq_some.1 hi).1
    exact ⟨r, hr, by omega, by omega⟩
  obtain ⟨objs, e, hin, hout⟩ := updateConcentrationsLoop_spec x net.allReactants net hvalid
  have hat : ∀ (i : Nat) (h : Handle), net.allReactants[i]? = some h →
      ∃ r, net.objects[h]? = some r ∧ r.id = (i : Int) + 1 ∧
        objs[h]? = some (r.takeConcentration x) := by
    intro i h hi
    obtain ⟨r, hr, hid⟩ := hids i h hi
    exact ⟨r, hr, hid, by rw [hin h (List.getElem?_mem hi), hr]; rfl⟩
  refine ⟨{ net with objects := objs }, e, ?_, ?_, ?_, rfl, rfl⟩
  · unfold fillConcentrationsArray
    rw [fillConcentrationsLoop_spec { net with objects := objs } net.allReactants buffer 0
      (by
        intro i h hi
        obtain ⟨r, -, hid, ho⟩ := hat i h hi
        exact ⟨r.takeConcentration x, ho, by rw [Nat.cast_zero, zero_add]; exact hid⟩)
      (by omega)]
    congr 1
    rw [List.take_zero, List.nil_append, List.drop_of_length_le (by omega), List.append_nil]
    rw [map_of_indexed net.allReactants _ (fun i => x.getD i 0), ← hxn]
    · exact (list_eq_map_getD x).symm
    · intro i h hi
      obtain ⟨r, -, hid, ho⟩ := hat i h hi
      show ((objs[h]?).map fun r => r.concentration).getD 0 = _
      rw [ho]
      show x.getD (r.id - 1).toNat 0 = _
      rw [hid]
      simp
  · intro h hh
    obtain ⟨i, hi⟩ := List.mem_iff_getElem?.1 hh
    obtain ⟨r, -, hid, ho⟩ := hat i h hi
    have hlt : i < net.allReactants.length := (List.getElem?_eq_some.1 hi).1
    refine ⟨r.takeConcentration x, ho, ?_⟩
    exact @readSlot_of_id x r.id (by omega) (by omega)
  · intro h hh
    exact hin h hh

set_option maxRecDepth 100000 in
/-- Witness of C20: on the network with `He_1`, `He_2` and three HeV clusters,
a fresh network fills the array with zeros, after the update from an array of
ones every concentration is 1, and the array that is filled next is the array
of ones. -/
theorem concentration_round_trip_witness :
    heVChainNetwork.IdsDense ∧
      heVChainNetwork.size = 5 ∧
      fillConcentrationsArray heVChainNetwork [9, 9, 9, 9, 9] = .ok [0, 0, 0, 0, 0] ∧
      (getAll heVChainNetwork).map (fun h =>
          ((updateConcentrationsFromArray heVChainNetwork [1, 1, 1, 1, 1]).net.deref h).map
            fun r => r.concentration)
        = [some 1, some 1, some 1, some 1, some 1] ∧
      fillConcentrationsArray
          (updateConcentrationsFromArray heVChainNetwork [2, 3, 5, 7, 11]).net [0, 0, 0, 0, 0]
        = .ok [2, 3, 5, 7, 11] ∧
      ∃ net', updateConcentrationsFromArray heVChainNetwork [1, 1, 1, 1, 1] = ⟨none, net'⟩ ∧
        fillConcentrationsArray net' [0, 0, 0, 0, 0] = .ok [1, 1, 1, 1, 1] ∧
        (∀ h ∈ getAll net', ∃ r, net'.deref h = some r ∧
          readSlot [1, 1, 1, 1, 1] (r.id - 1) = some r.concentration) ∧
        (∀ h ∈ getAll heVChainNetwork, net'.deref h = (heVChainNetwork.deref h).map fun r =>
          r.setConcentration (([1, 1, 1, 1, 1] : List Rat).getD (r.id - 1).toNat 0)) ∧
        getAll net' = getAll heVChainNetwork ∧ net'.size = heVChainNetwork.size :=
  ⟨idsDense_run _, by decide, by rfl, by rfl, by rfl,
    concentration_round_trip heVChainNetwork (idsDense_run _) [1, 1, 1, 1, 1] [0, 0, 0, 0, 0]
      (by decide) (by decide)⟩

/-! ## A change of temperature -/

theorem skeleton_setTemperature (laws : RateLaws) (temp : Rat) (r : Reactant) :
    (r.setTemperature laws temp).skeleton = r.skeleton := rfl

theorem skeleton_updateRateConstants (laws : RateLaws) (objects : List Reactant)
    (r : Reactant) : (PSICluster.updateRateConstants laws objects r).skeleton = r.skeleton := by
  simp only [PSICluster.updateRateConstants, Reactant.skeleton, List.map_map]
  rfl

theorem partners_skeleton (r : Reactant) : r.skeleton.partners = r.partners := by
  simp only [Reactant.partners, Reactant.skeleton, List.map_map]
  rfl

theorem skeleton_modifyObject (net : Network) (h : Handle) (f : Reactant → Reactant)
    (hf : ∀ r, (f r).skeleton = r.skeleton) :
    (net.modifyObject h f).skeleton = net.skeleton := by
  have e : (net.objects.modify f h).map Reactant.skeleton = net.objects.map Reactant.skeleton := by
    apply List.ext_getElem?
    intro m
    rw [List.getElem?_map, List.getElem?_map, List.getElem?_modify]
    cases net.objects[m]? with
    | none => rfl
    | some a =>
      by_cases hm : h = m
      · simp [hm, hf]
      · simp [hm]
  simp only [Network.skeleton, Network.modifyObject, e]

theorem skeleton_updateAt (net : Network) (i : Nat) (f : Reactant → Reactant)
    (hf : ∀ r, (f r).skeleton = r.skeleton) : (net.updateAt i f).net.skeleton = net.skeleton := by
  unfold Network.updateAt
  cases net.allReactants[i]? with
  | none => rfl
  | some cluster =>
    dsimp only
    cases net.objects[cluster]? with
    | none => rfl
    | some _ => exact skeleton_modifyObject net cluster f hf

theorem skeleton_forIndices (body : Network → Nat → Result)
    (hbody : ∀ net i, (body net i).net.skeleton = net.skeleton) :
    ∀ (l : List Nat) (net : Network), (forIndices body net l).net.skeleton = net.skeleton := by
  intro l
  induction l with
  | nil => intro net; rfl
  | cons i rest ih =>
    intro net
    simp only [forIndices, Result.andThen]
    cases ht : (body net i).thrown with
    | some e => simp only [ht]; exact hbody net i
    | none => simp only [ht]; rw [ih, hbody]

theorem skeleton_setTemperatureNetwork (laws : RateLaws) (net : Network) (temp : Rat) :
    (setTemperature laws net temp).net.skeleton = net.skeleton := by
  have h1 : (ReactionNetwork.setTemperature laws net temp).net.skeleton = net.skeleton := by
    unfold ReactionNetwork.setTemperature
    rw [skeleton_forIndices _ (fun n i => skeleton_updateAt n i _ (skeleton_setTemperature laws temp))]
    rfl
  unfold setTemperature
  simp only [Result.andThen]
  cases ht : (ReactionNetwork.setTemperature laws net temp).thrown with
  | some e => simp only [ht]; exact h1
  | none =>
    simp only [ht]
    rw [skeleton_forIndices _
      (fun n i => skeleton_updateAt n i _ (skeleton_updateRateConstants laws n.objects)), h1]

/-- What a loop of calls through the pointers `allReactants->at(i)` keeps, and
that it returns when every position is in the list and every pointer is
valid. -/
theorem forIndices_updateAt_ok (F : Network → Reactant → Reactant) :
    ∀ (l : List Nat) (net : Network),
    (∀ i ∈ l, ∃ h, net.allReactants[i]? = some h ∧ h < net.objects.length) →
    (forIndices (fun net i => net.updateAt i (F net)) net l).thrown = none ∧
      (forIndices (fun net i => net.updateAt i (F net)) net l).net.allReactants
        = net.allReactants ∧
      (forIndices (fun net i => net.updateAt i (F net)) net l).net.objects.length
        = net.objects.length ∧
      (forIndices (fun net i => net.updateAt i (F net)) net l).net.networkSize
        = net.networkSize ∧
      (forIndices (fun net i => net.updateAt i (F net)) net l).net.temperature
        = net.temperature := by
  intro l
  induction l with
  | nil => intro net _; exact ⟨rfl, rfl, rfl, rfl, rfl⟩
  | cons i rest ih =>
    intro net hvalid
    obtain ⟨h, hi, hlt⟩ := hvalid i (List.mem_cons_self _ _)
    have hstep : net.updateAt i (F net) = ⟨none, net.modifyObject h (F net)⟩ := by
      unfold Network.updateAt
      rw [hi]
      dsimp only
      rw [List.getElem?_eq_getElem hlt]
    have hnext := ih (net.modifyObject h (F net)) (by
      intro j hj
      obtain ⟨h', hj', hlt'⟩ := hvalid j (List.mem_cons_of_mem _ hj)
      exact ⟨h', hj', by rw [length_modifyObject]; exact hlt'⟩)
    simp only [forIndices, Result.andThen, hstep]
    rw [length_modifyObject] at hnext
    exact hnext

theorem identity_skeleton (r : Reactant) : r.skeleton.identity = r.identity := rfl

theorem map_of_skeleton {β : Type} {a b : Network} (hs : a.skeleton = b.skeleton)
    (P : Reactant → β) (hP : ∀ r, P r.skeleton = P r) (h : Handle) :
    (a.deref h).map P = (b.deref h).map P := by
  have ho : a.objects.map Reactant.skeleton = b.objects.map Reactant.skeleton :=
    congrArg Network.objects hs
  have hh := congrArg (fun l => (l[h]?).map P) ho
  simp only [List.getElem?_map, Option.map_map] at hh
  have hc : P ∘ Reactant.skeleton = P := funext hP
  rw [hc] at hh
  exact hh

/-- C17: for every choice of rate laws, every network and every temperature,
the network `setTemperature` leaves differs from the network before the call
at most in the rate constants, the effective lists, the temperature and the
diffusion coefficient: `getAll()`, `size()`, the properties, the three
composition maps and the map of the type vectors are as before; every cluster
has its type, size, composition, id, momentum ids and concentration as before;
and the clusters listed in its reacting pairs, combining reactants,
dissociating pairs and emission pairs are as before, in the same order.  If
`size()` is at most the length of the full list and every pointer of the list
is valid, the call returns and the network holds the temperature. -/
theorem setTemperature_keeps_structure (laws : RateLaws) (net : Network) (temp : Rat) :
    (setTemperature laws net temp).net.skeleton = net.skeleton ∧
      getAll (setTemperature laws net temp).net = getAll net ∧
      (setTemperature laws net temp).net.size = net.size ∧
      (setTemperature laws net temp).net.properties = net.properties ∧
      (setTemperature laws net temp).net.singleSpeciesMap = net.singleSpeciesMap ∧
      (setTemperature laws net temp).net.mixedSpeciesMap = net.mixedSpeciesMap ∧
      (setTemperature laws net temp).net.superSpeciesMap = net.superSpeciesMap ∧
      (setTemperature laws net temp).net.clusterTypeMap = net.clusterTypeMap ∧
      (∀ h : Handle, ((setTemperature laws net temp).net.deref h).map Reactant.identity
        = (net.deref h).map Reactant.identity) ∧
      (∀ h : Handle, ((setTemperature laws net temp).net.deref h).map Reactant.partners
        = (net.deref h).map Reactant.partners) ∧
      (net.size ≤ ((getAll net).length : Int) →
        (∀ h ∈ getAll net, (net.deref h).isSome = true) →
        (setTemperature laws net temp).thrown = none ∧
          getTemperature (setTemperature laws net temp).net = temp) := by
  have hs := skeleton_setTemperatureNetwork laws net temp
  have h1 : (setTemperature laws net temp).net.skeleton.allReactants
      = net.skeleton.allReactants := congrArg Network.allReactants hs
  have h2 : (setTemperature laws net temp).net.skeleton.networkSize
      = net.skeleton.networkSize := congrArg Network.networkSize hs
  have h3 : (setTemperature laws net temp).net.skeleton.properties
      = net.skeleton.properties := congrArg Network.properties hs
  have h4 : (setTemperature laws net temp).net.skeleton.singleSpeciesMap
      = net.skeleton.singleSpeciesMap := congrArg Network.singleSpeciesMap hs
  have h5 : (setTemperature laws net temp).net.skeleton.mixedSpeciesMap
      = net.skeleton.mixedSpeciesMap := congrArg Network.mixedSpeciesMap hs
  have h6 : (setTemperature laws net temp).net.skeleton.superSpeciesMap
      = net.skeleton.superSpeciesMap := congrArg Network.superSpeciesMap hs
  have h7 : (setTemperature laws net temp).net.skeleton.clusterTypeMap
      = net.skeleton.clusterTypeMap := congrArg Network.clusterTypeMap hs
  refine ⟨hs, h1, h2, h3, h4, h5, h6, h7, map_of_skeleton hs _ identity_skeleton,
    map_of_skeleton hs _ partners_skeleton, ?_⟩
  intro hsize hvalid
  have hv : ∀ (n : Network), n.allReactants = net.allReactants →
      n.objects.length = net.objects.length → n.networkSize = net.networkSize →
      ∀ i ∈ List.range n.networkSize.toNat,
        ∃ h, n.allReactants[i]? = some h ∧ h < n.objects.length := by
    intro n ha ho hn i hi
    rw [hn, List.mem_range] at hi
    have hsize' : net.networkSize ≤ (net.allReactants.length : Int) := hsize
    have hlt : i < net.allReactants.length := by omega
    refine ⟨net.allReactants[i], by rw [ha]; exact List.getElem?_eq_getElem hlt, ?_⟩
    obtain ⟨r, hr⟩ := Option.isSome_iff_exists.1
      (hvalid net.allReactants[i] (List.getElem_mem hlt))
    have hr' : net.objects[net.allReactants[i]]? = some r := hr
    rw [ho]
    exact (List.getElem?_eq_some.1 hr').1
  obtain ⟨t1, a1, o1, n1, p1⟩ :=
    forIndices_updateAt_ok (fun _ => Reactant.setTemperature laws temp)
      (List.range net.networkSize.toNat) { net with temperature := temp }
      (hv { net with temperature := temp } rfl rfl rfl)
  have e1 : ReactionNetwork.setTemperature laws net temp =
      forIndices (fun net i => net.updateAt i (Reactant.setTemperature laws temp))
        { net with temperature := temp } (List.range net.networkSize.toNat) := rfl
  obtain ⟨t2, a2, o2, n2, p2⟩ :=
    forIndices_updateAt_ok (fun n => PSICluster.updateRateConstants laws n.objects)
      (List.range (ReactionNetwork.setTemperature laws net temp).net.networkSize.toNat)
      (ReactionNetwork.setTemperature laws net temp).net
      (hv _ (by rw [e1]; exact a1) (by rw [e1]; exact o1) (by rw [e1]; exact n1))
  have e2 : setTemperature laws net temp =
      forIndices (fun n i => n.updateAt i (PSICluster.updateRateConstants laws n.objects))
        (ReactionNetwork.setTemperature laws net temp).net
        (List.range (ReactionNetwork.setTemperature laws net temp).net.networkSize.toNat) := by
    unfold setTemperature
    rw [Result.andThen_of_ok _ (by rw [e1]; exact t1)]
  rw [e2]
  refine ⟨t2, ?_⟩
  show Network.temperature _ = temp
  rw [p2, e1, p1]

set_option maxRecDepth 100000 in
/-- Witness of C17: in the network with `He_1`, `He_2` and `He_3` where `He_3`
has built its reaction connectivity, `setTemperature(1000)` returns, the
reacting pair of `He_3` still joins `He_1` and `He_2` and now carries the rate
constant the law gives, and the pair is effective. -/
theorem setTemperature_keeps_structure_witness :
    (connectedHeliumNetwork.deref 2).map (fun r => r.reactingPairs)
        = some [{ first := 0, second := 1, kConstant := 0 }] ∧
      ((setTemperature exampleLaws connectedHeliumNetwork 1000).net.deref 2).map
          (fun r => (r.reactingPairs, r.effReactingPairs))
        = some ([{ first := 0, second := 1, kConstant := 1000 }], [0]) ∧
      ((setTemperature exampleLaws connectedHeliumNetwork 0).net.deref 2).map
          (fun r => (r.reactingPairs, r.effReactingPairs))
        = some ([{ first := 0, second := 1, kConstant := 0 }], []) ∧
      ((setTemperature exampleLaws connectedHeliumNetwork 1000).net.deref 2).map
          Reactant.partners
        = (connectedHeliumNetwork.deref 2).map Reactant.partners ∧
      ((setTemperature exampleLaws connectedHeliumNetwork 1000).thrown = none ∧
        getTemperature (setTemperature exampleLaws connectedHeliumNetwork 1000).net = 1000) :=
  ⟨by rfl, by rfl, by rfl,
    (setTemperature_keeps_structure exampleLaws connectedHeliumNetwork 1000).2.2.2.2.2.2.2.2.2.1 2,
    (setTemperature_keeps_structure exampleLaws connectedHeliumNetwork 1000).2.2.2.2.2.2.2.2.2.2
      (by decide) (by decide)⟩

/-! ## Dissociation connectivity of a helium cluster -/

theorem appendDissociating_nil (r : Reactant) : r.appendDissociating [] = r := by
  simp [Reactant.appendDissociating]

theorem appendDissociating_comp (a b : List ClusterPair) :
    Reactant.appendDissociating b ∘ Reactant.appendDissociating a
      = Reactant.appendDissociating (a ++ b) := by
  funext r
  simp [Reactant.appendDissociating]

theorem heVPairFor_modify (net : Network) (self : Handle) (pairs : List ClusterPair)
    (cluster : Handle) :
    heVPairFor (net.modifyObject self (Reactant.appendDissociating pairs)) cluster
      = heVPairFor net cluster := by
  unfold heVPairFor
  rw [getElem?_modifyObject]
  cases net.objects[cluster]? with
  | none => rfl
  | some c => by_cases h : self = cluster <;> simp [h, Reactant.appendDissociating] <;> rfl

/-- One turn of the loop over the HeV clusters. -/
theorem dissociateHeV_eq (self : Handle) (allHeVReactants : List Handle) (net : Network)
    (i : Nat) (cluster : Handle) (c : Reactant) (hi : allHeVReactants[i]? = some cluster)
    (hc : net.objects[cluster]? = some c) :
    HeCluster.dissociateHeV self allHeVReactants net i =
      ⟨none, net.modifyObject self
        (Reactant.appendDissociating (heVPairFor net cluster).toList)⟩ := by
  unfold HeCluster.dissociateHeV heVPairFor
  simp only [hi, hc]
  have hg : getCompound net "HeV"
      [c.composition.lessHe.he, c.composition.lessHe.v, c.composition.lessHe.i]
      = .ok (StdMap.find net.mixedSpeciesMap c.composition.lessHe) := by
    rw [getCompound_eq, if_pos ⟨Or.inl rfl, rfl⟩]
    rfl
  rw [hg]
  cases StdMap.find net.mixedSpeciesMap c.composition.lessHe with
  | none =>
    simp only [PSICluster.dissociateCluster, Option.toList]
    rw [modifyObject_of_fixed _ _ _ appendDissociating_nil]
  | some smaller => rfl

theorem forIndices_dissociateHeV (self : Handle) (allHeVReactants : List Handle) :
    ∀ (indices : List Nat) (net : Network),
    (∀ i ∈ indices, i < allHeVReactants.length) →
    (∀ cluster ∈ allHeVReactants, ∃ c, net.objects[cluster]? = some c) →
    forIndices (HeCluster.dissociateHeV self allHeVReactants) net indices =
      ⟨none, net.modifyObject self (Reactant.appendDissociating
        ((indices.filterMap fun i => allHeVReactants[i]?).filterMap (heVPairFor net)))⟩ := by
  intro indices
  induction indices with
  | nil =>
    intro net _ _
    simp [forIndices, modifyObject_of_fixed _ _ _ appendDissociating_nil]
  | cons i rest ih =>
    intro net hidx hvalid
    have hlt : i < allHeVReactants.length := hidx i (List.mem_cons_self _ _)
    have hi : allHeVReactants[i]? = some allHeVReactants[i] := List.getElem?_eq_getElem hlt
    obtain ⟨c, hc⟩ := hvalid _ (List.getElem_mem hlt)
    unfold forIndices
    rw [dissociateHeV_eq self allHeVReactants net i _ c hi hc, Result.andThen_of_ok _ rfl]
    simp only
    rw [ih _ (fun j hj => hidx j (List.mem_cons_of_mem _ hj)) (by
      intro cluster hcl
      obtain ⟨c', hc'⟩ := hvalid cluster hcl
      rw [getElem?_modifyObject, hc']
      exact ⟨_, rfl⟩)]
    rw [modifyObject_modifyObject, appendDissociating_comp]
    have hf : (fun cl => heVPairFor (net.modifyObject self (Reactant.appendDissociating
        (heVPairFor net allHeVReactants[i]).toList)) cl) = heVPairFor net :=
      funext fun cl => heVPairFor_modify net self _ cl
    simp only [List.filterMap_cons, hi]
    rw [show heVPairFor (net.modifyObject self (Reactant.appendDissociating
        (heVPairFor net allHeVReactants[i]).toList)) = heVPairFor net from hf]
    cases h : heVPairFor net allHeVReactants[i] <;> simp [h]

theorem filterMap_range_getElem? {α : Type} (l : List α) :
    (List.range l.length).filterMap (fun i => l[i]?) = l := by
  have h := map_range_getElem? l
  have e : (List.range l.length).filterMap (fun i => l[i]?)
      = ((List.range l.length).map (fun i => l[i]?)).filterMap id := by
    rw [List.filterMap_map]; rfl
  rw [e, h, List.filterMap_map]
  simp

/-- The loop over the HeV clusters pushes, for every HeV cluster of the list
whose composition with one helium atom less is the key of a mixed cluster, the
pair of this cluster and of the smaller one, in the order of the list, and
nothing else. -/
theorem heVPass_eq (self : Handle) (net : Network) (allHeVReactants : List Handle)
    (hvalid : ∀ cluster ∈ allHeVReactants, ∃ c, net.objects[cluster]? = some c) :
    HeCluster.heVPass self net allHeVReactants =
      ⟨none, net.modifyObject self
        (Reactant.appendDissociating (allHeVReactants.filterMap (heVPairFor net)))⟩ := by
  unfold HeCluster.heVPass
  rw [forIndices_dissociateHeV self allHeVReactants _ net
    (fun i hi => List.mem_range.1 hi) hvalid, filterMap_range_getElem?]

theorem emitClusters_objects (self : Handle) (net : Network) (a b : Option Handle)
    (h : Handle) :
    ∃ pairs : List ClusterPair, (PSICluster.emitClusters self net a b).objects[h]? =
      (net.objects[h]?).map fun r =>
        if self = h then { r with emissionPairs := r.emissionPairs ++ pairs } else r := by
  unfold PSICluster.emitClusters
  cases a with
  | none => exact ⟨[], by simp⟩
  | some first =>
    cases b with
    | none => exact ⟨[], by simp⟩
    | some second => exact ⟨[{ first := first, second := second }], getElem?_modifyObject _ _ _ _⟩

/-- A helium cluster of a size other than 1 runs the base-class function only,
which leaves the dissociating pairs of every cluster as they were. -/
theorem createDissociationConnectivity_larger (net : Network) (self : Handle)
    (this : Reactant) (hself : net.objects[self]? = some this) (hsize : this.size ≠ 1) :
    HeCluster.createDissociationConnectivity net self
        = PSICluster.createDissociationConnectivity net self ∧
      (HeCluster.createDissociationConnectivity net self).thrown = none ∧
      ∀ h : Handle,
        ((HeCluster.createDissociationConnectivity net self).net.objects[h]?).map
            (fun r => r.dissociatingPairs)
          = (net.objects[h]?).map fun r => r.dissociatingPairs := by
  have hbase : PSICluster.createDissociationConnectivity net self =
      ⟨none, PSICluster.emitClusters self net
        (if (this.typeName.name = heType ∨ this.typeName.name = vType
            ∨ this.typeName.name = iType) ∧ (1 : Int) ≥ 1 then
          StdMap.find net.singleSpeciesMap
            (Composition.setKey { he := 0, v := 0, i := 0 } this.typeName.name 1)
        else none)
        (if (this.typeName.name = heType ∨ this.typeName.name = vType
            ∨ this.typeName.name = iType) ∧ this.size - 1 ≥ 1 then
          StdMap.find net.singleSpeciesMap
            (Composition.setKey { he := 0, v := 0, i := 0 } this.typeName.name (this.size - 1))
        else none)⟩ := by
    unfold PSICluster.createDissociationConnectivity
    simp only [hself, get_eq]
  have hobj := emitClusters_objects self net
    (if (this.typeName.name = heType ∨ this.typeName.name = vType
        ∨ this.typeName.name = iType) ∧ (1 : Int) ≥ 1 then
      StdMap.find net.singleSpeciesMap
        (Composition.setKey { he := 0, v := 0, i := 0 } this.typeName.name 1)
    else none)
    (if (this.typeName.name = heType ∨ this.typeName.name = vType
        ∨ this.typeName.name = iType) ∧ this.size - 1 ≥ 1 then
      StdMap.find net.singleSpeciesMap
        (Composition.setKey { he := 0, v := 0, i := 0 } this.typeName.name (this.size - 1))
    else none)
  have hmain : HeCluster.createDissociationConnectivity net self
      = PSICluster.createDissociationConnectivity net self := by
    unfold HeCluster.createDissociationConnectivity
    rw [hbase, Result.andThen_of_ok _ rfl]
    simp only
    obtain ⟨pairs, hp⟩ := hobj self
    rw [hp, hself]
    simp only [Option.map_some', if_true]
    rw [if_neg hsize]
  refine ⟨hmain, by rw [hmain, hbase], ?_⟩
  intro h
  rw [hmain, hbase]
  obtain ⟨pairs, hp⟩ := hobj h
  simp only
  rw [hp]
  cases net.objects[h]? with
  | none => rfl
  | some r => by_cases hh : self = h <;> simp [hh]

set_option maxRecDepth 100000 in
/-- C18: in the network with `He_1` (pointer 0), `HeV(1,1)` (1), `HeV(1,2)`
(2), `HeI(1,1)` (3) and `HeI(2,1)` (4), the dissociation connectivity of
`He_1` is built without a throw and records one dissociating pair: the
co-emitted cluster is `HeI(1,1)`, the composition of `HeI(2,1)` with one helium
atom less, and the parent is `HeV(1,2)`, the cluster at the position of
`HeI(2,1)` in the list of the HeV clusters, and not `HeI(2,1)`.  In the network
with `He_1` and `HeI(1,1)` and no HeV cluster the function throws
`std::out_of_range`. -/
theorem heI_pass_records_heV_parent :
    getAllOfType dissociationNetwork "HeV" = .ok [1, 2] ∧
      getAllOfType dissociationNetwork "HeI" = .ok [3, 4] ∧
      (dissociationNetwork.deref 2).map (fun r => (r.typeName, r.composition))
        = some (.HeV, { he := 1, v := 2, i := 0 }) ∧
      (dissociationNetwork.deref 3).map (fun r => (r.typeName, r.composition))
        = some (.HeI, { he := 1, v := 0, i := 1 }) ∧
      (dissociationNetwork.deref 4).map (fun r => (r.typeName, r.composition))
        = some (.HeI, { he := 2, v := 0, i := 1 }) ∧
      (HeCluster.createDissociationConnectivity dissociationNetwork 0).thrown = none ∧
      ((HeCluster.createDissociationConnectivity dissociationNetwork 0).net.deref 0).map
          (fun r => r.dissociatingPairs) = some [{ first := 2, second := 3 }] ∧
      (HeCluster.createDissociationConnectivity heINetwork 0).thrown
        = some .out_of_range := by
  refine ⟨by rfl, by rfl, by decide, by decide, by decide, by decide, by decide, by decide⟩

set_option maxRecDepth 100000 in
/-- C19: in the network with `He_1` (pointer 0), `HeV(1,1)` (1), `HeV(1,2)`
(2), `HeI(1,1)` (3) and `HeI(2,1)` (4), no mixed cluster of the composition
(0, 2, 0) is stored, yet after `He_1` has built its dissociation connectivity
a dissociating pair has `HeV(1,2)` as its parent.  Without HeI clusters, in the
network with `He_1`, `He_2`, `HeV(1,1)` (2), `HeV(2,1)` (3) and `HeV(3,1)` (4),
the pairs of `He_1` are (parent `HeV(2,1)`, co-emitted `HeV(1,1)`) and (parent
`HeV(3,1)`, co-emitted `HeV(2,1)`), and `He_2` records no dissociating
pair. -/
theorem skipped_heV_cluster_is_recorded_as_parent :
    getCompound dissociationNetwork "HeV" [0, 2, 0] = .ok none ∧
      (((HeCluster.createDissociationConnectivity dissociationNetwork 0).net.deref 0).map
          fun r => r.dissociatingPairs.map fun p => p.first) = some [2] ∧
      (HeCluster.createDissociationConnectivity heVChainNetwork 0).thrown = none ∧
      ((HeCluster.createDissociationConnectivity heVChainNetwork 0).net.deref 0).map
          (fun r => r.dissociatingPairs)
        = some [{ first := 3, second := 2 }, { first := 4, second := 3 }] ∧
      (HeCluster.createDissociationConnectivity heVChainNetwork 1).thrown = none ∧
      ((HeCluster.createDissociationConnectivity heVChainNetwork 1).net.deref 1).map
          (fun r => r.dissociatingPairs) = some [] := by
  refine ⟨by rfl, by decide, by decide, by decide, by decide, by decide⟩

/-! ## The family name handed to `getCompound` -/

/-- C30: `getCompound` does not look at which of the two mixed family names it
is handed: for every network and every vector of sizes `getCompound("HeV", s)`
and `getCompound("HeI", s)` return the same pointer, the entry of the mixed
map under the composition `s` when `s` has three entries and there is such an
entry, and a null pointer otherwise; in a network that satisfies the
representation invariant the cluster returned has the composition `s`.  In
the network of `checkProperties`, `getCompound("HeI", [5, 3, 0])` returns the
cluster `HeV(5,3)`. -/
theorem getCompound_ignores_family (net : Network) (s : List Int) :
    getCompound net "HeV" s = getCompound net "HeI" s ∧
      getCompound net "HeI" s = .ok
        (if s.length = 3 then StdMap.find net.mixedSpeciesMap (compositionOfSizes s) else none) ∧
      (net.WF → ∀ h : Handle, getCompound net "HeI" s = .ok (some h) →
        ∃ r, net.deref h = some r ∧ r.composition = compositionOfSizes s) ∧
      (getCompound checkPropertiesNetwork "HeI" [5, 3, 0] = .ok (some 1) ∧
        (checkPropertiesNetwork.deref 1).map (fun r => (r.typeName, r.composition))
          = some (.HeV, { he := 5, v := 3, i := 0 })) := by
  have h1 : getCompound net "HeV" s = .ok
      (if s.length = 3 then StdMap.find net.mixedSpeciesMap (compositionOfSizes s)
        else none) := by
    rw [getCompound_eq]
    by_cases hl : s.length = 3
    · rw [if_pos ⟨Or.inl rfl, hl⟩, if_pos hl]
    · rw [if_neg (fun h => hl h.2), if_neg hl]
  have h2 : getCompound net "HeI" s = .ok
      (if s.length = 3 then StdMap.find net.mixedSpeciesMap (compositionOfSizes s)
        else none) := by
    rw [getCompound_eq]
    by_cases hl : s.length = 3
    · rw [if_pos ⟨Or.inr rfl, hl⟩, if_pos hl]
    · rw [if_neg (fun h => hl h.2), if_neg hl]
  refine ⟨h1.trans h2.symm, h2, ?_, by rfl, by decide⟩
  intro hwf h hg
  rw [h2] at hg
  have hf : (if s.length = 3 then StdMap.find net.mixedSpeciesMap (compositionOfSizes s)
      else none) = some h := by
    injection hg
  by_cases hl : s.length = 3
  · rw [if_pos hl] at hf
    exact hwf.mixed _ (StdMap.mem_of_find hf)
  · rw [if_neg hl] at hf
    exact Option.noConfusion hf

/-- Witness of C30: in the network of `checkProperties` the two family names
return the same cluster for the sizes (5, 3, 0), and its composition is
(5, 3, 0). -/
theorem getCompound_ignores_family_witness :
    checkPropertiesNetwork.WF ∧
      getCompound checkPropertiesNetwork "HeV" [5, 3, 0]
        = getCompound checkPropertiesNetwork "HeI" [5, 3, 0] ∧
      ∃ r, checkPropertiesNetwork.deref 1 = some r ∧
        r.composition = compositionOfSizes [5, 3, 0] :=
  ⟨WF_run WF_new _, (getCompound_ignores_family checkPropertiesNetwork [5, 3, 0]).1,
    (getCompound_ignores_family checkPropertiesNetwork [5, 3, 0]).2.2.1 (WF_run WF_new _) 1
      (by rfl)⟩

/-! ## The entries of the reacting-pair list -/

theorem pairwise_countedFrom1 (last : Int) : (countedFrom1 last).Pairwise (· < ·) := by
  unfold countedFrom1
  rw [List.pairwise_map]
  exact (List.pairwise_lt_range _).imp (fun h => by omega)

theorem regular_he_of_composition {x : Reactant} {a : Int} (ha : 1 ≤ a)
    (hc : x.composition = { he := a, v := 0, i := 0 }) (hr : x.Regular) : x.typeName = .He := by
  unfold Reactant.Regular at hr
  cases ht : x.typeName <;> rw [ht] at hr <;> simp only [hc] at hr <;>
    first | rfl | omega

theorem pairFor_spec {net : Network} (hs : net.SingleIndexOK) {n a : Int} {p : ClusterPair}
    (hp : pairFor net.singleSpeciesMap n a = some p) :
    1 ≤ a ∧ 1 ≤ n - a ∧ p.kConstant = 0 ∧
      get net "He" a = .ok (some p.first) ∧ get net "He" (n - a) = .ok (some p.second) ∧
      ∃ x y, net.deref p.first = some x ∧ net.deref p.second = some y ∧
        x.composition = { he := a, v := 0, i := 0 } ∧
        y.composition = { he := n - a, v := 0, i := 0 } := by
  unfold pairFor at hp
  cases h1 : getHe net.singleSpeciesMap a with
  | none => simp [h1] at hp
  | some first =>
    cases h2 : getHe net.singleSpeciesMap (n - a) with
    | none => simp [h1, h2] at hp
    | some second =>
      simp only [h1, h2, Option.some.injEq] at hp
      subst hp
      obtain ⟨ha, hf1⟩ := getHe_eq_some h1
      obtain ⟨hb, hf2⟩ := getHe_eq_some h2
      obtain ⟨x, hx, hxc⟩ := hs _ (StdMap.mem_of_find hf1)
      obtain ⟨y, hy, hyc⟩ := hs _ (StdMap.mem_of_find hf2)
      refine ⟨ha, hb, rfl, ?_, ?_, x, y, hx, hy, hxc, hyc⟩
      · rw [get_he, h1]
      · rw [get_he, h2]

/-- C23: in a network that satisfies the representation invariant, one run of
`HeCluster::createReactionConnectivity` for a cluster of size `n` returns and
appends entries to its reacting-pair list such that every entry (x, y) is made
of the clusters `get("He", a)` and `get("He", n - a)` for some `a` with
`1 <= a <= n - a`, which have the compositions (a, 0, 0) and (n - a, 0, 0) (and
the type tag He when their tag agrees with their composition); the entries are
appended with strictly increasing helium count of x; there are at most `n / 2`
of them, and none for `n = 1`. -/
theorem reacting_pairs_are_ordered_splits (net : Network) (hwf : net.WF) (self : Handle)
    (this : Reactant) (hself : net.deref self = some this) :
    ∃ appended : List ClusterPair,
      (HeCluster.createReactionConnectivity net self).thrown = none ∧
      ((HeCluster.createReactionConnectivity net self).net.deref self).map
          (fun r => r.reactingPairs) = some (this.reactingPairs ++ appended) ∧
      (∀ p ∈ appended, ∃ (a : Int) (x y : Reactant), 1 ≤ a ∧ a ≤ this.size - a ∧
        get net "He" a = .ok (some p.first) ∧
        get net "He" (this.size - a) = .ok (some p.second) ∧
        net.deref p.first = some x ∧ net.deref p.second = some y ∧
        x.composition = { he := a, v := 0, i := 0 } ∧
        y.composition = { he := this.size - a, v := 0, i := 0 } ∧
        x.composition.he + y.composition.he = this.size ∧
        (x.Regular → x.typeName = .He) ∧ (y.Regular → y.typeName = .He)) ∧
      appended.Pairwise (fun p q => net.heOf p.first < net.heOf q.first) ∧
      appended.length ≤ (Int.tdiv this.size 2).toNat ∧
      (this.size = 1 → appended = []) := by
  obtain ⟨hok, hres⟩ := createReactionConnectivity_self hwf hself
  have hmem : ∀ p ∈ pairsOf net.singleSpeciesMap this.size,
      ∃ a ∈ countedFrom1 (Int.tdiv this.size 2),
        pairFor net.singleSpeciesMap this.size a = some p := by
    intro p hp
    unfold pairsOf at hp
    exact List.mem_filterMap.1 hp
  have hdiv : ∀ a : Int, 1 ≤ a → a ≤ Int.tdiv this.size 2 → a ≤ this.size - a := by
    intro a h1 h2
    have hpos : 0 ≤ this.size := by
      by_contra hneg
      have e : Int.tdiv this.size 2 = - Int.tdiv (- this.size) 2 := by
        rw [← Int.neg_tdiv, neg_neg]
      have hn : 0 ≤ Int.tdiv (- this.size) 2 := Int.tdiv_nonneg (by omega) (by decide)
      omega
    rw [Int.tdiv_eq_ediv hpos (by decide)] at h2
    omega
  refine ⟨pairsOf net.singleSpeciesMap this.size, hok, ?_, ?_, ?_, ?_, ?_⟩
  · rw [hres]
    simp [(connected_lists net this).1]
  · intro p hp
    obtain ⟨a, ha, hpa⟩ := hmem p hp
    obtain ⟨h1, h2⟩ := (mem_countedFrom1 _ _).1 ha
    obtain ⟨-, -, -, hg1, hg2, x, y, hx, hy, hxc, hyc⟩ := pairFor_spec hwf.single hpa
    refine ⟨a, x, y, h1, hdiv a h1 h2, hg1, hg2, hx, hy, hxc, hyc, ?_, ?_, ?_⟩
    · rw [hxc, hyc]; simp
    · exact regular_he_of_composition h1 hxc
    · exact regular_he_of_composition (by have := hdiv a h1 h2; omega) hyc
  · unfold pairsOf
    refine List.Pairwise.filterMap _ ?_ (pairwise_countedFrom1 _)
    intro a a' haa p hp q hq
    obtain ⟨-, -, -, -, -, x, -, hx, -, hxc, -⟩ := pairFor_spec hwf.single (Option.mem_def.1 hp)
    obtain ⟨-, -, -, -, -, x', -, hx', -, hxc', -⟩ :=
      pairFor_spec hwf.single (Option.mem_def.1 hq)
    simp only [Network.heOf, hx, hx', Option.map_some', Option.getD_some, hxc, hxc']
    exact haa
  · unfold pairsOf
    refine (List.length_filterMap_le _ _).trans ?_
    simp [countedFrom1]
  · intro h1
    unfold pairsOf
    rw [h1]
    rfl

set_option maxRecDepth 100000 in
/-- Witness of C23: in the network with `He_1`, `He_2` and `He_3`, the run for
`He_3` appends the one entry (`He_1`, `He_2`) and the run for `He_1` none. -/
theorem reacting_pairs_are_ordered_splits_witness :
    heliumNetwork.WF ∧
      heliumNetwork.deref 2 = some ((HeCluster.mk 3).setId 3) ∧
      ((HeCluster.createReactionConnectivity heliumNetwork 2).net.deref 2).map
          (fun r => r.reactingPairs) = some [{ first := 0, second := 1 }] ∧
      ((HeCluster.createReactionConnectivity heliumNetwork 0).net.deref 0).map
          (fun r => r.reactingPairs) = some [] ∧
      ∃ appended : List ClusterPair,
        (HeCluster.createReactionConnectivity heliumNetwork 2).thrown = none ∧
        ((HeCluster.createReactionConnectivity heliumNetwork 2).net.deref 2).map
            (fun r => r.reactingPairs)
          = some (((HeCluster.mk 3).setId 3).reactingPairs ++ appended) ∧
        (∀ p ∈ appended, ∃ (a : Int) (x y : Reactant), 1 ≤ a ∧
          a ≤ ((HeCluster.mk 3).setId 3).size - a ∧
          get heliumNetwork "He" a = .ok (some p.first) ∧
          get heliumNetwork "He" (((HeCluster.mk 3).setId 3).size - a) = .ok (some p.second) ∧
          heliumNetwork.deref p.first = some x ∧ heliumNetwork.deref p.second = some y ∧
          x.composition = { he := a, v := 0, i := 0 } ∧
          y.composition = { he := ((HeCluster.mk 3).setId 3).size - a, v := 0, i := 0 } ∧
          x.composition.he + y.composition.he = ((HeCluster.mk 3).setId 3).size ∧
          (x.Regular → x.typeName = .He) ∧ (y.Regular → y.typeName = .He)) ∧
        appended.Pairwise (fun p q => heliumNetwork.heOf p.first < heliumNetwork.heOf q.first) ∧
        appended.length ≤ (Int.tdiv ((HeCluster.mk 3).setId 3).size 2).toNat ∧
        (((HeCluster.mk 3).setId 3).size = 1 → appended = []) :=
  ⟨WF_run WF_new _, by decide, by decide, by decide,
    reacting_pairs_are_ordered_splits heliumNetwork (WF_run WF_new _) 2
      ((HeCluster.mk 3).setId 3) (by decide)⟩

/-! ## What a removal changes -/

theorem eraseFirstMatch_eq (objects : List Reactant) (type : String) (comp : Composition) :
    ∀ l : List Handle, (∀ h ∈ l, h < objects.length) →
      eraseFirstMatch objects type comp l
        = .ok (l.eraseP (matchesCluster objects type comp)) := by
  intro l
  induction l with
  | nil => intro _; rfl
  | cons it rest ih =>
    intro hv
    have hit : it < objects.length := hv it (List.mem_cons_self _ _)
    have hobj : objects[it]? = some objects[it] := List.getElem?_eq_getElem hit
    have ih' := ih (fun h hh => hv h (List.mem_cons_of_mem _ hh))
    unfold eraseFirstMatch
    rw [hobj]
    simp only
    by_cases ht : objects[it].typeName.name = type
    · by_cases hc : objects[it].composition.he = comp.he ∧ objects[it].composition.v = comp.v
          ∧ objects[it].composition.i = comp.i
      · have hm : matchesCluster objects type comp it = true := by
          simp [matchesCluster, hobj, ht, hc]
        rw [if_neg (not_not.2 ht), if_neg (by tauto), List.eraseP_cons_of_pos hm]
      · have hm : ¬ matchesCluster objects type comp it = true := by
          simp [matchesCluster, hobj, ht, hc]
        rw [if_neg (not_not.2 ht), if_pos (by tauto), ih', List.eraseP_cons_of_neg hm]
        rfl
    · have hm : ¬ matchesCluster objects type comp it = true := by
        simp [matchesCluster, hobj, ht]
      rw [if_pos ht, ih', List.eraseP_cons_of_neg hm]
      rfl

/-- The network `removeReactant` leaves when the pointers of the two lists it
walks are valid. -/
theorem removeReactant_eq (net : Network) (c : Handle) (r : Reactant) (clusters : List Handle)
    (hr : net.objects[c]? = some r)
    (hv : ∀ h ∈ net.allReactants, h < net.objects.length)
    (hf : StdMap.find net.clusterTypeMap r.typeName.name = some clusters)
    (hcv : ∀ h ∈ clusters, h < net.objects.length) :
    removeReactant net c = ⟨none, { net with
      allReactants :=
        net.allReactants.eraseP (matchesCluster net.objects r.typeName.name r.composition)
      clusterTypeMap := StdMap.set strLt net.clusterTypeMap r.typeName.name
        (clusters.eraseP (matchesCluster net.objects r.typeName.name r.composition))
      mixedSpeciesMap := StdMap.erase net.mixedSpeciesMap r.composition }⟩ := by
  unfold removeReactant
  rw [hr]
  simp only [eraseFirstMatch_eq _ _ _ _ hv, hf, eraseFirstMatch_eq _ _ _ _ hcv]
  rfl

theorem removeReactant_mixed (net : Network) (c : Handle) (r : Reactant)
    (hr : net.deref c = some r) (hok : (removeReactant net c).thrown = none) :
    (removeReactant net c).net.mixedSpeciesMap = StdMap.erase net.mixedSpeciesMap r.composition := by
  have hr' : net.objects[c]? = some r := hr
  unfold removeReactant at hok ⊢
  rw [hr'] at hok ⊢
  dsimp only at hok ⊢
  cases h1 : eraseFirstMatch net.objects r.typeName.name r.composition net.allReactants with
  | error e => rw [h1] at hok; exact absurd hok (by simp)
  | ok all =>
    rw [h1] at hok
    dsimp only at hok ⊢
    cases h2 : StdMap.find net.clusterTypeMap r.typeName.name with
    | none => rw [h2] at hok; exact absurd hok (by simp)
    | some clusters =>
      rw [h2] at hok
      dsimp only at hok ⊢
      cases h3 : eraseFirstMatch net.objects r.typeName.name r.composition clusters with
      | error e => rw [h3] at hok; exact absurd hok (by simp)
      | ok clusters2 => rfl

/-- C28: `removeReactant` erases the entry of the composition of the cluster
from the mixed-species map whatever the family of the cluster.  In the network
with `HeV(5,3)` (pointer 0) and a super-cluster of the same composition
(pointer 1), the removal of the super-cluster returns and leaves `HeV(5,3)` in
`getAll()` and in `getAll("HeV")`, but `getCompound("HeV", [5, 3, 0])`, which
returned `HeV(5,3)` before the call, returns a null pointer after it. -/
theorem removeReactant_erases_mixed_entry_of_other_cluster :
    (∀ (net : Network) (c : Handle) (r : Reactant), net.deref c = some r →
      (removeReactant net c).thrown = none →
      (removeReactant net c).net.mixedSpeciesMap
        = StdMap.erase net.mixedSpeciesMap r.composition) ∧
      (sharedCompositionNetwork.deref 0).map (fun r => (r.typeName, r.composition))
        = some (.HeV, { he := 5, v := 3, i := 0 }) ∧
      (sharedCompositionNetwork.deref 1).map (fun r => (r.typeName, r.composition))
        = some (.Super, { he := 5, v := 3, i := 0 }) ∧
      getCompound sharedCompositionNetwork "HeV" [5, 3, 0] = .ok (some 0) ∧
      (removeReactant sharedCompositionNetwork 1).thrown = none ∧
      getAll (removeReactant sharedCompositionNetwork 1).net = [0] ∧
      getAllOfType (removeReactant sharedCompositionNetwork 1).net "HeV" = .ok [0] ∧
      getCompound (removeReactant sharedCompositionNetwork 1).net "HeV" [5, 3, 0] = .ok none := by
  refine ⟨removeReactant_mixed, by decide, by decide, by rfl, by decide, by decide, by rfl,
    by rfl⟩

theorem removeReactant_frame (net : Network) (c : Handle) :
    (removeReactant net c).net.networkSize = net.networkSize ∧
      (removeReactant net c).net.properties = net.properties ∧
      (removeReactant net c).net.objects = net.objects := by
  unfold removeReactant
  cases net.objects[c]? with
  | none => exact ⟨rfl, rfl, rfl⟩
  | some r =>
    dsimp only
    cases eraseFirstMatch net.objects r.typeName.name r.composition net.allReactants with
    | error e => exact ⟨rfl, rfl, rfl⟩
    | ok all =>
      dsimp only
      cases StdMap.find net.clusterTypeMap r.typeName.name with
      | none => exact ⟨rfl, rfl, rfl⟩
      | some clusters =>
        dsimp only
        cases eraseFirstMatch net.objects r.typeName.name r.composition clusters with
        | error e => exact ⟨rfl, rfl, rfl⟩
        | ok clusters2 => exact ⟨rfl, rfl, rfl⟩

theorem map_modify_of_invariant {α β : Type} (g : α → β) (f : α → α) (n : Nat) (l : List α)
    (h : ∀ a, g (f a) = g a) : (List.modify f n l).map g = l.map g := by
  apply List.ext_getElem?
  intro m
  rw [List.getElem?_map, List.getElem?_map, List.getElem?_modify]
  cases l[m]? with
  | none => rfl
  | some a => by_cases hm : n = m <;> simp [hm, h]

theorem resetIdsLoop_frame : ∀ (l : List Handle) (net : Network) (id : Int),
    (∀ h ∈ l, h < net.objects.length) →
    ∃ objs, resetIdsLoop net id l = (⟨none, { net with objects := objs }⟩, id + l.length) ∧
      objs.map Reactant.sansIds = net.objects.map Reactant.sansIds := by
  intro l
  induction l with
  | nil =>
    intro net id _
    exact ⟨net.objects, by simp [resetIdsLoop], rfl⟩
  | cons it rest ih =>
    intro net id hvalid
    have hit : it < net.objects.length := hvalid it (List.mem_cons_self _ _)
    have hr0 : net.objects[it]? = some net.objects[it] := List.getElem?_eq_getElem hit
    have hstep : resetIdsLoop net id (it :: rest) =
        resetIdsLoop (net.modifyObject it (Reactant.renumbered (id + 1))) (id + 1) rest := by
      simp only [resetIdsLoop, hr0, modifyObject_modifyObject]
      rfl
    obtain ⟨objs, e, hm⟩ :=
      ih (net.modifyObject it (Reactant.renumbered (id + 1))) (id + 1)
        (fun h hh => by rw [length_modifyObject]; exact hvalid h (List.mem_cons_of_mem _ hh))
    refine ⟨objs, ?_, ?_⟩
    · rw [hstep, e]
      simp only [Network.modifyObject, List.length_cons, Nat.cast_add, Nat.cast_one]
      congr 1
      ring
    · rw [hm]
      exact map_modify_of_invariant _ _ _ _ (fun _ => rfl)

theorem superMomentumLoop_frame : ∀ (l : List Handle) (net : Network) (id : Int),
    (∀ h ∈ l, h < net.objects.length) →
    ∃ objs id', superMomentumLoop net id l = (⟨none, { net with objects := objs }⟩, id') ∧
      objs.map Reactant.sansIds = net.objects.map Reactant.sansIds := by
  intro l
  induction l with
  | nil =>
    intro net id _
    exact ⟨net.objects, id, by simp [superMomentumLoop], rfl⟩
  | cons it rest ih =>
    intro net id hvalid
    have hit : it < net.objects.length := hvalid it (List.mem_cons_self _ _)
    have hr0 : net.objects[it]? = some net.objects[it] := List.getElem?_eq_getElem hit
    have hstep : superMomentumLoop net id (it :: rest) =
        superMomentumLoop (net.modifyObject it (Reactant.withMomentumIds (id + 1) (id + 1 + 1)))
          (id + 1 + 1) rest := by
      simp only [superMomentumLoop, hr0, modifyObject_modifyObject]
      rfl
    obtain ⟨objs, id', e, hm⟩ :=
      ih (net.modifyObject it (Reactant.withMomentumIds (id + 1) (id + 1 + 1))) (id + 1 + 1)
        (fun h hh => by rw [length_modifyObject]; exact hvalid h (List.mem_cons_of_mem _ hh))
    refine ⟨objs, id', ?_, ?_⟩
    · rw [hstep, e]
      rfl
    · rw [hm]
      exact map_modify_of_invariant _ _ _ _ (fun _ => rfl)

/-- On a network whose two lists hold valid pointers `reinitializeNetwork`
returns, sets the size to the length of the full list and changes nothing but
ids and momentum ids. -/
theorem reinitializeNetwork_returns (net : Network) (supers : List Handle)
    (hv : ∀ h ∈ net.allReactants, h < net.objects.length)
    (hs : StdMap.find net.clusterTypeMap superType = some supers)
    (hsv : ∀ h ∈ supers, h < net.objects.length) :
    ∃ objs, reinitializeNetwork net = ⟨none,
        { net with objects := objs, networkSize := (net.allReactants.length : Int) }⟩ ∧
      objs.map Reactant.sansIds = net.objects.map Reactant.sansIds := by
  obtain ⟨objs1, e1, hm1⟩ := resetIdsLoop_frame net.allReactants net 0 hv
  have hlen1 : objs1.length = net.objects.length := by
    have := congrArg List.length hm1
    simpa using this
  have e1' : resetIdsLoop net 0 net.allReactants
      = (⟨none, { net with objects := objs1 }⟩, (net.allReactants.length : Int)) := by
    rw [e1, zero_add]
  obtain ⟨objs2, id', e2, hm2⟩ := superMomentumLoop_frame supers
    { net with objects := objs1, networkSize := (net.allReactants.length : Int) }
    (net.allReactants.length : Int)
    (fun h hh => by
      show h < objs1.length
      rw [hlen1]; exact hsv h hh)
  refine ⟨objs2, ?_, hm2.trans hm1⟩
  unfold reinitializeNetwork
  rw [e1']
  simp only [hs, e2]

/-- C27: `removeReactant` changes neither `size()` nor any property nor any
cluster object, hence no id.  On a network that satisfies the representation
invariant and whose full list holds valid pointers, the removal of a cluster
of the full list returns and shortens `getAll()` by exactly one entry, the
other entries keeping their order; if `size()` was the length of `getAll()`
before the call it exceeds it by one after the call; and
`reinitializeNetwork` called next returns and makes `size()` the length of
`getAll()` again, the properties still being those before the removal. -/
theorem removeReactant_keeps_size_and_properties (net : Network) (hwf : net.WF)
    (hvalid : ∀ h ∈ getAll net, (net.deref h).isSome = true) (c : Handle)
    (hc : c ∈ getAll net) :
    (removeReactant net c).thrown = none ∧
      (removeReactant net c).net.size = net.size ∧
      (removeReactant net c).net.properties = net.properties ∧
      (∀ h : Handle, (removeReactant net c).net.deref h = net.deref h) ∧
      (getAll (removeReactant net c).net).length + 1 = (getAll net).length ∧
      (getAll (removeReactant net c).net).Sublist (getAll net) ∧
      (net.size = ((getAll net).length : Int) →
        (removeReactant net c).net.size
          = ((getAll (removeReactant net c).net).length : Int) + 1) ∧
      ∃ net', reinitializeNetwork (removeReactant net c).net = ⟨none, net'⟩ ∧
        getAll net' = getAll (removeReactant net c).net ∧
        net'.size = ((getAll net').length : Int) ∧
        net'.properties = net.properties := by
  have hv : ∀ h ∈ net.allReactants, h < net.objects.length := by
    intro h hh
    obtain ⟨r, hr⟩ := Option.isSome_iff_exists.1 (hvalid h hh)
    have hr' : net.objects[h]? = some r := hr
    exact (List.getElem?_eq_some.1 hr').1
  have hvec : ∀ t : ClusterType, ∃ v, StdMap.find net.clusterTypeMap t.name = some v ∧
      ∀ h ∈ v, h < net.objects.length := by
    intro t
    obtain ⟨v, hf, hh⟩ := hwf.types t (ClusterType.mem_all t)
    refine ⟨v, hf, fun h hm => ?_⟩
    obtain ⟨r, hr, -⟩ := hh h hm
    exact (List.getElem?_eq_some.1 hr).1
  have hcl : c < net.objects.length := hv c hc
  have hr : net.objects[c]? = some net.objects[c] := List.getElem?_eq_getElem hcl
  obtain ⟨clusters, hf, hcv⟩ := hvec net.objects[c].typeName
  have e := removeReactant_eq net c _ clusters hr hv hf hcv
  have hmatch : matchesCluster net.objects net.objects[c].typeName.name
      net.objects[c].composition c = true := by
    simp [matchesCluster, hr]
  have hlen : (net.allReactants.eraseP (matchesCluster net.objects
      net.objects[c].typeName.name net.objects[c].composition)).length + 1
      = net.allReactants.length := by
    have hc' : c ∈ net.allReactants := hc
    have h1 := List.length_eraseP_of_mem hc' hmatch
    have h2 : 0 < net.allReactants.length := List.length_pos_of_mem hc'
    omega
  obtain ⟨hf1, hf2, hf3⟩ := removeReactant_frame net c
  have hsub := List.eraseP_sublist (p := matchesCluster net.objects
      net.objects[c].typeName.name net.objects[c].composition) net.allReactants
  obtain ⟨supers, hs, hsv⟩ : ∃ supers,
      StdMap.find (removeReactant net c).net.clusterTypeMap superType = some supers ∧
        ∀ h ∈ supers, h < (removeReactant net c).net.objects.length := by
    rw [hf3, e]
    by_cases hn : net.objects[c].typeName.name = superType
    · refine ⟨_, by rw [hn]; exact StdMap.find_set_self _ _ _ _, fun h hh => ?_⟩
      exact hcv h ((List.eraseP_sublist clusters).subset hh)
    · obtain ⟨sv, hsf, hsvv⟩ := hvec .Super
      exact ⟨sv, (StdMap.find_set_ne _ _ _ _ _ hn).trans hsf, hsvv⟩
  obtain ⟨objs, e2, -⟩ := reinitializeNetwork_returns (removeReactant net c).net supers
    (by
      rw [hf3, e]
      exact fun h hh => hv h (hsub.subset hh))
    hs hsv
  refine ⟨by rw [e], hf1, hf2, fun h => by unfold Network.deref; rw [hf3], ?_, ?_, ?_,
    _, e2, rfl, rfl, hf2⟩
  · rw [e]; exact hlen
  · rw [e]; exact hsub
  · intro hsz
    have h1 : (removeReactant net c).net.networkSize = net.networkSize := hf1
    show (removeReactant net c).net.networkSize = _
    rw [h1, show net.networkSize = ((getAll net).length : Int) from hsz, e]
    have : ((net.allReactants.eraseP (matchesCluster net.objects
      net.objects[c].typeName.name net.objects[c].composition)).length : Int) + 1
      = (net.allReactants.length : Int) := by exact_mod_cast hlen
    exact this.symm

set_option maxRecDepth 100000 in
/-- Witness of C27: the removal of the HeV cluster of the network with five
clusters leaves `size()` at 5 and `getAll()` with four entries, and
`reinitializeNetwork` makes `size()` 4. -/
theorem removeReactant_keeps_size_and_properties_witness :
    groupedNetwork.WF ∧
      (∀ h ∈ getAll groupedNetwork, (groupedNetwork.deref h).isSome = true) ∧
      2 ∈ getAll groupedNetwork ∧
      groupedNetwork.size = 5 ∧
      (removeReactant groupedNetwork 2).net.size = 5 ∧
      getAll (removeReactant groupedNetwork 2).net = [0, 1, 3, 4] ∧
      (reinitializeNetwork (removeReactant groupedNetwork 2).net).net.size = 4 ∧
      ((removeReactant groupedNetwork 2).thrown = none ∧
        (removeReactant groupedNetwork 2).net.size = groupedNetwork.size ∧
        (removeReactant groupedNetwork 2).net.properties = groupedNetwork.properties ∧
        (∀ h : Handle, (removeReactant groupedNetwork 2).net.deref h = groupedNetwork.deref h) ∧
        (getAll (removeReactant groupedNetwork 2).net).length + 1
          = (getAll groupedNetwork).length ∧
        (getAll (removeReactant groupedNetwork 2).net).Sublist (getAll groupedNetwork) ∧
        (groupedNetwork.size = ((getAll groupedNetwork).length : Int) →
          (removeReactant groupedNetwork 2).net.size
            = ((getAll (removeReactant groupedNetwork 2).net).length : Int) + 1) ∧
        ∃ net', reinitializeNetwork (removeReactant groupedNetwork 2).net = ⟨none, net'⟩ ∧
          getAll net' = getAll (removeReactant groupedNetwork 2).net ∧
          net'.size = ((getAll net').length : Int) ∧
          net'.properties = groupedNetwork.properties) :=
  ⟨WF_run WF_new _, by decide, by decide, by decide, by decide, by decide, by decide,
    removeReactant_keeps_size_and_properties groupedNetwork (WF_run WF_new _) (by decide) 2
      (by decide)⟩

/-! ## Invariants of the reachable states -/

theorem mem_erase {K V : Type} [DecidableEq K] {m : StdMap K V} {k : K} {p : K × V}
    (h : p ∈ StdMap.erase m k) : p ∈ m := by
  induction m with
  | nil => exact h
  | cons q t ih =>
    obtain ⟨k', v'⟩ := q
    unfold StdMap.erase at h
    split_ifs at h with hk
    · exact List.mem_cons_of_mem _ h
    · rcases List.mem_cons.1 h with e | e
      · exact e ▸ List.mem_cons_self _ _
      · exact List.mem_cons_of_mem _ (ih e)

theorem getElem?_of_sansIds {objs objects : List Reactant}
    (hm : objs.map Reactant.sansIds = objects.map Reactant.sansIds) {h : Handle}
    {r : Reactant} (hr : objects[h]? = some r) :
    ∃ r', objs[h]? = some r' ∧ r'.typeName = r.typeName ∧ r'.composition = r.composition := by
  have hh := congrArg (fun l => l[h]?) hm
  simp only [List.getElem?_map, hr, Option.map_some'] at hh
  cases ho : objs[h]? with
  | none => rw [ho] at hh; exact Option.noConfusion hh
  | some r' =>
    rw [ho] at hh
    have e : r'.sansIds = r.sansIds := Option.some.inj hh
    have e1 : r'.sansIds.typeName = r.sansIds.typeName := congrArg Reactant.typeName e
    have e2 : r'.sansIds.composition = r.sansIds.composition :=
      congrArg Reactant.composition e
    exact ⟨r', rfl, e1, e2⟩

theorem WF_of_sansIds {net : Network} (hwf : net.WF) (objs : List Reactant) (n : Int)
    (hm : objs.map Reactant.sansIds = net.objects.map Reactant.sansIds) :
    Network.WF { net with objects := objs, networkSize := n } := by
  refine ⟨hwf.props, ?_, ?_, ?_, ?_⟩
  · intro t ht
    obtain ⟨v, hf, hv⟩ := hwf.types t ht
    refine ⟨v, hf, fun h hh => ?_⟩
    obtain ⟨r, hr, hrt⟩ := hv h hh
    obtain ⟨r', hr', ht', -⟩ := getElem?_of_sansIds hm hr
    exact ⟨r', hr', ht'.trans hrt⟩
  · intro p hp
    obtain ⟨r, hr, hc⟩ := hwf.single p hp
    obtain ⟨r', hr', -, hc'⟩ := getElem?_of_sansIds hm hr
    exact ⟨r', hr', hc'.trans hc⟩
  · intro p hp
    obtain ⟨r, hr, hc⟩ := hwf.mixed p hp
    obtain ⟨r', hr', -, hc'⟩ := getElem?_of_sansIds hm hr
    exact ⟨r', hr', hc'.trans hc⟩
  · intro p hp
    obtain ⟨r, hr, hc⟩ := hwf.super p hp
    obtain ⟨r', hr', -, hc'⟩ := getElem?_of_sansIds hm hr
    exact ⟨r', hr', hc'.trans hc⟩

theorem typeVectors_valid {net : Network} (hwf : net.WF) (t : ClusterType) :
    ∃ v, StdMap.find net.clusterTypeMap t.name = some v ∧ ∀ h ∈ v, h < net.objects.length := by
  obtain ⟨v, hf, hh⟩ := hwf.types t (ClusterType.mem_all t)
  refine ⟨v, hf, fun h hm => ?_⟩
  obtain ⟨r, hr, -⟩ := hh h hm
  exact (List.getElem?_eq_some.1 hr).1

/-- The network `reinitializeNetwork` leaves in a state with valid lists. -/
theorem reinitializeNetwork_of_WF {net : Network} (hwf : net.WF) (hl : net.Listed) :
    ∃ objs, reinitializeNetwork net = ⟨none,
        { net with objects := objs, networkSize := (net.allReactants.length : Int) }⟩ ∧
      objs.map Reactant.sansIds = net.objects.map Reactant.sansIds := by
  obtain ⟨supers, hs, hsv⟩ := typeVectors_valid hwf .Super
  exact reinitializeNetwork_returns net supers hl hs hsv

/-- The three forms of a network after `removeReactant`. -/
theorem removeReactant_cases {net : Network} (hwf : net.WF) (hl : net.Listed) (c : Handle) :
    (removeReactant net c).net = net ∨
      ∃ (r : Reactant) (clusters : List Handle), net.objects[c]? = some r ∧
        StdMap.find net.clusterTypeMap r.typeName.name = some clusters ∧
        (∀ h ∈ clusters, ∃ r', net.objects[h]? = some r' ∧ r'.typeName = r.typeName) ∧
        (removeReactant net c).net = { net with
          allReactants :=
            net.allReactants.eraseP (matchesCluster net.objects r.typeName.name r.composition)
          clusterTypeMap := StdMap.set strLt net.clusterTypeMap r.typeName.name
            (clusters.eraseP (matchesCluster net.objects r.typeName.name r.composition))
          mixedSpeciesMap := StdMap.erase net.mixedSpeciesMap r.composition } := by
  cases hr : net.objects[c]? with
  | none =>
    left
    unfold removeReactant
    rw [hr]
  | some r =>
    right
    obtain ⟨clusters, hf, hv⟩ := hwf.types r.typeName (ClusterType.mem_all _)
    refine ⟨r, clusters, rfl, hf, hv, ?_⟩
    rw [removeReactant_eq net c r clusters hr hl hf (fun h hh => by
      obtain ⟨r', hr', -⟩ := hv h hh
      exact (List.getElem?_eq_some.1 hr').1)]

theorem WF_removeReactant {net : Network} (hwf : net.WF) (hl : net.Listed) (c : Handle) :
    (removeReactant net c).net.WF ∧ (removeReactant net c).net.Listed := by
  rcases removeReactant_cases hwf hl c with e | ⟨r, clusters, hr, hf, hv, e⟩
  · rw [e]; exact ⟨hwf, hl⟩
  · rw [e]
    refine ⟨⟨hwf.props, ?_, hwf.single, ?_, hwf.super⟩, ?_⟩
    · intro t ht
      by_cases hn : r.typeName.name = t.name
      · have ht' : r.typeName = t := ClusterType.name_injective hn
        refine ⟨_, by rw [hn]; exact StdMap.find_set_self _ _ _ _, fun h hh => ?_⟩
        obtain ⟨r', hr', hrt⟩ := hv h ((List.eraseP_sublist clusters).subset hh)
        exact ⟨r', hr', hrt.trans ht'⟩
      · obtain ⟨v, hfv, hvv⟩ := hwf.types t ht
        exact ⟨v, (StdMap.find_set_ne _ _ _ _ _ hn).trans hfv, hvv⟩
    · intro p hp
      exact hwf.mixed p (mem_erase hp)
    · intro h hh
      exact hl h ((List.eraseP_sublist net.allReactants).subset hh)

theorem WF_setProperty {net : Network} (hwf : net.WF) (key value : String) :
    (setProperty net key value).WF := by
  rw [setProperty_eq]
  split_ifs with hc
  · refine ⟨?_, hwf.types, hwf.single, hwf.mixed, hwf.super⟩
    intro k hk
    have hne : key ≠ k := by
      intro e
      subst e
      exact hc.2.2 (by
        revert hk
        simp only [integerKeys, protectedKeys, List.mem_cons, List.mem_singleton,
          List.not_mem_nil, or_false]
        tauto)
    have := hwf.props k hk
    show ((StdMap.find (StdMap.set strLt net.properties key value) k).bind stoi).isSome = true
    rw [StdMap.find_set_ne _ _ _ _ _ hne]
    exact this
  · exact hwf

theorem Listed_apply {net : Network} (hwf : net.WF) (hl : net.Listed) (c : Call) :
    (c.apply net).net.Listed := by
  rcases apply_cases hwf c with ⟨-, e⟩ | ⟨-, v, -, ho, ha, -, -⟩
  · rw [e]; exact hl
  · intro h hh
    rw [ha] at hh
    rw [ho, List.length_append]
    rcases List.mem_append.1 hh with h1 | h1
    · exact Nat.lt_of_lt_of_le (hl h h1) (Nat.le_add_right _ _)
    · have : h = net.objects.length := by simpa using h1
      subst this
      simp

/-- The representation invariant and the validity of the full list hold after
every call. -/
theorem WF_operation {net : Network} (hwf : net.WF) (hl : net.Listed) (op : Operation) :
    (op.apply net).WF ∧ (op.apply net).Listed := by
  cases op with
  | add r => exact ⟨WF_apply hwf (.add r), Listed_apply hwf hl (.add r)⟩
  | addSuper r => exact ⟨WF_apply hwf (.addSuper r), Listed_apply hwf hl (.addSuper r)⟩
  | removeReactant c => exact WF_removeReactant hwf hl c
  | reinitializeNetwork =>
    obtain ⟨objs, e, hm⟩ := reinitializeNetwork_of_WF hwf hl
    show (reinitializeNetwork net).net.WF ∧ (reinitializeNetwork net).net.Listed
    rw [e]
    refine ⟨WF_of_sansIds hwf objs _ hm, fun h hh => ?_⟩
    have hlen : objs.length = net.objects.length := by
      have := congrArg List.length hm
      simpa using this
    show h < objs.length
    rw [hlen]
    exact hl h hh
  | setProperty key value =>
    refine ⟨WF_setProperty hwf key value, ?_⟩
    show (setProperty net key value).Listed
    rw [setProperty_eq]
    split_ifs
    · exact hl
    · exact hl

theorem WF_reach {net : Network} (hwf : net.WF) (hl : net.Listed) (ops : List Operation) :
    (reach net ops).WF ∧ (reach net ops).Listed := by
  induction ops generalizing net with
  | nil => exact ⟨hwf, hl⟩
  | cons op rest ih => exact ih (WF_operation hwf hl op).1 (WF_operation hwf hl op).2

theorem Listed_new : Network.new.Listed := by
  intro h hh
  have he : Network.new.allReactants = [] := by decide
  rw [he] at hh
  exact absurd hh (List.not_mem_nil h)

/-! ## The integer properties in the reachable states -/

theorem rendered_read {net : Network} (hr : net.Rendered) {key : String}
    (hk : key ∈ integerKeys) {n : Int} (h : readIntProperty net key = .ok n) : 0 ≤ n := by
  obtain ⟨text, hf, hs⟩ := readIntProperty_eq_ok.1 h
  obtain ⟨k, hfk⟩ := hr key hk
  rw [hfk] at hf
  have : text = to_string (k : Int) := (Option.some.inj hf).symm
  rw [this, stoi_to_string] at hs
  have e : (k : Int) = n := Option.some.inj hs
  omega

theorem rendered_set {props : StdMap String String}
    (hr : ∀ key ∈ integerKeys, ∃ n : Nat, StdMap.find props key = some (to_string (n : Int)))
    (k : String) (n : Int) (hn : 0 ≤ n) :
    ∀ key ∈ integerKeys, ∃ m : Nat,
      StdMap.find (StdMap.set strLt props k (to_string n)) key = some (to_string (m : Int)) := by
  intro key hkey
  by_cases h : k = key
  · subst h
    refine ⟨n.toNat, ?_⟩
    rw [StdMap.find_set_self, Int.toNat_of_nonneg hn]
  · rw [StdMap.find_set_ne _ _ _ _ _ h]
    exact hr key hkey

theorem Rendered_new : Network.new.Rendered := by
  intro key hk
  simp only [integerKeys, List.mem_cons, List.mem_singleton, List.not_mem_nil, or_false] at hk
  rcases hk with h | h | h | h | h | h | h | h | h | h | h <;> subst h <;>
    exact ⟨0, by decide⟩

theorem Rendered_operation {net : Network} (hwf : net.WF) (hl : net.Listed)
    (hr : net.Rendered) (op : Operation) : (op.apply net).Rendered := by
  cases op with
  | add r =>
    show (add net (some r)).net.Rendered
    rcases add_cases hwf r with ⟨h, -, e⟩ | ⟨n1, n2, v, -, h1, h2, -, e⟩
    · rw [e]; exact hr
    · rw [e]
      have hn1 := rendered_read hr (countKey_mem_integerKeys _) h1
      have hn2 := rendered_read hr (sizeKey_mem_integerKeys _) h2
      exact rendered_set (rendered_set hr _ _ (by omega)) _ _ (le_trans hn2 (le_max_right _ _))
  | addSuper r =>
    show (addSuper net (some r)).net.Rendered
    rcases addSuper_cases hwf r with ⟨-, e⟩ | ⟨n, v, -, -, h1, -, e⟩
    · rw [e]; exact hr
    · rw [e]
      have hn1 := rendered_read hr (show "numSuperClusters" ∈ integerKeys by decide) h1
      exact rendered_set hr _ _ (by omega)
  | removeReactant c =>
    intro key hk
    show ∃ n : Nat, StdMap.find (removeReactant net c).net.properties key = _
    rw [(removeReactant_frame net c).2.1]
    exact hr key hk
  | reinitializeNetwork =>
    obtain ⟨objs, e, -⟩ := reinitializeNetwork_of_WF hwf hl
    show (reinitializeNetwork net).net.Rendered
    rw [e]
    exact hr
  | setProperty key value =>
    show (setProperty net key value).Rendered
    rw [setProperty_eq]
    split_ifs with hc
    · intro k hk
      have hne : key ≠ k := by
        intro e
        subst e
        exact hc.2.2 (by
          revert hk
          simp only [integerKeys, protectedKeys, List.mem_cons, List.mem_singleton,
            List.not_mem_nil, or_false]
          tauto)
      show ∃ n : Nat, StdMap.find (StdMap.set strLt net.properties key value) k = _
      rw [StdMap.find_set_ne _ _ _ _ _ hne]
      exact hr k hk
    · exact hr

theorem Rendered_reach {net : Network} (hwf : net.WF) (hl : net.Listed) (hr : net.Rendered)
    (ops : List Operation) : (reach net ops).Rendered := by
  induction ops generalizing net with
  | nil => exact hr
  | cons op rest ih =>
    exact ih (WF_operation hwf hl op).1 (WF_operation hwf hl op).2
      (Rendered_operation hwf hl hr op)

/-- C25: in every state reached from a new network by calls of `add`,
`addSuper`, `removeReactant`, `reinitializeNetwork` and `setProperty`, each of
the eleven count and max-size properties holds the decimal rendering of a
non-negative integer, which `std::stoi` reads back; `add` and `addSuper` of
any cluster return or throw the duplicate message, and
`HeCluster::createReactionConnectivity` throws neither `std::invalid_argument`
nor `std::out_of_range`. -/
theorem integer_properties_stay_rendered (ops : List Operation) :
    (∀ key ∈ integerKeys, ∃ n : Nat,
      StdMap.find (reach Network.new ops).properties key = some (to_string (n : Int)) ∧
      readIntProperty (reach Network.new ops) key = .ok (n : Int) ∧
      stoiOfCopy (reach Network.new ops).properties key = some (n : Int)) ∧
    (∀ r : Reactant, (add (reach Network.new ops) (some r)).thrown = none ∨
      (add (reach Network.new ops) (some r)).thrown = some (.message
        (duplicateMessage r.composition.he r.composition.v r.composition.i))) ∧
    (∀ r : Reactant, (addSuper (reach Network.new ops) (some r)).thrown = none ∨
      (addSuper (reach Network.new ops) (some r)).thrown = some (.message
        (duplicateSuperMessage r.composition.he r.composition.v r.composition.i))) ∧
    (∀ self : Handle,
      (HeCluster.createReactionConnectivity (reach Network.new ops) self).thrown
          ≠ some .invalid_argument ∧
        (HeCluster.createReactionConnectivity (reach Network.new ops) self).thrown
          ≠ some .out_of_range) := by
  obtain ⟨hwf, hl⟩ := WF_reach WF_new Listed_new ops
  have hr := Rendered_reach WF_new Listed_new Rendered_new ops
  refine ⟨?_, ?_, ?_, ?_⟩
  · intro key hk
    obtain ⟨n, hn⟩ := hr key hk
    refine ⟨n, hn, ?_, ?_⟩
    · exact readIntProperty_eq_ok.2 ⟨_, hn, stoi_to_string _⟩
    · unfold stoiOfCopy
      rw [hn]
      exact stoi_to_string (n : Int)
  · intro r
    rcases add_cases hwf r with ⟨h, -, e⟩ | ⟨n1, n2, v, -, -, -, -, e⟩
    · right; rw [e]
    · left; rw [e]
  · intro r
    rcases addSuper_cases hwf r with ⟨-, e⟩ | ⟨n, v, -, -, -, -, e⟩
    · right; rw [e]
    · left; rw [e]
  · intro self
    cases hs : (reach Network.new ops).objects[self]? with
    | none =>
      unfold HeCluster.createReactionConnectivity
      rw [hs]
      exact ⟨by simp, by simp⟩
    | some this =>
      rw [createReactionConnectivity_eq hwf hs]
      exact ⟨by simp, by simp⟩

/-! ## Size, full list and counts -/

theorem forIndices_append (body : Network → Nat → Result) :
    ∀ (a b : List Nat) (net : Network),
    forIndices body net (a ++ b) =
      (forIndices body net a).andThen fun net => forIndices body net b := by
  intro a
  induction a with
  | nil => intro b net; rfl
  | cons i rest ih =>
    intro b net
    show (body net i).andThen (fun n => forIndices body n (rest ++ b)) =
      ((body net i).andThen fun n => forIndices body n rest).andThen
        fun n => forIndices body n b
    simp only [ih]
    unfold Result.andThen
    cases h : (body net i).thrown <;> simp [h]

theorem heVPairFor_frame (net : Network) (self : Handle) (F : Reactant → Reactant)
    (hF : ∀ r, (F r).composition = r.composition) (cluster : Handle) :
    heVPairFor (net.modifyObject self F) cluster = heVPairFor net cluster := by
  unfold heVPairFor
  rw [getElem?_modifyObject]
  cases net.objects[cluster]? with
  | none => rfl
  | some c => by_cases h : self = cluster <;> simp [h, hF] <;> rfl

theorem heIPairFor_frame (net : Network) (self : Handle) (F : Reactant → Reactant)
    (hF : ∀ r, (F r).composition = r.composition) (allHeVReactants allHeIReactants : List Handle)
    (i : Nat) :
    heIPairFor (net.modifyObject self F) allHeVReactants allHeIReactants i
      = heIPairFor net allHeVReactants allHeIReactants i := by
  unfold heIPairFor
  cases allHeIReactants[i]? with
  | none => rfl
  | some cluster =>
    cases allHeVReactants[i]? with
    | none => rfl
    | some d =>
      simp only
      rw [getElem?_modifyObject]
      cases net.objects[cluster]? with
      | none => rfl
      | some c => by_cases h : self = cluster <;> simp [h, hF] <;> rfl

/-- One turn of the loop over the HeI clusters at a counter inside the list of
the HeV clusters. -/
theorem dissociateHeI_eq (self : Handle) (allHeVReactants allHeIReactants : List Handle)
    (net : Network) (i : Nat) (cluster : Handle) (c : Reactant) (d : Handle)
    (hi : allHeIReactants[i]? = some cluster) (hc : net.objects[cluster]? = some c)
    (hd : allHeVReactants[i]? = some d) :
    HeCluster.dissociateHeI self allHeVReactants allHeIReactants net i =
      ⟨none, net.modifyObject self (Reactant.appendDissociating
        (heIPairFor net allHeVReactants allHeIReactants i).toList)⟩ := by
  unfold HeCluster.dissociateHeI heIPairFor
  simp only [hi, hc, hd]
  have hg : getCompound net "HeI"
      [c.composition.lessHe.he, c.composition.lessHe.v, c.composition.lessHe.i]
      = .ok (StdMap.find net.mixedSpeciesMap c.composition.lessHe) := by
    rw [getCompound_eq, if_pos ⟨Or.inr rfl, rfl⟩]
    rfl
  rw [hg]
  cases StdMap.find net.mixedSpeciesMap c.composition.lessHe with
  | none =>
    simp only [PSICluster.dissociateCluster, Option.toList]
    rw [modifyObject_of_fixed _ _ _ appendDissociating_nil]
  | some smaller => rfl

/-- One turn of the loop over the HeI clusters at a counter outside the list
of the HeV clusters. -/
theorem dissociateHeI_out (self : Handle) (allHeVReactants allHeIReactants : List Handle)
    (net : Network) (i : Nat) (cluster : Handle) (c : Reactant)
    (hi : allHeIReactants[i]? = some cluster) (hc : net.objects[cluster]? = some c)
    (hd : allHeVReactants[i]? = none) :
    HeCluster.dissociateHeI self allHeVReactants allHeIReactants net i =
      ⟨some .out_of_range, net⟩ := by
  unfold HeCluster.dissociateHeI
  simp only [hi, hc, hd]
  rw [getCompound_eq]

theorem forIndices_dissociateHeI (self : Handle) (allHeVReactants allHeIReactants : List Handle) :
    ∀ (indices : List Nat) (net : Network),
    (∀ i ∈ indices, i < allHeIReactants.length ∧ i < allHeVReactants.length) →
    (∀ cluster ∈ allHeIReactants, ∃ c, net.objects[cluster]? = some c) →
    forIndices (HeCluster.dissociateHeI self allHeVReactants allHeIReactants) net indices =
      ⟨none, net.modifyObject self (Reactant.appendDissociating
        (indices.filterMap (heIPairFor net allHeVReactants allHeIReactants)))⟩ := by
  intro indices
  induction indices with
  | nil =>
    intro net _ _
    simp [forIndices, modifyObject_of_fixed _ _ _ appendDissociating_nil]
  | cons i rest ih =>
    intro net hidx hvalid
    obtain ⟨hlt, hltV⟩ := hidx i (List.mem_cons_self _ _)
    have hi : allHeIReactants[i]? = some allHeIReactants[i] := List.getElem?_eq_getElem hlt
    have hd : allHeVReactants[i]? = some allHeVReactants[i] := List.getElem?_eq_getElem hltV
    obtain ⟨c, hc⟩ := hvalid _ (List.getElem_mem hlt)
    unfold forIndices
    rw [dissociateHeI_eq self allHeVReactants allHeIReactants net i _ c _ hi hc hd,
      Result.andThen_of_ok _ rfl]
    simp only
    rw [ih _ (fun j hj => hidx j (List.mem_cons_of_mem _ hj)) (by
      intro cluster hcl
      obtain ⟨c', hc'⟩ := hvalid cluster hcl
      rw [getElem?_modifyObject, hc']
      exact ⟨_, rfl⟩)]
    rw [modifyObject_modifyObject, appendDissociating_comp]
    have hf : heIPairFor (net.modifyObject self (Reactant.appendDissociating
        (heIPairFor net allHeVReactants allHeIReactants i).toList)) allHeVReactants
          allHeIReactants = heIPairFor net allHeVReactants allHeIReactants :=
      funext fun k => heIPairFor_frame net self (Reactant.appendDissociating _) (fun _ => rfl) _ _ k
    rw [hf]
    simp only [List.filterMap_cons]
    cases h : heIPairFor net allHeVReactants allHeIReactants i <;> simp [h]

/-- The loop over the HeI clusters: the turns at the counters below the number
of the HeV clusters record their pairs; the turn at the counter that is the
number of the HeV clusters, if the loop reaches it, throws. -/
theorem heIPass_eq (self : Handle) (net : Network) (allHeVReactants allHeIReactants : List Handle)
    (hvalid : ∀ cluster ∈ allHeIReactants, ∃ c, net.objects[cluster]? = some c) :
    forIndices (HeCluster.dissociateHeI self allHeVReactants allHeIReactants) net
        (List.range allHeIReactants.length) =
      ⟨if allHeIReactants.length ≤ allHeVReactants.length then none else some .out_of_range,
        net.modifyObject self (Reactant.appendDissociating
          ((List.range (min allHeIReactants.length allHeVReactants.length)).filterMap
            (heIPairFor net allHeVReactants allHeIReactants)))⟩ := by
  by_cases hle : allHeIReactants.length ≤ allHeVReactants.length
  · rw [if_pos hle, Nat.min_eq_left hle]
    exact forIndices_dissociateHeI self allHeVReactants allHeIReactants _ net
      (fun i hi => ⟨List.mem_range.1 hi, lt_of_lt_of_le (List.mem_range.1 hi) hle⟩) hvalid
  · have hlt : allHeVReactants.length < allHeIReactants.length := not_le.mp hle
    rw [if_neg hle, Nat.min_eq_right (le_of_lt hlt)]
    have hsplit : List.range allHeIReactants.length =
        List.range allHeVReactants.length ++
          (allHeVReactants.length ::
            (List.range' (allHeVReactants.length + 1)
              (allHeIReactants.length - allHeVReactants.length - 1))) := by
      have e : allHeIReactants.length =
          (allHeIReactants.length - allHeVReactants.length - 1 + 1)
            + allHeVReactants.length := by omega
      rw [List.range_eq_range', List.range_eq_range']
      conv_lhs => rw [e]
      rw [← List.range'_append_1, zero_add, List.range'_succ]
    rw [hsplit, forIndices_append,
      forIndices_dissociateHeI self allHeVReactants allHeIReactants _ net
        (fun i hi => ⟨lt_trans (List.mem_range.1 hi) hlt, List.mem_range.1 hi⟩) hvalid,
      Result.andThen_of_ok _ rfl]
    simp only
    unfold forIndices
    obtain ⟨c, hc⟩ := hvalid _ (List.getElem_mem hlt)
    have hc' : ∃ c', (net.modifyObject self (Reactant.appendDissociating
        ((List.range allHeVReactants.length).filterMap
          (heIPairFor net allHeVReactants allHeIReactants)))).objects[
            allHeIReactants[allHeVReactants.length]]? = some c' := by
      rw [getElem?_modifyObject, hc]
      exact ⟨_, rfl⟩
    obtain ⟨c', hc'⟩ := hc'
    rw [dissociateHeI_out self allHeVReactants allHeIReactants _ allHeVReactants.length
      _ c' (List.getElem?_eq_getElem hlt) hc' (List.getElem?_eq_none (le_refl _))]
    rfl

theorem emitClusters_eq (self : Handle) (net : Network) (a b : Option Handle) :
    ∃ pairs : List ClusterPair, PSICluster.emitClusters self net a b =
      net.modifyObject self fun r => { r with emissionPairs := r.emissionPairs ++ pairs } := by
  unfold PSICluster.emitClusters
  cases a with
  | none => exact ⟨[], by rw [modifyObject_of_fixed _ _ _ (by intro r; simp)]⟩
  | some first =>
    cases b with
    | none => exact ⟨[], by rw [modifyObject_of_fixed _ _ _ (by intro r; simp)]⟩
    | some second => exact ⟨[{ first := first, second := second }], rfl⟩

theorem emitClusters_result (self : Handle) (net : Network) (a b : Option Handle) :
    ∃ pairs : List ClusterPair, (⟨none, PSICluster.emitClusters self net a b⟩ : Result) =
      ⟨none, net.modifyObject self fun r =>
        { r with emissionPairs := r.emissionPairs ++ pairs }⟩ := by
  obtain ⟨pairs, hp⟩ := emitClusters_eq self net a b
  exact ⟨pairs, by rw [hp]⟩

/-- The base-class function returns and touches the emission pairs of the
cluster only. -/
theorem base_dissociation_eq (net : Network) (self : Handle) (this : Reactant)
    (hself : net.objects[self]? = some this) :
    ∃ pairs : List ClusterPair, PSICluster.createDissociationConnectivity net self =
      ⟨none, net.modifyObject self fun r =>
        { r with emissionPairs := r.emissionPairs ++ pairs }⟩ := by
  unfold PSICluster.createDissociationConnectivity
  simp only [hself, get_eq]
  exact emitClusters_result self net _ _

theorem getAllOfType_mixed (net : Network) (name : String)
    (hname : name = heVType ∨ name = heIType) (l : List Handle) :
    getAllOfType net name = .ok l ↔ StdMap.find net.clusterTypeMap name = some l := by
  unfold getAllOfType
  rw [if_pos (by rcases hname with h | h <;> simp [h])]
  unfold StdMap.atKey
  cases StdMap.find net.clusterTypeMap name with
  | none => simp
  | some v => simp

/-- C24: for a helium cluster of size 1 in a network that satisfies the
representation invariant, with the lists `getAll("HeV")` and `getAll("HeI")`
at hand, `createDissociationConnectivity` completes if and only if the
network holds no more HeI clusters than HeV clusters, and throws
`std::out_of_range` otherwise.  In both cases the dissociating pairs of the
cluster afterwards are those it had, the pairs of the loop over the HeV
clusters and the pairs of the turns of the loop over the HeI clusters at the
counters below both lengths: the turn at the counter that is the number of the
HeV clusters is the one that fails. -/
theorem heI_loop_completes_iff (net : Network) (hwf : net.WF) (self : Handle)
    (this : Reactant) (hself : net.deref self = some this) (hsize : this.size = 1)
    (allHeVReactants allHeIReactants : List Handle)
    (hV : getAllOfType net "HeV" = .ok allHeVReactants)
    (hI : getAllOfType net "HeI" = .ok allHeIReactants) :
    ((HeCluster.createDissociationConnectivity net self).thrown = none ↔
        allHeIReactants.length ≤ allHeVReactants.length) ∧
      (allHeVReactants.length < allHeIReactants.length →
        (HeCluster.createDissociationConnectivity net self).thrown = some .out_of_range) ∧
      ((HeCluster.createDissociationConnectivity net self).net.deref self).map
          (fun r => r.dissociatingPairs) =
        some (this.dissociatingPairs ++ allHeVReactants.filterMap (heVPairFor net) ++
          (List.range (min allHeIReactants.length allHeVReactants.length)).filterMap
            (heIPairFor net allHeVReactants allHeIReactants)) := by
  have hself' : net.objects[self]? = some this := hself
  have hvalid : ∀ (name : String) (t : ClusterType) (l : List Handle), name = t.name →
      (name = heVType ∨ name = heIType) → getAllOfType net name = .ok l →
      ∀ cluster ∈ l, ∃ c, net.objects[cluster]? = some c := by
    intro name t l hn hname hl cluster hcl
    obtain ⟨v, hf, hh⟩ := hwf.types t (ClusterType.mem_all t)
    have hf' := (getAllOfType_mixed net name hname l).1 hl
    rw [hn, hf] at hf'
    obtain ⟨r, hr, -⟩ := hh cluster (by rw [Option.some.inj hf']; exact hcl)
    exact ⟨r, hr⟩
  have hvV := hvalid "HeV" .HeV allHeVReactants rfl (Or.inl rfl) hV
  have hvI := hvalid "HeI" .HeI allHeIReactants rfl (Or.inr rfl) hI
  obtain ⟨pairs, hbase⟩ := base_dissociation_eq net self this hself'
  have hkeep : ∀ (F : Reactant → Reactant) (l : List Handle),
      (∀ cluster ∈ l, ∃ c, net.objects[cluster]? = some c) →
      ∀ cluster ∈ l, ∃ c, (net.modifyObject self F).objects[cluster]? = some c := by
    intro F l hl cluster hcl
    obtain ⟨c, hc⟩ := hl cluster hcl
    rw [getElem?_modifyObject, hc]
    exact ⟨_, rfl⟩
  have hmain : HeCluster.createDissociationConnectivity net self =
      ⟨if allHeIReactants.length ≤ allHeVReactants.length then none else some .out_of_range,
        net.modifyObject self
          (Reactant.appendDissociating
              ((List.range (min allHeIReactants.length allHeVReactants.length)).filterMap
                (heIPairFor net allHeVReactants allHeIReactants)) ∘
            (Reactant.appendDissociating (allHeVReactants.filterMap (heVPairFor net)) ∘
              fun r => { r with emissionPairs := r.emissionPairs ++ pairs }))⟩ := by
    unfold HeCluster.createDissociationConnectivity
    rw [hbase, Result.andThen_of_ok _ rfl]
    simp only
    rw [getElem?_modifyObject, hself']
    simp only [Option.map_some', if_true]
    rw [if_pos hsize]
    unfold HeCluster.mixedDissociations
    have hV1 : getAllOfType (net.modifyObject self fun r =>
        { r with emissionPairs := r.emissionPairs ++ pairs }) "HeV" = .ok allHeVReactants := hV
    rw [hV1]
    simp only
    rw [heVPass_eq self _ allHeVReactants (hkeep _ _ hvV), Result.andThen_of_ok _ rfl]
    simp only
    rw [modifyObject_modifyObject]
    have hI1 : getAllOfType (net.modifyObject self
        (Reactant.appendDissociating (allHeVReactants.filterMap (heVPairFor
          (net.modifyObject self fun r =>
            { r with emissionPairs := r.emissionPairs ++ pairs }))) ∘
          fun r => { r with emissionPairs := r.emissionPairs ++ pairs })) "HeI"
        = .ok allHeIReactants := hI
    rw [hI1]
    simp only
    rw [heIPass_eq self _ allHeVReactants allHeIReactants (hkeep _ _ hvI),
      modifyObject_modifyObject]
    have e1 : ∀ F : Reactant → Reactant, (∀ r, (F r).composition = r.composition) →
        heVPairFor (net.modifyObject self F) = heVPairFor net :=
      fun F hF => funext fun cl => heVPairFor_frame net self F hF cl
    have e2 : ∀ F : Reactant → Reactant, (∀ r, (F r).composition = r.composition) →
        heIPairFor (net.modifyObject self F) allHeVReactants allHeIReactants
          = heIPairFor net allHeVReactants allHeIReactants :=
      fun F hF => funext fun k => heIPairFor_frame net self F hF _ _ k
    rw [e1, e2]
    · intro r; rfl
    · intro r; rfl
  refine ⟨?_, ?_, ?_⟩
  · rw [hmain]
    by_cases hle : allHeIReactants.length ≤ allHeVReactants.length <;> simp [hle]
  · intro hlt
    rw [hmain]
    simp only
    rw [if_neg (not_le.mpr hlt)]
  · rw [hmain]
    show ((net.modifyObject self _).objects[self]?).map _ = _
    rw [getElem?_modifyObject, hself']
    simp [Reactant.appendDissociating]

set_option maxRecDepth 100000 in
/-- Witness of C24: the network with `He_1` and `HeI(1,1)` holds one HeI
cluster and no HeV cluster, and the dissociation connectivity of `He_1` throws
`std::out_of_range` with no pair recorded. -/
theorem heI_loop_completes_iff_witness :
    getAllOfType heINetwork "HeV" = .ok [] ∧ getAllOfType heINetwork "HeI" = .ok [1] ∧
      (HeCluster.createDissociationConnectivity heINetwork 0).thrown = some .out_of_range ∧
      ((HeCluster.createDissociationConnectivity heINetwork 0).net.deref 0).map
          (fun r => r.dissociatingPairs) = some [] :=
  ⟨by rfl, by rfl,
    (heI_loop_completes_iff heINetwork (WF_run WF_new _) 0 (HeCluster.mk 1 |>.setId 1)
      (by rfl) (by rfl) [] [1] (by rfl) (by rfl)).2.1 (by decide),
    (heI_loop_completes_iff heINetwork (WF_run WF_new _) 0 (HeCluster.mk 1 |>.setId 1)
      (by rfl) (by rfl) [] [1] (by rfl) (by rfl)).2.2⟩

/-! ## Fluxes -/

theorem fluxLoop_ok {α : Type} (entries : List α) (term : α → Except Thrown Rat)
    (val : α → Rat) (hterm : ∀ e ∈ entries, term e = .ok (val e)) :
    ∀ (positions : List Nat) (flux : Rat), (∀ i ∈ positions, i < entries.length) →
      fluxLoop entries term positions flux =
        .ok (flux + (positions.map fun i => ((entries[i]?).map val).getD 0).sum) := by
  intro positions
  induction positions with
  | nil => intro flux _; simp [fluxLoop]
  | cons i rest ih =>
    intro flux hpos
    have hlt : i < entries.length := hpos i (List.mem_cons_self _ _)
    unfold fluxLoop
    rw [List.getElem?_eq_getElem hlt]
    simp only
    rw [hterm _ (List.getElem_mem hlt)]
    simp only
    rw [ih _ (fun j hj => hpos j (List.mem_cons_of_mem _ hj))]
    simp only [List.map_cons, List.sum_cons, List.getElem?_eq_getElem hlt, Option.map_some',
      Option.getD_some]
    rw [add_assoc]

theorem sum_filter_of_zero {β : Type} (p : β → Bool) (f : β → Rat) :
    ∀ l : List β, (∀ x ∈ l, p x = false → f x = 0) →
      ((l.filter p).map f).sum = (l.map f).sum := by
  intro l
  induction l with
  | nil => intro _; rfl
  | cons a t ih =>
    intro h
    have ht := ih fun x hx => h x (List.mem_cons_of_mem _ hx)
    cases hp : p a with
    | true => simp [List.filter_cons, hp, ht]
    | false =>
      have h0 := h a (List.mem_cons_self _ _) hp
      simp [List.filter_cons, hp, ht, h0]

theorem sum_range_getElem? {α : Type} (entries : List α) (val : α → Rat) :
    ((List.range entries.length).map fun i => ((entries[i]?).map val).getD 0).sum
      = (entries.map val).sum := by
  have e : ((List.range entries.length).map fun i => ((entries[i]?).map val).getD 0)
      = ((List.range entries.length).map fun i => entries[i]?).map
        fun o => (o.map val).getD 0 := by
    rw [List.map_map]; rfl
  rw [e, map_range_getElem?, List.map_map]
  rfl

/-- A flux loop over the effective subset sums the terms of the full list:
the entries left out have the rate 0.0 and a term that is 0. -/
theorem fluxLoop_effective {α : Type} (entries : List α) (k : α → Rat)
    (term : α → Except Thrown Rat) (val : α → Rat)
    (hterm : ∀ e ∈ entries, term e = .ok (val e))
    (hzero : ∀ e ∈ entries, k e = 0 → val e = 0) :
    fluxLoop entries term (effective k entries) 0 = .ok (entries.map val).sum := by
  rw [fluxLoop_ok entries term val hterm _ 0 (by
    intro i hi
    exact List.mem_range.1 (List.mem_filter.1 hi).1)]
  unfold effective
  rw [sum_filter_of_zero _ _ _ (by
    intro i hi hp
    have hlt : i < entries.length := List.mem_range.1 hi
    rw [List.getElem?_eq_getElem hlt] at hp ⊢
    simp only [Option.map_some', ne_eq, Option.some.injEq, decide_not, Bool.not_eq_false',
      decide_eq_true_eq] at hp
    simp only [Option.map_some', Option.getD_some]
    exact hzero _ (List.getElem_mem hlt) hp), sum_range_getElem?, zero_add]

theorem concentrationAt_eq (objects : List Reactant) (h : Handle) (hlt : h < objects.length) :
    concentrationAt objects h = .ok (concentrationOf objects h) := by
  unfold concentrationAt concentrationOf
  rw [List.getElem?_eq_getElem hlt]
  rfl

/-- The effective lists `updateRateConstants` leaves are those of the rate
constants it has stored. -/
theorem weighted_updateRateConstants (laws : RateLaws) (objects : List Reactant)
    (r : Reactant) : (PSICluster.updateRateConstants laws objects r).Weighted :=
  ⟨rfl, rfl, rfl, rfl⟩

/-- C21: for a cluster whose effective lists are those of its rate constants
and whose connectivity lists hold valid pointers, whatever the concentrations
of the clusters, the production flux is the sum over the reacting pairs of
rate times the concentrations of the two clusters, the combination flux the
sum over the combining partners of rate times the concentration of this
cluster times that of the partner, the dissociation flux the sum over the
dissociating pairs of rate times the concentration of the parent, the emission
flux the sum over the emission pairs of rate times the concentration of this
cluster, and the total flux is production minus combination plus dissociation
minus emission; the sums run over the full lists. -/
theorem total_flux_is_sum_of_four (net : Network) (self : Handle) (this : Reactant)
    (hself : net.deref self = some this) (hw : this.Weighted)
    (hl : this.Linked net.objects) :
    PSICluster.getProductionFlux net self = .ok (this.reactingPairs.map fun p =>
        p.kConstant * concentrationOf net.objects p.first
          * concentrationOf net.objects p.second).sum ∧
      PSICluster.getCombinationFlux net self = .ok (this.combiningReactants.map fun c =>
        c.kConstant * this.concentration * concentrationOf net.objects c.combining).sum ∧
      PSICluster.getDissociationFlux net self = .ok (this.dissociatingPairs.map fun p =>
        p.kConstant * concentrationOf net.objects p.first).sum ∧
      PSICluster.getEmissionFlux net self = .ok (this.emissionPairs.map fun p =>
        p.kConstant * this.concentration).sum ∧
      PSICluster.getTotalFlux net self = .ok (
        (this.reactingPairs.map fun p =>
          p.kConstant * concentrationOf net.objects p.first
            * concentrationOf net.objects p.second).sum
        - (this.combiningReactants.map fun c =>
          c.kConstant * this.concentration * concentrationOf net.objects c.combining).sum
        + (this.dissociatingPairs.map fun p =>
          p.kConstant * concentrationOf net.objects p.first).sum
        - (this.emissionPairs.map fun p => p.kConstant * this.concentration).sum) := by
  have hself' : net.objects[self]? = some this := hself
  have hslt : self < net.objects.length := (List.getElem?_eq_some.1 hself').1
  have hcs : concentrationOf net.objects self = this.concentration := by
    unfold concentrationOf
    rw [hself']
    rfl
  obtain ⟨w1, w2, w3, w4⟩ := hw
  obtain ⟨l1, l2, l3⟩ := hl
  have hprod : PSICluster.getProductionFlux net self = .ok (this.reactingPairs.map fun p =>
      p.kConstant * concentrationOf net.objects p.first
        * concentrationOf net.objects p.second).sum := by
    unfold PSICluster.getProductionFlux
    rw [hself']
    simp only
    rw [w1]
    apply fluxLoop_effective
    · intro p hp
      unfold rateTimesTwo
      rw [concentrationAt_eq _ _ (l1 p hp).1, concentrationAt_eq _ _ (l1 p hp).2]
    · intro p _ hk
      rw [hk, zero_mul, zero_mul]
  have hcomb : PSICluster.getCombinationFlux net self = .ok (this.combiningReactants.map fun c =>
      c.kConstant * this.concentration * concentrationOf net.objects c.combining).sum := by
    unfold PSICluster.getCombinationFlux
    rw [hself']
    simp only
    rw [w2]
    apply fluxLoop_effective
    · intro c hc
      unfold rateTimesTwo
      rw [concentrationAt_eq _ _ hslt, concentrationAt_eq _ _ (l2 c hc), hcs]
    · intro c _ hk
      rw [hk, zero_mul, zero_mul]
  have hdiss : PSICluster.getDissociationFlux net self = .ok (this.dissociatingPairs.map fun p =>
      p.kConstant * concentrationOf net.objects p.first).sum := by
    unfold PSICluster.getDissociationFlux
    rw [hself']
    simp only
    rw [w3]
    apply fluxLoop_effective
    · intro p hp
      unfold rateTimesOne
      rw [concentrationAt_eq _ _ (l3 p hp)]
    · intro p _ hk
      rw [hk, zero_mul]
  have hemis : PSICluster.getEmissionFlux net self = .ok (this.emissionPairs.map fun p =>
      p.kConstant * this.concentration).sum := by
    unfold PSICluster.getEmissionFlux
    rw [hself']
    simp only
    rw [w4]
    apply fluxLoop_effective
    · intro p _
      unfold rateTimesOne
      rw [concentrationAt_eq _ _ hslt, hcs]
    · intro p _ hk
      rw [hk, zero_mul]
  refine ⟨hprod, hcomb, hdiss, hemis, ?_⟩
  unfold PSICluster.getTotalFlux
  rw [hprod, hcomb, hdiss, hemis]

set_option maxRecDepth 100000 in
/-- Witness of C21: in the example network `He_1` has the concentration 2,
three combining partners of the concentrations 2, 5 and 7 with the rate 1000,
and two dissociating pairs, one of the rate 0 and one of the rate 1000 whose
parent has the concentration 11; its total flux is
-1000 * 2 * (2 + 5 + 7) + 1000 * 11 = -17000. -/
theorem total_flux_is_sum_of_four_witness :
    (fluxNetwork.objects.get ⟨0, by decide⟩).Weighted ∧
      (fluxNetwork.objects.get ⟨0, by decide⟩).Linked fluxNetwork.objects ∧
      (fluxNetwork.objects.get ⟨0, by decide⟩).effDissociatingPairs = [1] ∧
      (fluxNetwork.objects.get ⟨0, by decide⟩).dissociatingPairs.length = 2 ∧
      PSICluster.getTotalFlux fluxNetwork 0 = .ok (-17000) :=
  ⟨by unfold Reactant.Weighted; decide, by unfold Reactant.Linked; decide, by decide, by decide,
    (total_flux_is_sum_of_four fluxNetwork 0 (fluxNetwork.objects.get ⟨0, by decide⟩) (by rfl)
      (by unfold Reactant.Weighted; decide) (by unfold Reactant.Linked; decide)).2.2.2.2.trans
      (by with_unfolding_all rfl)⟩

/-! ## Bubble bursting -/

theorem bubbleSlot_eq {net : Network} {bubbles : List Handle} {j : Int} {bubble : Handle}
    {b : Reactant} (h1 : elementAt bubbles j = some bubble)
    (h2 : net.objects[bubble]? = some b) : bubbleSlot net bubbles j = b.id - 1 := by
  unfold bubbleSlot
  rw [h1]
  simp only
  rw [h2]

theorem vacancySlot_eq {net : Network} {bubbles : List Handle} {j : Int} {bubble : Handle}
    {b : Reactant} {vCluster : Handle} {v : Reactant} (h1 : elementAt bubbles j = some bubble)
    (h2 : net.objects[bubble]? = some b)
    (h3 : get net vType b.composition.v = .ok (some vCluster))
    (h4 : net.objects[vCluster]? = some v) : vacancySlot net bubbles j = v.id - 1 := by
  unfold vacancySlot
  rw [h1]
  simp only
  rw [h2]
  simp only
  rw [h3]
  simp only
  rw [h4]

theorem bubbleLinked_spec {net : Network} {bubbles : List Handle} {j : Int}
    (h : bubbleLinked net bubbles j = true) :
    ∃ (bubble : Handle) (b : Reactant) (vCluster : Handle) (v : Reactant),
      elementAt bubbles j = some bubble ∧ net.objects[bubble]? = some b ∧
      get net vType b.composition.v = .ok (some vCluster) ∧
      net.objects[vCluster]? = some v := by
  unfold bubbleLinked at h
  cases h1 : elementAt bubbles j with
  | none => rw [h1] at h; exact absurd h (by simp)
  | some bubble =>
    rw [h1] at h
    simp only at h
    cases h2 : net.objects[bubble]? with
    | none => rw [h2] at h; exact absurd h (by simp)
    | some b =>
      rw [h2] at h
      simp only at h
      cases h3 : get net vType b.composition.v with
      | error e => rw [h3] at h; exact absurd h (by simp)
      | ok o =>
        rw [h3] at h
        cases o with
        | none => exact absurd h (by simp)
        | some vCluster =>
          simp only at h
          cases h4 : net.objects[vCluster]? with
          | none => rw [h4] at h; exact absurd h (by simp)
          | some v => exact ⟨bubble, b, vCluster, v, rfl, h2, h3, h4⟩

theorem writeIndex_two (pre : List Int) (y0 y1 : Int) (s : List Int) (i : Nat)
    (h : pre.length = 2 * i) (a b : Int) :
    writeIndex (pre ++ y0 :: y1 :: s) ((i : Int) * 2) a = some (pre ++ a :: y1 :: s) ∧
      writeIndex (pre ++ a :: y1 :: s) ((i : Int) * 2 + 1) b = some (pre ++ a :: b :: s) := by
  have e0 : ((i : Int) * 2).toNat = pre.length := by omega
  have e1 : ((i : Int) * 2 + 1).toNat = pre.length + 1 := by omega
  unfold writeIndex
  rw [e0, e1]
  constructor
  · rw [if_pos ⟨by omega, by simp⟩]
    simp
  · rw [if_pos ⟨by omega, by simp⟩]
    simp [List.set_append]

theorem writeSlot_two (pre : List Rat) (x0 x1 : Rat) (s : List Rat) (i : Nat)
    (h : pre.length = 2 * i) (a b : Rat) :
    writeSlot (pre ++ x0 :: x1 :: s) ((i : Int) * 2) a = some (pre ++ a :: x1 :: s) ∧
      writeSlot (pre ++ a :: x1 :: s) ((i : Int) * 2 + 1) b = some (pre ++ a :: b :: s) := by
  have e0 : ((i : Int) * 2).toNat = pre.length := by omega
  have e1 : ((i : Int) * 2 + 1).toNat = pre.length + 1 := by omega
  unfold writeSlot
  rw [e0, e1]
  constructor
  · rw [if_pos ⟨by omega, by simp⟩]
    simp
  · rw [if_pos ⟨by omega, by simp⟩]
    simp [List.set_append]

/-- One turn of the loop of `computePartialsForBursting`. -/
theorem partialsTurn_eq (handler : BubbleBurstingHandler) (net : Network)
    (bubbles : List Handle) (j : Int) (hj : bubbleLinked net bubbles j = true) (i : Nat)
    (preV : List Rat) (x0 x1 : Rat) (sufV : List Rat) (preI : List Int) (y0 y1 : Int)
    (sufI : List Int) (hV : preV.length = 2 * i) (hI : preI.length = 2 * i) :
    handler.partialsTurn net bubbles (preV ++ x0 :: x1 :: sufV) (preI ++ y0 :: y1 :: sufI) i j
      = .ok (preV ++ -handler.kBursting :: handler.kBursting :: sufV,
        preI ++ bubbleSlot net bubbles j :: vacancySlot net bubbles j :: sufI) := by
  obtain ⟨bubble, b, vCluster, v, h1, h2, h3, h4⟩ := bubbleLinked_spec hj
  rw [bubbleSlot_eq h1 h2, vacancySlot_eq h1 h2 h3 h4]
  unfold BubbleBurstingHandler.partialsTurn
  rw [h1]
  simp only
  rw [h2]
  simp only
  rw [(writeIndex_two preI y0 y1 sufI i hI (b.id - 1) (v.id - 1)).1]
  simp only
  rw [(writeSlot_two preV x0 x1 sufV i hV (-handler.kBursting) handler.kBursting).1]
  simp only
  rw [h3]
  simp only
  rw [h4]
  simp only
  rw [(writeIndex_two preI y0 y1 sufI i hI (b.id - 1) (v.id - 1)).2]
  simp only
  rw [(writeSlot_two preV x0 x1 sufV i hV (-handler.kBursting) handler.kBursting).2]

theorem partialsLoop_eq (handler : BubbleBurstingHandler) (net : Network)
    (bubbles : List Handle) :
    ∀ (clusterIndices : List Int) (i : Nat) (preV sufV : List Rat) (preI sufI : List Int),
    (∀ j ∈ clusterIndices, bubbleLinked net bubbles j = true) →
    preV.length = 2 * i → preI.length = 2 * i →
    2 * clusterIndices.length ≤ sufV.length → 2 * clusterIndices.length ≤ sufI.length →
    handler.partialsLoop net bubbles clusterIndices i (preV ++ sufV) (preI ++ sufI) =
      .ok (preV ++ (clusterIndices.flatMap fun _ => [-handler.kBursting, handler.kBursting])
          ++ sufV.drop (2 * clusterIndices.length),
        preI ++ (clusterIndices.flatMap fun j =>
            [bubbleSlot net bubbles j, vacancySlot net bubbles j])
          ++ sufI.drop (2 * clusterIndices.length)) := by
  intro clusterIndices
  induction clusterIndices with
  | nil =>
    intro i preV sufV preI sufI _ _ _ _ _
    simp [BubbleBurstingHandler.partialsLoop]
  | cons j rest ih =>
    intro i preV sufV preI sufI hl hV hI hsV hsI
    simp only [List.length_cons] at hsV hsI
    match sufV, hsV with
    | x0 :: x1 :: sV, hsV =>
      match sufI, hsI with
      | y0 :: y1 :: sI, hsI =>
        simp only [List.length_cons] at hsV hsI
        unfold BubbleBurstingHandler.partialsLoop
        rw [partialsTurn_eq handler net bubbles j (hl j (List.mem_cons_self _ _)) i
          preV x0 x1 sV preI y0 y1 sI hV hI]
        simp only
        have eV : preV ++ -handler.kBursting :: handler.kBursting :: sV
            = (preV ++ [-handler.kBursting, handler.kBursting]) ++ sV := by simp
        have eI : preI ++ bubbleSlot net bubbles j :: vacancySlot net bubbles j :: sI
            = (preI ++ [bubbleSlot net bubbles j, vacancySlot net bubbles j]) ++ sI := by simp
        rw [eV, eI, ih (i + 1) _ sV _ sI (fun k hk => hl k (List.mem_cons_of_mem _ hk))
          (by simp; omega) (by simp; omega) (by omega) (by omega)]
        have ed : 2 * (rest.length + 1) = 2 * rest.length + 1 + 1 := by ring
        simp only [List.flatMap_cons, List.append_assoc, List.length_cons, ed,
          List.drop_succ_cons]
      | [y0], hsI => simp only [List.length_cons, List.length_nil] at hsI; omega
      | [], hsI => simp only [List.length_nil] at hsI; omega
    | [x0], hsV => simp only [List.length_cons, List.length_nil] at hsV; omega
    | [], hsV => simp only [List.length_nil] at hsV; omega

theorem getElem?_pairs {α β : Type} (f g : α → β) (t : List β) :
    ∀ (l : List α) (i : Nat), i < l.length →
      ((l.flatMap fun j => [f j, g j]) ++ t)[2 * i]? = (l[i]?).map f ∧
      ((l.flatMap fun j => [f j, g j]) ++ t)[2 * i + 1]? = (l[i]?).map g := by
  intro l
  induction l with
  | nil => intro i hi; exact absurd hi (Nat.not_lt_zero i)
  | cons a rest ih =>
    intro i hi
    cases i with
    | zero => simp
    | succ k =>
      have hk : k < rest.length := by simpa using hi
      have e0 : 2 * (k + 1) = 2 * k + 1 + 1 := by ring
      have e1 : 2 * (k + 1) + 1 = (2 * k + 1) + 1 + 1 := by ring
      obtain ⟨h0, h1⟩ := ih k hk
      constructor
      · rw [e0]
        simpa using h0
      · rw [e1]
        simpa using h1

/-- C22: when the grid point `xi` has a list of `m` entries, every entry
leads to a bubble and to the V cluster with the number of vacancies of the
bubble, and the arrays `val` and `indices` hold at least `2 * m` slots,
`computePartialsForBursting` returns `m`; afterwards the arrays hold, for
every `i < m`, at `2 * i` the slot `id - 1` of the bubble of the entry `i` and
`-kBursting`, at `2 * i + 1` the slot `id - 1` of the V cluster and
`kBursting`, and from `2 * m` on what they held before. -/
theorem computePartialsForBursting_writes_pairs (handler : BubbleBurstingHandler)
    (net : Network) (val : List Rat) (indices : List Int) (xi : Int) (bubbles : List Handle)
    (clusterIndices : List Int) (hb : getAllOfType net heVType = .ok bubbles)
    (hxi : elementAt handler.indexVector xi = some clusterIndices)
    (hlinked : ∀ j ∈ clusterIndices, bubbleLinked net bubbles j = true)
    (hval : 2 * clusterIndices.length ≤ val.length)
    (hind : 2 * clusterIndices.length ≤ indices.length) :
    ∃ (val' : List Rat) (indices' : List Int),
      handler.computePartialsForBursting net val indices xi
        = .ok ((clusterIndices.length : Int), val', indices') ∧
      val' = (clusterIndices.flatMap fun _ => [-handler.kBursting, handler.kBursting])
        ++ val.drop (2 * clusterIndices.length) ∧
      indices' = (clusterIndices.flatMap fun j =>
          [bubbleSlot net bubbles j, vacancySlot net bubbles j])
        ++ indices.drop (2 * clusterIndices.length) ∧
      (∀ i : Nat, i < clusterIndices.length →
        indices'[2 * i]? = (clusterIndices[i]?).map (bubbleSlot net bubbles) ∧
        val'[2 * i]? = some (-handler.kBursting) ∧
        indices'[2 * i + 1]? = (clusterIndices[i]?).map (vacancySlot net bubbles) ∧
        val'[2 * i + 1]? = some handler.kBursting) ∧
      val'.length = val.length ∧ indices'.length = indices.length ∧
      val'.drop (2 * clusterIndices.length) = val.drop (2 * clusterIndices.length) ∧
      indices'.drop (2 * clusterIndices.length) = indices.drop (2 * clusterIndices.length) := by
  have hloop := partialsLoop_eq handler net bubbles clusterIndices 0 [] val [] indices hlinked
    rfl rfl hval hind
  simp only [List.nil_append] at hloop
  have hlenV : ∀ (a b : Rat) (l : List Int), (l.flatMap fun _ => [a, b]).length = 2 * l.length := by
    intro a b l
    induction l with
    | nil => rfl
    | cons x t ih => simp only [List.flatMap_cons, List.length_append, ih]; simp; ring
  have hlenI : ∀ (f g : Int → Int) (l : List Int),
      (l.flatMap fun j => [f j, g j]).length = 2 * l.length := by
    intro f g l
    induction l with
    | nil => rfl
    | cons x t ih => simp only [List.flatMap_cons, List.length_append, ih]; simp; ring
  refine ⟨_, _, ?_, rfl, rfl, ?_, ?_, ?_, ?_, ?_⟩
  · unfold BubbleBurstingHandler.computePartialsForBursting
    rw [hb]
    simp only
    rw [hxi]
    simp only
    rw [hloop]
  · intro i hi
    have hv := getElem?_pairs (fun _ : Int => -handler.kBursting) (fun _ => handler.kBursting)
      (val.drop (2 * clusterIndices.length)) clusterIndices i hi
    have hx := getElem?_pairs (bubbleSlot net bubbles) (vacancySlot net bubbles)
      (indices.drop (2 * clusterIndices.length)) clusterIndices i hi
    rw [List.getElem?_eq_getElem hi] at hv
    exact ⟨hx.1, hv.1, hx.2, hv.2⟩
  · rw [List.length_append, hlenV, List.length_drop]
    omega
  · rw [List.length_append, hlenI, List.length_drop]
    omega
  · exact List.drop_left' (hlenV _ _ _)
  · exact List.drop_left' (hlenI _ _ _)

set_option maxRecDepth 100000 in
/-- Witness of C22: in the example network the third grid point lists the
bubbles `HeV(3,1)` (id 2) and `HeV(7,2)` (id 5), whose V clusters have the ids
1 and 4; the call returns 2, writes the slots 1, 0, 4, 3 and the values
-4, 4, -4, 4 and leaves the fifth entry of both arrays alone.  For the second
grid point, which lists a bubble with three vacancies while the network holds
no V cluster of this size, the embedding reports the dereference of a null
pointer. -/
theorem computePartialsForBursting_writes_pairs_witness :
    exampleHandler.computePartialsForBursting bubbleNetwork [9, 9, 9, 9, 9] [7, 7, 7, 7, 7] 2
        = .ok (2, [-4, 4, -4, 4, 9], [1, 0, 4, 3, 7]) ∧
      exampleHandler.computePartialsForBursting bubbleNetwork [9, 9, 9, 9, 9, 9, 9]
        [7, 7, 7, 7, 7, 7, 7] 1 = .error .nullDereference := by
  obtain ⟨val', indices', h, hv, hi, -⟩ :=
    computePartialsForBursting_writes_pairs exampleHandler bubbleNetwork [9, 9, 9, 9, 9]
      [7, 7, 7, 7, 7] 2 [1, 2, 4] [0, 2] (by rfl) (by rfl) (by decide) (by decide) (by decide)
  refine ⟨?_, by rfl⟩
  rw [h, hv, hi]
  with_unfolding_all rfl

/-! ## Conservation in `computeBursting` -/

theorem sum_set_add : ∀ (a : List Rat) (n : Nat) (h : n < a.length) (x : Rat),
    (a.set n (a[n] + x)).sum = a.sum + x := by
  intro a
  induction a with
  | nil => intro n h; exact absurd h (Nat.not_lt_zero n)
  | cons y t ih =>
    intro n h x
    cases n with
    | zero => simp; ring
    | succ k =>
      have hk : k < t.length := by simpa using h
      simp only [List.set_cons_succ, List.sum_cons, List.getElem_cons_succ, ih k hk x]
      ring

/-- The update `array[k] += x` inside the array. -/
theorem addToSlot_spec (a : List Rat) (k : Int) (x : Rat) (h0 : 0 ≤ k)
    (hk : k.toNat < a.length) :
    ∃ a', addToSlot a k x = some a' ∧ a'.length = a.length ∧ a'.sum = a.sum + x ∧
      ∀ s : Nat, a'.getD s 0 = a.getD s 0 + if k = (s : Int) then x else 0 := by
  refine ⟨a.set k.toNat (a[k.toNat] + x), ?_, List.length_set _ _ _, sum_set_add a _ hk x, ?_⟩
  · unfold addToSlot readSlot writeSlot
    rw [if_pos h0, List.getElem?_eq_getElem hk]
    simp only
    rw [if_pos ⟨h0, hk⟩]
  · intro s
    rw [List.getD_eq_getElem?_getD, List.getD_eq_getElem?_getD, List.getElem?_set]
    by_cases hs : k.toNat = s
    · have hks : k = (s : Int) := by omega
      rw [if_pos hs, if_pos hks, if_pos hk]
      subst hs
      rw [List.getElem?_eq_getElem hk]
      rfl
    · have hks : ¬ k = (s : Int) := by omega
      rw [if_neg hs, if_neg hks, add_zero]

theorem bubbleListed_spec {net : Network} {bubbles : List Handle} {n : Nat} {j : Int}
    (h : bubbleListed net bubbles n j = true) :
    ∃ (bubble : Handle) (b : Reactant),
      elementAt bubbles j = some bubble ∧ net.objects[bubble]? = some b ∧
      0 ≤ b.id - 1 ∧ (b.id - 1).toNat < n := by
  unfold bubbleListed at h
  cases h1 : elementAt bubbles j with
  | none => rw [h1] at h; exact absurd h (by simp)
  | some bubble =>
    rw [h1] at h
    simp only at h
    cases h2 : net.objects[bubble]? with
    | none => rw [h2] at h; exact absurd h (by simp)
    | some b =>
      rw [h2] at h
      simp only [decide_eq_true_eq] at h
      exact ⟨bubble, b, rfl, h2, h.1, h.2⟩

theorem change_of_zero (handler : BubbleBurstingHandler) (net : Network)
    (bubbles : List Handle) (concOffset : List Rat) (s : Nat) (j : Int)
    (h : bubbleConcentration net bubbles concOffset j = 0) :
    handler.change net bubbles concOffset s j = 0 := by
  unfold BubbleBurstingHandler.change
  rw [h, mul_zero]
  simp

/-- One turn of the loop of `computeBursting`. -/
theorem burst_spec (handler : BubbleBurstingHandler) (net : Network) (bubbles : List Handle)
    (concOffset updatedConcOffset : List Rat) (j : Int)
    (hj : burstReady net bubbles concOffset updatedConcOffset.length j = true) :
    ∃ updated, handler.burst net bubbles concOffset updatedConcOffset j = .ok updated ∧
      updated.length = updatedConcOffset.length ∧ updated.sum = updatedConcOffset.sum ∧
      ∀ s : Nat, updated.getD s 0 =
        updatedConcOffset.getD s 0 + handler.change net bubbles concOffset s j := by
  unfold burstReady at hj
  simp only [Bool.and_eq_true, Bool.or_eq_true, decide_eq_true_eq] at hj
  obtain ⟨⟨hu, hc⟩, hrest⟩ := hj
  obtain ⟨bubble, b, h1, h2, hb0, hbu⟩ := bubbleListed_spec hu
  obtain ⟨bubble', b', h1', h2', -, hbc⟩ := bubbleListed_spec hc
  have eb : bubble' = bubble := Option.some.inj (h1'.symm.trans h1)
  subst eb
  have eb' : b' = b := Option.some.inj (h2'.symm.trans h2)
  subst eb'
  have hslot := bubbleSlot_eq h1 h2
  have hread : readSlot concOffset (b'.id - 1) = some concOffset[(b'.id - 1).toNat] := by
    unfold readSlot
    rw [if_pos hb0, List.getElem?_eq_getElem hbc]
  have hconc : bubbleConcentration net bubbles concOffset j
      = concOffset[(b'.id - 1).toNat] := by
    unfold bubbleConcentration
    rw [hslot, hread]
    rfl
  by_cases hz : concOffset[(b'.id - 1).toNat] = 0
  · refine ⟨updatedConcOffset, ?_, rfl, rfl, ?_⟩
    · unfold BubbleBurstingHandler.burst
      rw [h1]
      simp only
      rw [h2]
      simp only
      rw [hread]
      simp only
      rw [if_pos hz]
    · intro s
      rw [change_of_zero handler net bubbles concOffset s j (hconc.trans hz), add_zero]
  · rcases hrest with h0 | ⟨hlinked, hv0, hvu⟩
    · exact absurd (hconc.symm.trans h0) hz
    · obtain ⟨bubble2, b2, vCluster, v, g1, g2, g3, g4⟩ := bubbleLinked_spec hlinked
      have eb : bubble2 = bubble' := Option.some.inj (g1.symm.trans h1)
      subst eb
      have eb' : b2 = b' := Option.some.inj (g2.symm.trans h2)
      subst eb'
      have hvslot := vacancySlot_eq g1 g2 g3 g4
      rw [hvslot] at hv0 hvu
      obtain ⟨u1, hu1, hl1, hs1, hg1⟩ := addToSlot_spec updatedConcOffset (b2.id - 1)
        (-(handler.kBursting * concOffset[(b2.id - 1).toNat])) hb0 hbu
      obtain ⟨u2, hu2, hl2, hs2, hg2⟩ := addToSlot_spec u1 (v.id - 1)
        (handler.kBursting * concOffset[(b2.id - 1).toNat]) hv0 (by rw [hl1]; exact hvu)
      refine ⟨u2, ?_, by rw [hl2, hl1], by rw [hs2, hs1]; ring, ?_⟩
      · unfold BubbleBurstingHandler.burst
        rw [g1]
        simp only
        rw [g2]
        simp only
        rw [hread]
        simp only
        rw [if_neg hz, g3]
        simp only
        rw [g4]
        simp only
        rw [hu1]
        simp only
        rw [hu2]
      · intro s
        rw [hg2 s, hg1 s]
        unfold BubbleBurstingHandler.change
        rw [hvslot, hslot, hconc]
        by_cases c1 : v.id - 1 = (s : Int) <;> by_cases c2 : b2.id - 1 = (s : Int) <;>
          simp only [c1, c2, if_true, if_false] <;> ring

theorem burstLoop_spec (handler : BubbleBurstingHandler) (net : Network)
    (bubbles : List Handle) (concOffset : List Rat) :
    ∀ (indices : List Int) (updatedConcOffset : List Rat),
    (∀ j ∈ indices, burstReady net bubbles concOffset updatedConcOffset.length j = true) →
    ∃ updated, handler.burstLoop net bubbles concOffset indices updatedConcOffset
        = .ok updated ∧
      updated.length = updatedConcOffset.length ∧ updated.sum = updatedConcOffset.sum ∧
      ∀ s : Nat, updated.getD s 0 = updatedConcOffset.getD s 0
        + (indices.map (handler.change net bubbles concOffset s)).sum := by
  intro indices
  induction indices with
  | nil =>
    intro u _
    exact ⟨u, rfl, rfl, rfl, fun s => by simp⟩
  | cons j rest ih =>
    intro u hready
    obtain ⟨u1, hu1, hl1, hs1, hg1⟩ :=
      burst_spec handler net bubbles concOffset u j (hready j (List.mem_cons_self _ _))
    obtain ⟨u2, hu2, hl2, hs2, hg2⟩ := ih u1 (by
      intro k hk
      rw [hl1]
      exact hready k (List.mem_cons_of_mem _ hk))
    refine ⟨u2, ?_, by rw [hl2, hl1], by rw [hs2, hs1], ?_⟩
    · unfold BubbleBurstingHandler.burstLoop
      rw [hu1]
      exact hu2
    · intro s
      rw [hg2 s, hg1 s, List.map_cons, List.sum_cons]
      ring

theorem sum_zipWith_sub : ∀ (a b : List Rat), a.length = b.length →
    (List.zipWith (fun x y => x - y) a b).sum = a.sum - b.sum := by
  intro a
  induction a with
  | nil => intro b h; cases b with
    | nil => simp
    | cons y t => simp at h
  | cons x s ih =>
    intro b h
    cases b with
    | nil => simp at h
    | cons y t =>
      have ht : s.length = t.length := by simpa using h
      simp only [List.zipWith_cons_cons, List.sum_cons, ih t ht]
      ring

/-- C29: when the entries of the list of the grid point lead to bubbles whose
slots lie in the two arrays and, for every bubble whose concentration is not
0.0, to a V cluster with the number of vacancies of the bubble whose slot lies
in the update array, `computeBursting` returns; the update array keeps its
length and its sum, so the changes sum to zero; the slot `s` has changed by
the sum, over the entries whose bubble has a concentration `c` other than 0.0,
of `kBursting * c` if `s` is the slot of the V cluster, minus `kBursting * c`
if `s` is the slot of the bubble; an entry whose bubble has the concentration
0.0 changes no slot. -/
theorem computeBursting_conserves_total (handler : BubbleBurstingHandler) (net : Network)
    (xi : Int) (concOffset updatedConcOffset : List Rat) (bubbles : List Handle)
    (indices : List Int) (hb : getAllOfType net heVType = .ok bubbles)
    (hxi : elementAt handler.indexVector xi = some indices)
    (hready : ∀ j ∈ indices,
      burstReady net bubbles concOffset updatedConcOffset.length j = true) :
    ∃ updated, handler.computeBursting net xi concOffset updatedConcOffset = .ok updated ∧
      updated.length = updatedConcOffset.length ∧
      updated.sum = updatedConcOffset.sum ∧
      (List.zipWith (fun x y => x - y) updated updatedConcOffset).sum = 0 ∧
      (∀ s : Nat, updated.getD s 0 = updatedConcOffset.getD s 0 +
        ((indices.filter fun j =>
            decide (bubbleConcentration net bubbles concOffset j ≠ 0)).map
          (handler.change net bubbles concOffset s)).sum) ∧
      (∀ (j : Int) (s : Nat), bubbleConcentration net bubbles concOffset j = 0 →
        handler.change net bubbles concOffset s j = 0) := by
  obtain ⟨updated, hu, hl, hs, hg⟩ :=
    burstLoop_spec handler net bubbles concOffset indices updatedConcOffset hready
  refine ⟨updated, ?_, hl, hs, ?_, ?_, ?_⟩
  · unfold BubbleBurstingHandler.computeBursting
    rw [hb]
    simp only
    rw [hxi]
    exact hu
  · rw [sum_zipWith_sub updated updatedConcOffset hl, hs, sub_self]
  · intro s
    rw [hg s, sum_filter_of_zero _ _ indices (by
      intro j _ hp
      apply change_of_zero
      simpa using hp)]
  · intro j s h
    exact change_of_zero handler net bubbles concOffset s j h

set_option maxRecDepth 100000 in
/-- Witness of C29: in the example network the second grid point lists the
bubbles with the slots 1, 2 and 4 and the concentrations 3, 0 and 5; with the
rate 4 the call moves 12 from the slot 1 to the slot 0 of `V_1` and 20 from
the slot 4 to the slot 3 of `V_2`, and skips the bubble of the slot 2, for
which the network holds no V cluster. -/
theorem computeBursting_conserves_total_witness :
    exampleHandler.computeBursting bubbleNetwork 1 [1, 3, 0, 0, 5] [0, 0, 0, 0, 0]
        = .ok [12, -12, 0, 20, -20] ∧
      bubbleLinked bubbleNetwork [1, 2, 4] 1 = false ∧
      (∃ updated, exampleHandler.computeBursting bubbleNetwork 1 [1, 3, 0, 0, 5]
          [0, 0, 0, 0, 0] = .ok updated ∧ updated.sum = ([0, 0, 0, 0, 0] : List Rat).sum) := by
  obtain ⟨updated, h, -, hs, -⟩ :=
    computeBursting_conserves_total exampleHandler bubbleNetwork 1 [1, 3, 0, 0, 5]
      [0, 0, 0, 0, 0] [1, 2, 4] [0, 1, 2] (by rfl) (by rfl) (by decide)
  exact ⟨by with_unfolding_all rfl, by decide, updated, h, hs⟩

end Xolotl
